import Mathlib

/-!
# Qarma: command-line parsing, dialog builders and live protocols

A shallow embedding of `src/Qarma.cpp`: the argument handling (the tokenizer
in the constructor, `readGeneral`, the mode dispatch loop), the builders
`showCalendar`, `showList`, `showScale`, `showProgress`, `showText` and
`showForms` with `buildList`, the handlers `readStdIn`, `toggleItems` and
`dialogFinished`, and `notify`, together with the properties proved about
them.

Modelling conventions

* A `QString` is a list of characters; the null and the empty `QString`
  (which compare equal in Qt) are both `[]`. Where the code compares a length
  with a constant or cuts at a constant position, the string is taken in
  UTF-16 code units (`utf16`), which is what `QString` counts.
* A `QStringList` is a list of `QString`s; `at_` is its `at(i)`.
* C++ `int` values are `Int`s; the narrowing of an `unsigned int` into an
  `int` is made explicit by `toInt32`.
* Loops whose index is advanced inside the body are written as recursive
  functions on a fuel argument; running out of fuel yields `none`.
* Side effects are recorded in the object: text written with `printf` is
  appended to `out`, queued slot invocations to `posted`, timers to `timers`.
-/

namespace Qarma

/-! ## Strings -/

abbrev QString := List Char

abbrev QStringList := List QString

/-- Qt's `QString::startsWith`. -/
def startsWith (s p : QString) : Bool := p.isPrefixOf s

/-- Qt's `QString::indexOf(QChar)`: the index of the first occurrence, `-1` when there is none. -/
def indexOf (s : QString) (c : Char) : Int :=
  if c ∈ s then (s.indexOf c : Nat) else -1

/-- Qt's `QString::left(n)`: the whole string when `n` is negative or not less than the size. -/
def left (s : QString) (n : Int) : QString :=
  if n < 0 ∨ (s.length : Int) ≤ n then s else s.take n.toNat

/-- Qt's `QString::mid(position)`: the null string when `position` exceeds the size. -/
def mid (s : QString) (position : Int) : QString :=
  if (s.length : Int) < position then [] else s.drop position.toNat

/-- Qt's `QStringList::at(i)`; every read in the model is guarded by a bounds test. -/
def at_ (l : QStringList) (i : Nat) : QString := l.getD i []

/-! ## Tokenizer (constructor, lines 85-98) -/

/-- The body of the tokenizer loop for one argument. -/
def tokenizeArg (a : QString) : QStringList :=
  if startsWith a "--".toList then
    let split := indexOf a '='
    if split > -1 then [left a split, mid a (split + 1)] else [a]
  else [a]

/-- The tokenizer loop: `for (int i = 1; i < argList.count(); ++i)`. -/
def tokenize (argList : QStringList) : QStringList :=
  (List.range' 1 (argList.length - 1)).foldl
    (fun args i => args ++ tokenizeArg (at_ argList i)) []

/-- The tokens of one argument as the specification words them: an argument
that starts with `--` and contains `=` gives the text before and the text
after its first `=`; any other argument is passed through. -/
def specTokens (a : QString) : QStringList :=
  if a.take 2 = ['-', '-'] ∧ '=' ∈ a then
    [a.takeWhile (fun c => c != '='), (a.dropWhile (fun c => c != '=')).drop 1]
  else [a]

/-! ## List rows (`showList`, lines 626-655; `buildList`, lines 998-1016) -/

/-- The inner loop `for (int j = 0; j < columnCount; ++j)` of the row builder;
the first argument counts the iterations that are left. It returns the
advanced index `i` and the cells of the row; `none` stands for a read of
`values.at(i)` outside the list. -/
def rowLoop (values : QStringList) : Nat → Nat → QStringList → Option (Nat × QStringList)
  | 0, i, itemValues => some (i, itemValues)
  | k + 1, i, itemValues =>
    if i < values.length then
      let itemValues := itemValues ++ [at_ values i]
      let i := i + 1
      if i = values.length then some (i, itemValues) else rowLoop values k i itemValues
    else none

/-- The outer loop `for (int i = 0; i < values.count(); )`, which has no
increment of its own. It returns the rows handed to the tree widget; `none`
stands for exhausted fuel or an out-of-bounds read. -/
def rowsLoop (values : QStringList) (columnCount : Nat) :
    Nat → Nat → List QStringList → Option (List QStringList)
  | fuel, i, rows =>
    if i < values.length then
      match fuel with
      | 0 => none
      | fuel + 1 =>
        match rowLoop values columnCount i [] with
        | none => none
        | some (i, itemValues) => rowsLoop values columnCount fuel i (rows ++ [itemValues])
    else some rows

/-- The rows `showList` builds from its value and column lists. -/
def showListItems (values columns : QStringList) : Option (List QStringList) :=
  let columnCount := max columns.length 1
  rowsLoop values columnCount values.length 0 []

/-- The rows `buildList` builds from its value and column lists when a tree
widget is pending (`*tree` is not null). -/
def buildListItems (values columns : QStringList) : Option (List QStringList) :=
  let columnCount := if columns.length ≠ 0 then columns.length else 1
  rowsLoop values columnCount values.length 0 []

/-! ## Numbers -/

/-- Qt's `QChar::isSpace`: the space, the controls 9 to 13, the next-line
control, and the Unicode separators. -/
def isSpace (c : Char) : Bool :=
  let u := c.toNat
  u = 0x20 ∨ (0x09 ≤ u ∧ u ≤ 0x0d) ∨ u = 0x85 ∨ u = 0xa0 ∨ u = 0x1680 ∨
    (0x2000 ≤ u ∧ u ≤ 0x200a) ∨ u = 0x2028 ∨ u = 0x2029 ∨ u = 0x202f ∨ u = 0x205f ∨
    u = 0x3000

/-- Qt's `QString::trimmed`. -/
def trimmed (s : QString) : QString :=
  ((s.dropWhile isSpace).reverse.dropWhile isSpace).reverse

def digitValue (c : Char) : Nat := c.toNat - '0'.toNat

/-- Qt's `QString::toUInt(&ok)` in base 10, a function of the Qt library: surrounding
white space is skipped, a leading `+` is allowed, the rest must be a non-empty
run of decimal digits whose value fits 32 bits. `none` stands for `ok == false`. -/
def toUInt (s : QString) : Option Nat :=
  let t := trimmed s
  let digits := if t.head? = some '+' then t.tail else t
  if digits ≠ [] ∧ digits.all Char.isDigit then
    let v := digits.foldl (fun acc c => 10 * acc + digitValue c) 0
    if v < 2 ^ 32 then some v else none
  else none

/-- The conversion of an `unsigned int` to `int` (`const int w = s.toUInt(&ok)`). -/
def toInt32 (n : Nat) : Int :=
  if n % 2 ^ 32 < 2 ^ 31 then ((n % 2 ^ 32 : Nat) : Int) else ((n % 2 ^ 32 : Nat) : Int) - 2 ^ 32

/-- A 32-bit `int` result, wrapped. -/
def wrap32 (x : Int) : Int := toInt32 (x % 2 ^ 32).toNat

/-- The `char` a `bool` converts to. -/
def boolToChar (b : Bool) : Nat := if b then 1 else 0

/-! ## Widgets

The state of the Qt widgets the code builds and queries, as far as the code
depends on it. -/


/-- The slots of a dialog that `canceled()` gets connected to. -/
inductive DialogSlot
  | accept | reject
  deriving DecidableEq, Repr

/-- What the code reads and writes of a `QProgressDialog`: range and value of
the bar (a fresh dialog has range 0..100 and value -1), the label, the
cancel button, the two dynamic properties, and the connections the code makes
from `canceled()`, in the order they were made. -/
structure QProgressDialog where
  minimum : Int := 0
  maximum : Int := 100
  value : Int := -1
  autoReset : Bool := true
  labelText : QString := []
  cancelButtonText : QString := "Cancel".toList
  cancelButtonHidden : Bool := false
  qarma_autoclose : Bool := false
  qarma_autokill_parent : Bool := false
  canceled : List DialogSlot := []
  deriving DecidableEq, Repr

namespace QProgressDialog

/-- Qt's `reset`: the value goes to one below the minimum. -/
def reset (d : QProgressDialog) : QProgressDialog := { d with value := d.minimum - 1 }

/-- Qt's `setRange`: the maximum is not left below the minimum, and a value
that falls outside the new range is reset. -/
def setRange (d : QProgressDialog) (minimum maximum : Int) : QProgressDialog :=
  if minimum ≠ d.minimum ∨ maximum ≠ d.maximum then
    let d := { d with minimum := minimum, maximum := max minimum maximum }
    if d.value < d.minimum - 1 ∨ d.value > d.maximum then reset d else d
  else d

/-- Qt's `setValue`: a value outside the range has no effect unless the range
is 0..0; a dialog with `autoReset` resets itself when the value set is its
maximum (and not also its minimum). -/
def setValue (d : QProgressDialog) (progress : Int) : QProgressDialog :=
  let d :=
    if (progress > d.maximum ∨ progress < d.minimum) ∧ (d.maximum ≠ 0 ∨ d.minimum ≠ 0) then d
    else { d with value := progress }
  if progress = d.maximum ∧ progress ≠ d.minimum ∧ d.autoReset = true then reset d else d

/-- Qt's `disconnect` of `canceled()` from one slot: every such connection goes. -/
def disconnect (d : QProgressDialog) (slot : DialogSlot) : QProgressDialog :=
  { d with canceled := d.canceled.filter (fun s => decide (s ≠ slot)) }

/-- Qt's `connect` of `canceled()` to one slot. -/
def connect (d : QProgressDialog) (slot : DialogSlot) : QProgressDialog :=
  { d with canceled := d.canceled ++ [slot] }

end QProgressDialog

/-- A top-level item of a tree widget: the texts of its columns, whether the
check box of column 0 is checked, two of its flags, and the file its icon was
loaded from. The flags of a fresh item hold `Qt::ItemIsUserCheckable` and
not `Qt::ItemIsEditable`. -/
structure QTreeWidgetItem where
  text : QStringList := []
  checked : Bool := false
  editable : Bool := false
  userCheckable : Bool := true
  icon : Option QString := none
  deriving DecidableEq, Repr

/-- Qt's `QTreeWidgetItem::text(column)`: the null string for a column the item has not. -/
def QTreeWidgetItem.textAt (item : QTreeWidgetItem) (column : Nat) : QString :=
  item.text.getD column []

/-- The selection modes the code sets. -/
inductive SelectionMode
  | SingleSelection | ExtendedSelection | NoSelection
  deriving DecidableEq, Repr

/-- A tree widget: what `showList` and `buildList` set, the top-level items,
and the items `selectedItems()` returns. -/
structure QTreeWidget where
  selectionMode : SelectionMode := SelectionMode.SingleSelection
  allColumnsShowFocus : Bool := false
  columnCount : Nat := 1
  headerLabels : QStringList := []
  headerHidden : Bool := false
  hiddenColumns : List Int := []
  topLevelItems : List QTreeWidgetItem := []
  selectedItems : List QTreeWidgetItem := []
  deriving DecidableEq, Repr

/-- A slider: a fresh one has range 0..99, value 0 and single step 1. -/
structure QSlider where
  minimum : Int := 0
  maximum : Int := 99
  value : Int := 0
  singleStep : Int := 1
  deriving DecidableEq, Repr

namespace QSlider

/-- Qt's `setValue`: the value is bound to the range. -/
def setValue (s : QSlider) (value : Int) : QSlider :=
  { s with value := max s.minimum (min s.maximum value) }

/-- Qt's `setRange`: the maximum is not left below the minimum, the value is bound again. -/
def setRange (s : QSlider) (minimum maximum : Int) : QSlider :=
  let s := { s with minimum := minimum, maximum := max minimum maximum }
  s.setValue s.value

/-- Qt's `setMinimum`. -/
def setMinimum (s : QSlider) (minimum : Int) : QSlider :=
  s.setRange minimum (max s.maximum minimum)

/-- Qt's `setMaximum`. -/
def setMaximum (s : QSlider) (maximum : Int) : QSlider :=
  s.setRange (min s.minimum maximum) maximum

/-- Qt's `setSingleStep`: the absolute value is stored. -/
def setSingleStep (s : QSlider) (step : Int) : QSlider :=
  { s with singleStep := |step| }

end QSlider

/-- The dialog `showList` builds: the label, the tree, the separator
property, and whether `itemChanged` is connected to `toggleItems`. -/
structure ListDialog where
  labelText : QString := []
  tree : QTreeWidget := {}
  qarma_separator : QString := "|".toList
  toggleItemsConnected : Bool := false
  deriving DecidableEq, Repr

/-- The dialog `showScale` builds: the label, the slider, whether the value
label is hidden, and how often `valueChanged` is connected to `printInteger`. -/
structure ScaleDialog where
  labelText : QString := "Enter a value".toList
  slider : QSlider := {}
  valueHidden : Bool := false
  printPartial : Nat := 0
  deriving DecidableEq, Repr

/-- A row of the form layout of `showForms`: the label and the field widget
with what the builder put into it. -/
inductive FormField
  | lineEdit (label : QString) (password : Bool)
  | calendar (label : QString)
  | tree (label : QString) (headerHidden : Bool) (headerLabels : QStringList)
      (items : List QStringList)
  | combo (label : QString) (items : QStringList)
  | checkBox (label : QString)
  deriving DecidableEq, Repr

/-- The dialog `showForms` builds: the bold label, the rows of the form, and
the two properties. -/
structure FormsDialog where
  labelText : QString := []
  fields : List FormField := []
  qarma_separator : QString := "|".toList
  qarma_date_format : QString := []
  deriving DecidableEq, Repr

/-- The dialog `showText` builds: the text given to the text edit, whether
the text edit is read-only, its font, its `qarma_autoscroll` property, the
labels of the check boxes added, whether the Ok button is enabled, and whether
the dialog listens to standard input. -/
structure TextDialog where
  text : QString := []
  readOnly : Bool := true
  font : Option QString := none
  qarma_autoscroll : Bool := false
  checkBoxes : List QString := []
  okEnabled : Bool := true
  listening : Bool := false
  deriving DecidableEq, Repr

/-! ## The application object -/

/-- The values of `m_type`. -/
inductive DialogType
  | Invalid | Calendar | Entry | Error | Info | FileSelection | List | Notification
  | Progress | Question | Warning | Scale | TextInfo | ColorSelection | Password | Forms
  deriving DecidableEq, Repr

/-- The slots invoked through the event queue. -/
inductive Slot
  | quit | quitOnError
  deriving DecidableEq, Repr

/-- A piece of text written to standard output: a `printf` of a string, or
the output of `printHelp(category)`. -/
inductive Printed
  | text (s : QString)
  | help (category : QString)
  deriving DecidableEq, Repr

/-- A `QSize`; a default constructed one is `(-1, -1)`. -/
structure QSize where
  wd : Int := -1
  ht : Int := -1
  deriving DecidableEq, Repr

/-- The dialog `m_dialog` points to once `SHOW_DIALOG` has run. The Calendar
dialog carries its labels, the date given to `setDate(y, m, d)` and the
`qarma_date_format` property; the fallback notification its text. The
constructor `other` is the dialog of a builder run from the dispatch loop,
where only its type matters; `list`, `scale`, `progress`, `forms` and `text`
carry what the builders `showList`, `showScale`, `showProgress`, `showForms`
and `showText` put into the dialog. -/
inductive Dialog
  | calendar (labels : List QString) (y m d : Int) (date_format : QString)
  | notification (text : QString)
  | other (type : DialogType)
  | list (dlg : ListDialog)
  | scale (dlg : ScaleDialog)
  | progress (dlg : QProgressDialog)
  | forms (dlg : FormsDialog)
  | text (dlg : TextDialog)
  deriving DecidableEq, Repr

/-- What the process sees of its surroundings: today's date and whether the
`org.freedesktop.Notifications` service is registered. -/
structure Env where
  year : Int
  month : Int
  day : Int
  notificationService : Bool
  deriving DecidableEq, Repr

/-- The members of the `Qarma` object the argument handling reads or writes,
followed by the recorded effects. The type of `m_parentWindow` is declared
in the header; it receives an `int`, which is what is stored here. -/
structure App where
  m_helpMission : Bool := false
  m_modal : Bool := false
  m_parentWindow : Int := 0
  m_dialog : Option Dialog := none
  m_type : DialogType := DialogType.Invalid
  m_caption : QString := []
  m_icon : QString := []
  m_ok : QString := []
  m_cancel : QString := []
  m_size : QSize := {}
  m_notificationHints : QString := []
  out : List Printed := []
  posted : List Slot := []
  timers : List (Int × Slot) := []
  deriving DecidableEq, Repr

/-- Method `Qarma::error`: the message goes through `printf`, `quitOnError` is queued. -/
def error (self : App) (message : QString) : Bool × App :=
  (true, { self with
    out := self.out ++ [Printed.text ("Error: ".toList ++ message)]
    posted := self.posted ++ [Slot.quitOnError] })

/-- Method `Qarma::printHelp`: sets `m_helpMission` and prints the help of the category. -/
def printHelp (self : App) (category : QString) : App :=
  { self with m_helpMission := true, out := self.out ++ [Printed.help category] }

/-- The macro `NEXT_ARG`: it advances `i` and yields the token there, or the
null string when the list has ended. -/
def NEXT_ARG (args : QStringList) (i : Nat) : QString × Nat :=
  let i := i + 1
  (if i < args.length then at_ args i else [], i)

/-! ## `readGeneral` (lines 352-395) -/

/-- The loop of `readGeneral`. The result is the returned `bool`, the object
and the caller's `args`, which is replaced by `remains` only on the path that
returns `true`. `none` stands for exhausted fuel. -/
def readGeneralLoop (args : QStringList) :
    Nat → Nat → App → QStringList → Option (Bool × App × QStringList)
  | fuel, i, self, remains =>
    if i < args.length then
      match fuel with
      | 0 => none
      | fuel + 1 =>
        if at_ args i = "--title".toList then
          let (v, i) := NEXT_ARG args i
          readGeneralLoop args fuel (i + 1) { self with m_caption := v } remains
        else if at_ args i = "--window-icon".toList then
          let (v, i) := NEXT_ARG args i
          readGeneralLoop args fuel (i + 1) { self with m_icon := v } remains
        else if at_ args i = "--width".toList then
          let (v, i) := NEXT_ARG args i
          match toUInt v with
          | none =>
            let (e, self) := error self "--width must be followed by a positive number".toList
            some (!e, self, args)
          | some u =>
            let w := toInt32 u
            readGeneralLoop args fuel (i + 1)
              { self with m_size := { self.m_size with wd := w } } remains
        else if at_ args i = "--height".toList then
          let (v, i) := NEXT_ARG args i
          match toUInt v with
          | none =>
            let (e, self) := error self "--height must be followed by a positive number".toList
            some (!e, self, args)
          | some u =>
            let h := toInt32 u
            readGeneralLoop args fuel (i + 1)
              { self with m_size := { self.m_size with ht := h } } remains
        else if at_ args i = "--timeout".toList then
          let (v, i) := NEXT_ARG args i
          match toUInt v with
          | none =>
            let (e, self) := error self "--timeout must be followed by a positive number".toList
            some (!e, self, args)
          | some u =>
            let t := toInt32 u
            readGeneralLoop args fuel (i + 1)
              { self with timers := self.timers ++ [(wrap32 (t * 1000), Slot.quit)] } remains
        else if at_ args i = "--ok-label".toList then
          let (v, i) := NEXT_ARG args i
          readGeneralLoop args fuel (i + 1) { self with m_ok := v } remains
        else if at_ args i = "--ok-label".toList then
          let (v, i) := NEXT_ARG args i
          readGeneralLoop args fuel (i + 1) { self with m_ok := v } remains
        else if at_ args i = "--modal".toList then
          readGeneralLoop args fuel (i + 1) { self with m_modal := true } remains
        else if at_ args i = "--attach".toList then
          let (v, i) := NEXT_ARG args i
          match toUInt v with
          | none =>
            let (e, self) := error self "--attach must be followed by a positive number".toList
            some (!e, self, args)
          | some u =>
            let w := toInt32 u
            readGeneralLoop args fuel (i + 1) { self with m_parentWindow := w } remains
        else
          readGeneralLoop args fuel (i + 1) self (remains ++ [at_ args i])
    else some (true, self, remains)

/-- Method `Qarma::readGeneral`; every iteration advances `i`, so `args.count()`
iterations are enough. -/
def readGeneral (self : App) (args : QStringList) : Option (Bool × App × QStringList) :=
  readGeneralLoop args args.length 0 self []

/-! ## Descriptor builders, as far as the dispatch needs them -/

/-- The local variables of `showCalendar` that its argument loop sets. -/
structure CalendarVars where
  labels : List QString := []
  d : Int
  m : Int
  y : Int
  date_format : QString := []
  deriving DecidableEq, Repr

/-- The argument loop of `showCalendar` (lines 411-429). `Sum.inl` is an
early `return !error(...)` with the returned `char`, `Sum.inr` the variables
when the loop has run to its end; `none` stands for exhausted fuel. -/
def showCalendarLoop (args : QStringList) :
    Nat → Nat → App → CalendarVars → Option ((Nat × App) ⊕ CalendarVars)
  | fuel, i, self, vars =>
    if i < args.length then
      match fuel with
      | 0 => none
      | fuel + 1 =>
        if at_ args i = "--text".toList then
          let (v, i) := NEXT_ARG args i
          showCalendarLoop args fuel (i + 1) self { vars with labels := vars.labels ++ [v] }
        else if at_ args i = "--day".toList then
          let (v, i) := NEXT_ARG args i
          match toUInt v with
          | none =>
            let (e, self) := error self "--day must be followed by a positive number".toList
            some (Sum.inl (boolToChar (!e), self))
          | some u => showCalendarLoop args fuel (i + 1) self { vars with d := toInt32 u }
        else if at_ args i = "--month".toList then
          let (v, i) := NEXT_ARG args i
          match toUInt v with
          | none =>
            let (e, self) := error self "--month must be followed by a positive number".toList
            some (Sum.inl (boolToChar (!e), self))
          | some u => showCalendarLoop args fuel (i + 1) self { vars with m := toInt32 u }
        else if at_ args i = "--year".toList then
          let (v, i) := NEXT_ARG args i
          match toUInt v with
          | none =>
            let (e, self) := error self "--year must be followed by a positive number".toList
            some (Sum.inl (boolToChar (!e), self))
          | some u => showCalendarLoop args fuel (i + 1) self { vars with y := toInt32 u }
        else if at_ args i = "--date-format".toList then
          let (v, i) := NEXT_ARG args i
          showCalendarLoop args fuel (i + 1) self { vars with date_format := v }
        else
          showCalendarLoop args fuel (i + 1) self vars
    else some (Sum.inr vars)

/-- Method `Qarma::showCalendar`: the returned `char` and the object. -/
def showCalendar (env : Env) (self : App) (args : QStringList) : Option (Nat × App) :=
  match showCalendarLoop args args.length 0 self
      { d := env.day, m := env.month, y := env.year } with
  | none => none
  | some (Sum.inl r) => some r
  | some (Sum.inr vars) =>
    some (0, { self with
      m_dialog := some (Dialog.calendar vars.labels vars.y vars.m vars.d vars.date_format) })

/-- Method `Qarma::notify`: with the notification service the message goes over
D-Bus; without it the fallback message box is shown. -/
def notify (env : Env) (self : App) (message : QString) : App :=
  if env.notificationService then self
  else { self with m_dialog := some (Dialog.notification message) }

/-- The argument loop of `showNotification` (lines 704-713): the object, the
message and the `listening` flag; `none` stands for exhausted fuel. -/
def showNotificationLoop (args : QStringList) :
    Nat → Nat → App → QString → Bool → Option (App × QString × Bool)
  | fuel, i, self, message, listening =>
    if i < args.length then
      match fuel with
      | 0 => none
      | fuel + 1 =>
        if at_ args i = "--text".toList then
          let (v, i) := NEXT_ARG args i
          showNotificationLoop args fuel (i + 1) self v listening
        else if at_ args i = "--listen".toList then
          showNotificationLoop args fuel (i + 1) self message true
        else if at_ args i = "--hint".toList then
          let (v, i) := NEXT_ARG args i
          showNotificationLoop args fuel (i + 1) { self with m_notificationHints := v }
            message listening
        else
          showNotificationLoop args fuel (i + 1) self message listening
    else some (self, message, listening)

/-- Method `Qarma::showNotification`: the returned `char` and the object. -/
def showNotification (env : Env) (self : App) (args : QStringList) : Option (Nat × App) :=
  match showNotificationLoop args args.length 0 self [] false with
  | none => none
  | some (self, message, listening) =>
    let self := if message ≠ [] then notify env self message else self
    let self :=
      if !(listening || self.m_dialog.isSome) then
        { self with posted := self.posted ++ [Slot.quit] }
      else self
    some (0, self)

/-- The builders `showEntry`, `showMessage`, `showFileSelection`, `showList`,
`showProgress`, `showScale`, `showText`, `showColorSelection`, `showPassword`
and `showForms`: none of them calls `error`, and every path through them ends
in `SHOW_DIALOG` and `return 0`. -/
def showOther (self : App) (type : DialogType) : Nat × App :=
  (0, { self with m_dialog := some (Dialog.other type) })

/-! ## The constructor (lines 70-201) -/

/-- The `if` chain in the body of the dispatch loop (lines 116-161): the
builder the token selects is run on the whole token list; a token that is no
mode flag leaves `error` and the object as they are. -/
def dispatchArg (env : Env) (args : QStringList) (self : App) (error : Nat) (arg : QString) :
    Option (Nat × App) :=
  if arg = "--calendar".toList then
    showCalendar env { self with m_type := DialogType.Calendar } args
  else if arg = "--entry".toList then
    some (showOther { self with m_type := DialogType.Entry } DialogType.Entry)
  else if arg = "--error".toList then
    some (showOther { self with m_type := DialogType.Error } DialogType.Error)
  else if arg = "--info".toList then
    some (showOther { self with m_type := DialogType.Info } DialogType.Info)
  else if arg = "--file-selection".toList then
    some (showOther { self with m_type := DialogType.FileSelection } DialogType.FileSelection)
  else if arg = "--list".toList then
    some (showOther { self with m_type := DialogType.List } DialogType.List)
  else if arg = "--notification".toList then
    showNotification env { self with m_type := DialogType.Notification } args
  else if arg = "--progress".toList then
    some (showOther { self with m_type := DialogType.Progress } DialogType.Progress)
  else if arg = "--question".toList then
    some (showOther { self with m_type := DialogType.Question } DialogType.Question)
  else if arg = "--warning".toList then
    some (showOther { self with m_type := DialogType.Warning } DialogType.Warning)
  else if arg = "--scale".toList then
    some (showOther { self with m_type := DialogType.Scale } DialogType.Scale)
  else if arg = "--text-info".toList then
    some (showOther { self with m_type := DialogType.TextInfo } DialogType.TextInfo)
  else if arg = "--color-selection".toList then
    some (showOther { self with m_type := DialogType.ColorSelection } DialogType.ColorSelection)
  else if arg = "--password".toList then
    some (showOther { self with m_type := DialogType.Password } DialogType.Password)
  else if arg = "--forms".toList then
    some (showOther { self with m_type := DialogType.Forms } DialogType.Forms)
  else some (error, self)

/-- The dispatch loop `foreach (const QString &arg, args)` (lines 114-165);
the second argument is the list the loop still has to visit, and the loop is
left as soon as `error` is not 1. -/
def dispatchLoop (env : Env) (args : QStringList) :
    QStringList → App → Nat → Option (App × Nat)
  | [], self, error => some (self, error)
  | arg :: rest, self, error =>
    match dispatchArg env args self error arg with
    | none => none
    | some (error, self) =>
      if error ≠ 1 then some (self, error) else dispatchLoop env args rest self error

/-- The call `QMetaObject::invokeMethod(this, "quit", Qt::QueuedConnection)`. -/
def postQuit (self : App) : App := { self with posted := self.posted ++ [Slot.quit] }

/-- The help scan `foreach (const QString &arg, args)` (lines 101-104). -/
def helpScan (self : App) (args : QStringList) : App :=
  args.foldl
    (fun self arg =>
      if arg = "-h".toList ∨ startsWith arg "--help".toList = true then
        printHelp self (mid arg 7)
      else self)
    self

/-- The constructor `Qarma::Qarma`, from the argument list of the process
(program name first) to the object it leaves behind. The settings applied to
a shown dialog at the end (lines 170-200) touch the dialog's window only. -/
def construct (env : Env) (argList : QStringList) : Option App :=
  let self : App := {}
  if argList.length < 2 then
    some (postQuit (printHelp self []))
  else
    let args := tokenize argList
    let self := helpScan self args
    if self.m_helpMission then some (postQuit self)
    else
      match readGeneral self args with
      | none => none
      | some (ok, self, args) =>
        if !ok then some self
        else
          match dispatchLoop env args args self 1 with
          | none => none
          | some (self, error) => if error ≠ 0 then some (postQuit self) else some self

/-- The exit code once `main` has entered `exec()`, when the queue already
decides it: the queued invocations are delivered in the first pass of the
event loop, `quitOnError` ends the process with `exit(1)`, `quit` makes
`exec()` return 0. `none`: the dialog stays up and the user decides. -/
def exec (self : App) : Option Int :=
  if Slot.quitOnError ∈ self.posted then some 1
  else if Slot.quit ∈ self.posted then some 0
  else none

/-- A day on which the notification service is running. -/
def env0 : Env := { year := 2024, month := 2, day := 29, notificationService := true }

/-! ## The wording of the specification -/

/-- The general flags that take a value, as the specification lists them. -/
def valueFlags : List QString :=
  ["--title".toList, "--window-icon".toList, "--width".toList, "--height".toList,
   "--timeout".toList, "--ok-label".toList, "--cancel-label".toList, "--attach".toList]

/-- The numeric general flags. -/
def numericFlags : List QString :=
  ["--width".toList, "--height".toList, "--timeout".toList, "--attach".toList]

/-- All general flags of the specification. -/
def generalFlags : List QString := valueFlags ++ ["--modal".toList]

/-- The positions of the tokens in flag position, counted from `i` for the
first token of the list: a token is in flag position unless it is the single
token that follows a value-taking general flag which is itself in flag
position. -/
def flagPositionsFrom : Nat → QStringList → List Nat
  | _, [] => []
  | i, [_] => [i]
  | i, a :: b :: rest =>
    i :: (if a ∈ valueFlags then flagPositionsFrom (i + 2) rest
          else flagPositionsFrom (i + 1) (b :: rest))

def flagPositions (args : QStringList) : List Nat := flagPositionsFrom 0 args

/-- The flag at position `p` is numeric and is followed by a token that does
not parse as an unsigned integer. -/
def followedByMalformed (args : QStringList) (p : Nat) : Prop :=
  at_ args p ∈ numericFlags ∧ p + 1 < args.length ∧ toUInt (at_ args (p + 1)) = none

instance (args : QStringList) (p : Nat) : Decidable (followedByMalformed args p) := by
  unfold followedByMalformed; infer_instance

/-- The flag at position `p` is numeric and is followed by a token that does
not parse as an unsigned integer, or by no token at all. -/
def lacksNumber (args : QStringList) (p : Nat) : Prop :=
  at_ args p ∈ numericFlags ∧ (args.length ≤ p + 1 ∨ toUInt (at_ args (p + 1)) = none)

instance (args : QStringList) (p : Nat) : Decidable (lacksNumber args p) := by
  unfold lacksNumber; infer_instance

/-- The positions, in increasing order, of the numeric general flags in flag
position that lack a number. -/
def offending (args : QStringList) : List Nat :=
  (flagPositions args).filter (fun p => decide (lacksNumber args p))

/-- The diagnostic of a numeric flag. -/
def diagnostic (flag : QString) : Printed :=
  Printed.text ("Error: ".toList ++ flag ++ " must be followed by a positive number".toList)

/-- The tokens the specification retains: those that are neither a general
flag in flag position nor the value of one. -/
def specRemaining : QStringList → QStringList
  | [] => []
  | [a] => if a ∈ generalFlags then [] else [a]
  | a :: b :: rest =>
    if a ∈ valueFlags then specRemaining rest
    else if a ∈ generalFlags then specRemaining (b :: rest)
    else a :: specRemaining (b :: rest)

/-- The mode-selecting flags. -/
def modeFlags : List QString :=
  ["--calendar".toList, "--entry".toList, "--error".toList, "--info".toList,
   "--file-selection".toList, "--list".toList, "--notification".toList, "--progress".toList,
   "--question".toList, "--warning".toList, "--scale".toList, "--text-info".toList,
   "--color-selection".toList, "--password".toList, "--forms".toList]

/-- The mode a mode-selecting flag stands for. -/
def modeOf (arg : QString) : Option DialogType :=
  if arg = "--calendar".toList then some DialogType.Calendar
  else if arg = "--entry".toList then some DialogType.Entry
  else if arg = "--error".toList then some DialogType.Error
  else if arg = "--info".toList then some DialogType.Info
  else if arg = "--question".toList then some DialogType.Question
  else if arg = "--warning".toList then some DialogType.Warning
  else if arg = "--file-selection".toList then some DialogType.FileSelection
  else if arg = "--list".toList then some DialogType.List
  else if arg = "--notification".toList then some DialogType.Notification
  else if arg = "--progress".toList then some DialogType.Progress
  else if arg = "--scale".toList then some DialogType.Scale
  else if arg = "--text-info".toList then some DialogType.TextInfo
  else if arg = "--color-selection".toList then some DialogType.ColorSelection
  else if arg = "--password".toList then some DialogType.Password
  else if arg = "--forms".toList then some DialogType.Forms
  else none

/-- The mode of the first mode-selecting flag of a token stream, `Invalid`
when there is none. -/
def firstMode (tokens : QStringList) : DialogType :=
  (tokens.findSome? modeOf).getD DialogType.Invalid

/-- The invocation asks for help: a token is `-h` or starts with `--help`. -/
def helpRequested (tokens : QStringList) : Bool :=
  tokens.any (fun arg => decide (arg = "-h".toList) || startsWith arg "--help".toList)

/-! ## One iteration of `readGeneral`, by the token it looks at -/

/-- What an iteration of the `readGeneral` loop does with the token at `i`:
store the next token, store the next token's number, set a switch, or keep
the token. -/
inductive Action
  | takeString (set : QString → App → App)
  | takeNumber (set : Int → App → App)
  | switch (set : App → App)
  | keep

/-- The branch the `if` chain of `readGeneral` takes for a token. -/
def action (a : QString) : Action :=
  if a = "--title".toList then Action.takeString (fun v s => { s with m_caption := v })
  else if a = "--window-icon".toList then Action.takeString (fun v s => { s with m_icon := v })
  else if a = "--width".toList then
    Action.takeNumber (fun w s => { s with m_size := { s.m_size with wd := w } })
  else if a = "--height".toList then
    Action.takeNumber (fun h s => { s with m_size := { s.m_size with ht := h } })
  else if a = "--timeout".toList then
    Action.takeNumber (fun t s => { s with timers := s.timers ++ [(wrap32 (t * 1000), Slot.quit)] })
  else if a = "--ok-label".toList then Action.takeString (fun v s => { s with m_ok := v })
  else if a = "--modal".toList then Action.switch (fun s => { s with m_modal := true })
  else if a = "--attach".toList then Action.takeNumber (fun w s => { s with m_parentWindow := w })
  else Action.keep

/-- The `readGeneral` loop as a recursion on the tokens still to visit; it is
shown below to compute what `readGeneralLoop` computes. -/
def scan (args : QStringList) : QStringList → App → QStringList → Bool × App × QStringList
  | [], self, remains => (true, self, remains)
  | a :: rest, self, remains =>
    match action a with
    | Action.keep => scan args rest self (remains ++ [a])
    | Action.switch set => scan args rest (set self) remains
    | Action.takeString set => scan args (rest.drop 1) (set (rest.headD []) self) remains
    | Action.takeNumber set =>
      match toUInt (rest.headD []) with
      | none =>
        (false, (error self (a ++ " must be followed by a positive number".toList)).2, args)
      | some u => scan args (rest.drop 1) (set (toInt32 u) self) remains
termination_by l => l.length
decreasing_by all_goals simp_wf <;> omega

/-- The members and recorded effects that no general flag touches stay as they are. -/
def Frame (s t : App) : Prop :=
  t.out = s.out ∧ t.posted = s.posted ∧ t.m_dialog = s.m_dialog ∧ t.m_type = s.m_type ∧
    t.m_helpMission = s.m_helpMission

/-! ## More of Qt's strings and numbers -/

/-- Qt's `QString::split(QChar)` with the default `KeepEmptyParts`: the empty
string gives one empty part. -/
def split : QString → Char → QStringList
  | [], _ => [[]]
  | c :: cs, sep =>
    if c = sep then [] :: split cs sep
    else
      match split cs sep with
      | [] => [[c]]
      | p :: ps => (c :: p) :: ps

/-- Qt's `QStringList::join`. -/
def join (l : QStringList) (sep : QString) : QString := sep.intercalate l

/-- Qt's `QString::toInt(&ok)` in base 10: surrounding white space is skipped,
one leading sign is allowed, the rest must be a non-empty run of decimal
digits, and the value must fit a 32-bit `int`. `none` stands for `ok == false`. -/
def toInt (s : QString) : Option Int :=
  let t := trimmed s
  let digits := if t.head? = some '+' ∨ t.head? = some '-' then t.tail else t
  if digits ≠ [] ∧ digits.all Char.isDigit then
    let v : Int := digits.foldl (fun acc c => 10 * acc + digitValue c) 0
    let x : Int := if t.head? = some '-' then -v else v
    if -2 ^ 31 ≤ x ∧ x < 2 ^ 31 then some x else none
  else none

/-! ## Notifications: summary and hints (`notify`, lines 671-675) -/

/-- The UTF-16 code units a `QString` stores for a character: one unit in
the Basic Multilingual Plane, a surrogate pair above it. -/
def utf16Char (c : Char) : List Nat :=
  if c.toNat < 0x10000 then [c.toNat]
  else [0xD800 + (c.toNat - 0x10000) / 0x400, 0xDC00 + (c.toNat - 0x10000) % 0x400]

/-- The `QChar`s of a `QString`, its UTF-16 code units: `length()` counts
them and `left(n)` keeps the first `n` of them. -/
def utf16 (s : QString) : List Nat := s.flatMap utf16Char

/-- The summary `notify` hands to the notification service (line 671), in
UTF-16 code units: `message.length()` counts code units, and
`message.left(25)` keeps 25 of them, which may end between the two units of a
surrogate pair. -/
def notifySummary (message : QString) : List Nat :=
  if (utf16 message).length < 32 then utf16 message
  else (utf16 message).take 25 ++ utf16 "...".toList

/-- A `QVariantMap` whose values are strings, as a list of pairs with distinct keys. -/
abbrev QVariantMap := List (QString × QString)

/-- Qt's `QMap::insert`: a value already stored under the key is replaced. -/
def mapInsert (m : QVariantMap) (key value : QString) : QVariantMap :=
  (key, value) :: m.filter (fun p => decide (p.1 ≠ key))

/-- Qt's `QMap::value`, `none` when the key is absent. -/
def mapValue (m : QVariantMap) (key : QString) : Option QString :=
  (m.find? (fun p => decide (p.1 = key))).map (fun p => p.2)

/-- The loop `for (int i = 0; i < hintList.count() - 1; i+=2)` of `notify`;
`none` stands for exhausted fuel or a read outside `hintList`. -/
def hintLoop (hintList : QStringList) : Nat → Nat → QVariantMap → Option QVariantMap
  | fuel, i, hintMap =>
    if (i : Int) < (hintList.length : Int) - 1 then
      match fuel with
      | 0 => none
      | fuel + 1 =>
        if i < hintList.length ∧ i + 1 < hintList.length then
          hintLoop hintList fuel (i + 2) (mapInsert hintMap (at_ hintList i) (at_ hintList (i + 1)))
        else none
    else some hintMap

/-- The hint map `notify` builds from `m_notificationHints` (lines 672-675). -/
def notifyHintMap (m_notificationHints : QString) : Option QVariantMap :=
  let hintList := split m_notificationHints ':'
  hintLoop hintList hintList.length 0 []

/-- The pairs the specification reads off a split hint list: element `2k`
with element `2k+1`, for every `k` with `2k+1` below the length. -/
def specPairs (h : QStringList) : List (QString × QString) :=
  (List.range (h.length / 2)).map (fun k => (at_ h (2 * k), at_ h (2 * k + 1)))

/-! ## The notification protocol (`readStdIn`, lines 795-821) -/

/-- What the notification branch of `readStdIn` writes with `qWarning` and `qDebug`. -/
inductive Logged
  | iconUnsupported | visibleUnsupported | usageHint
  deriving DecidableEq, Repr

/-- The state the notification branch threads through its lines: the object,
`userNeedsHelp`, the log, and the arguments of the `setVisible` calls made on
the fallback dialog. -/
structure NotificationBatch where
  app : App
  userNeedsHelp : Bool := true
  log : List Logged := []
  setVisible : List Bool := []
  deriving DecidableEq, Repr

/-- ASCII lower case, standing for a case-insensitive comparison with an
ASCII word. -/
def lower (s : QString) : QString := s.map Char.toLower

/-- The body of `foreach (QString line, input)` in the notification branch. -/
def notificationLine (env : Env) (st : NotificationBatch) (line : QString) :
    NotificationBatch :=
  let split := indexOf line ':'
  if split < 0 then st
  else if left line split = "icon".toList then
    { st with userNeedsHelp := false, log := st.log ++ [Logged.iconUnsupported] }
  else if left line split = "message".toList ∨ left line split = "tooltip".toList then
    { st with userNeedsHelp := false, app := notify env st.app (mid line (split + 1)) }
  else if left line split = "visible".toList then
    if st.app.m_dialog.isSome then
      { st with
        userNeedsHelp := false
        setVisible := st.setVisible ++
          [decide (lower (trimmed (mid line (split + 1))) ≠ "false".toList) &&
           decide (lower (trimmed (mid line (split + 1))) ≠ "0".toList)] }
    else
      { st with userNeedsHelp := false, log := st.log ++ [Logged.visibleUnsupported] }
  else if left line split = "hints".toList then
    { st with app := { st.app with m_notificationHints := mid line (split + 1) } }
  else st

/-- The notification branch of `readStdIn` on one chunk of input. -/
def readStdInNotification (env : Env) (self : App) (newText : QString) : NotificationBatch :=
  let input := split newText '\n'
  let st := input.foldl (notificationLine env) { app := self }
  if st.userNeedsHelp then { st with log := st.log ++ [Logged.usageHint] } else st

/-- A line has a recognized key: the text before its first `:` is `icon`,
`message`, `tooltip`, `visible` or `hints`. -/
def hasRecognizedKey (line : QString) : Bool :=
  decide (':' ∈ line) &&
    decide (line.takeWhile (fun c => c != ':') ∈
      ["icon".toList, "message".toList, "tooltip".toList, "visible".toList, "hints".toList])

/-! ## The progress protocol (`readStdIn`, lines 746-770) -/

/-- The loop `foreach (QString line, input)` of the progress branch of
`readStdIn` (lines 753-757). -/
def progressLines (dlg : QProgressDialog) (input : QStringList) : QProgressDialog :=
  input.foldl
    (fun dlg line =>
      match toInt line with
      | some u => dlg.setValue (min 100 u)
      | none => dlg)
    dlg

/-- The progress branch of `readStdIn` on one chunk of input (lines 746-770):
the dialog afterwards and the timers started. -/
def readStdInProgress (dlg : QProgressDialog) (newText : QString) :
    QProgressDialog × List (Int × Slot) :=
  let input := split newText '\n'
  let oldValue := dlg.value
  let dlg := progressLines dlg input
  if dlg.value = 100 then
    if dlg.qarma_autoclose then (dlg, [(250, Slot.quit)])
    else
      ({ ((dlg.disconnect DialogSlot.reject).connect DialogSlot.accept) with
          cancelButtonText := "Ok".toList }, [])
  else if oldValue = 100 then
    ({ ((dlg.disconnect DialogSlot.accept).connect DialogSlot.reject) with
        cancelButtonText := "Cancel".toList }, [])
  else (dlg, [])

/-- Cancelling the dialog accepts it: `canceled()` is connected, and only to `accept`. -/
def cancelAccepts (dlg : QProgressDialog) : Prop :=
  dlg.canceled ≠ [] ∧ ∀ s ∈ dlg.canceled, s = DialogSlot.accept

/-- Cancelling the dialog rejects it: `canceled()` is connected, and only to `reject`. -/
def cancelRejects (dlg : QProgressDialog) : Prop :=
  dlg.canceled ≠ [] ∧ ∀ s ∈ dlg.canceled, s = DialogSlot.reject

instance (dlg : QProgressDialog) : Decidable (cancelAccepts dlg) := by
  unfold cancelAccepts; infer_instance

instance (dlg : QProgressDialog) : Decidable (cancelRejects dlg) := by
  unfold cancelRejects; infer_instance

/-- The last integer among the lines, as the specification takes it: the
last line that parses as an integer. -/
def lastInteger (input : QStringList) : Option Int :=
  (input.filterMap toInt).getLast?

/-- The last line that parses as an integer that is not negative. -/
def lastNatural (input : QStringList) : Option Int :=
  ((input.filterMap toInt).filter (fun u => decide (0 ≤ u))).getLast?

/-- The progress dialog as `showProgress` leaves it when it listens to
standard input without further flags: range 0..101, no value yet, and
`canceled()` connected to `reject`. -/
def progress0 : QProgressDialog :=
  { maximum := 101, canceled := [DialogSlot.reject] }

/-! ## Argument loops of the builders -/

/-- The loop `for (int i = 0; i < args.count(); ++i)` of a builder, around a
body that may advance `i` itself (through `NEXT_ARG`) and yields `none` when
it fails; `none` also stands for exhausted fuel. -/
def forArgs {σ : Type} (args : QStringList) (body : Nat → σ → Option (Nat × σ)) :
    Nat → Nat → σ → Option σ
  | fuel, i, st =>
    if i < args.length then
      match fuel with
      | 0 => none
      | fuel + 1 =>
        match body i st with
        | none => none
        | some (i, st) => forArgs args body fuel (i + 1) st
    else some st

/-- The directives of a token stream for a builder whose value-taking flags
are `valueFlags`: every token in flag position, paired with the token after
it when it is a value-taking flag (the null string when the stream ends
there), and with the null string otherwise. -/
def directives (valueFlags : List QString) : QStringList → List (QString × QString)
  | [] => []
  | [a] => [(a, [])]
  | a :: b :: rest =>
    if a ∈ valueFlags then (a, b) :: directives valueFlags rest
    else (a, []) :: directives valueFlags (b :: rest)

/-- The value of the last directive with the given flag. -/
def lastValue (flag : QString) (ds : List (QString × QString)) : Option QString :=
  ((ds.filter (fun d => decide (d.1 = flag))).getLast?).map (fun d => d.2)

/-! ## `showList` (lines 569-665) -/

/-- The local variables of `showList` that its argument loop sets, with the
label, the tree and the separator property of the dialog. -/
structure ListVars where
  dlg : ListDialog := {}
  editable : Bool := false
  checkable : Bool := false
  exclusive : Bool := false
  icons : Bool := false
  columns : QStringList := []
  values : QStringList := []
  hiddenCols : List Int := []
  todo : Nat := 0
  deriving DecidableEq, Repr

/-- The body of the argument loop of `showList` (lines 589-620); `todo`
counts the `qWarning("TODO: --print-column")` calls. -/
def showListBody (args : QStringList) (i : Nat) (v : ListVars) : Option (Nat × ListVars) :=
  if at_ args i = "--text".toList then
    let (a, i) := NEXT_ARG args i
    some (i, { v with dlg := { v.dlg with labelText := a } })
  else if at_ args i = "--multiple".toList then
    some (i, { v with dlg := { v.dlg with
      tree := { v.dlg.tree with selectionMode := SelectionMode.ExtendedSelection } } })
  else if at_ args i = "--column".toList then
    let (a, i) := NEXT_ARG args i
    some (i, { v with columns := v.columns ++ [a] })
  else if at_ args i = "--editable".toList then
    some (i, { v with editable := true })
  else if at_ args i = "--hide-header".toList then
    some (i, { v with dlg := { v.dlg with tree := { v.dlg.tree with headerHidden := true } } })
  else if at_ args i = "--separator".toList then
    let (a, i) := NEXT_ARG args i
    some (i, { v with dlg := { v.dlg with qarma_separator := a } })
  else if at_ args i = "--hide-column".toList then
    let (a, i) := NEXT_ARG args i
    match toInt a with
    | some n => some (i, { v with hiddenCols := v.hiddenCols ++ [n] })
    | none => some (i, v)
  else if at_ args i = "--print-column".toList then
    some (i, { v with todo := v.todo + 1 })
  else if at_ args i = "--checklist".toList then
    some (i, { v with
      dlg := { v.dlg with tree := { v.dlg.tree with
        selectionMode := SelectionMode.NoSelection, allColumnsShowFocus := false } }
      checkable := true })
  else if at_ args i = "--radiolist".toList then
    some (i, { v with
      dlg := { v.dlg with tree := { v.dlg.tree with
        selectionMode := SelectionMode.NoSelection, allColumnsShowFocus := false } }
      checkable := true
      exclusive := true })
  else if at_ args i = "--imagelist".toList then
    some (i, { v with icons := true })
  else if at_ args i ≠ "--list".toList then
    some (i, { v with values := v.values ++ [at_ args i] })
  else some (i, v)

/-- The item `showList` makes of one row of values (lines 639-653): the
flags, the check box, the icon, and the text of column 0 moved out of sight
for a checkable or an icon list. -/
def showListItem (editable checkable icons : Bool) (itemValues : QStringList) :
    QTreeWidgetItem :=
  let item : QTreeWidgetItem := { text := itemValues }
  let item := if editable then { item with editable := true } else item
  let item := if checkable then { item with userCheckable := true, checked := false } else item
  let item := if icons then { item with icon := some (item.textAt 0) } else item
  if checkable || icons then { item with text := item.text.set 0 [] } else item

/-- Method `Qarma::showList`: the returned `char` and the object. -/
def showList (self : App) (args : QStringList) : Option (Nat × App) :=
  let tree : QTreeWidget :=
    { selectionMode := SelectionMode.SingleSelection, allColumnsShowFocus := true }
  match forArgs args (showListBody args) args.length 0 { dlg := { tree := tree } } with
  | none => none
  | some v =>
    let editable := if v.checkable then false else v.editable
    let columnCount := max v.columns.length 1
    match rowsLoop v.values columnCount v.values.length 0 [] with
    | none => none
    | some rows =>
      let tree := { v.dlg.tree with
        columnCount := columnCount
        headerLabels := v.columns
        hiddenColumns := v.hiddenCols
        topLevelItems := rows.map (showListItem editable v.checkable v.icons) }
      some (0, { self with
        m_dialog := some (Dialog.list
          { v.dlg with tree := tree, toggleItemsConnected := v.exclusive }) })

/-- The flags of `showList` that take a value. -/
def listValueFlags : List QString :=
  ["--text".toList, "--column".toList, "--separator".toList, "--hide-column".toList]

/-! ## `dialogFinished` (lines 238-341) -/

/-- A date, as a calendar widget holds it. -/
structure QDate where
  year : Int
  month : Int
  day : Int
  deriving DecidableEq, Repr

/-- A field widget of the form layout as the static function `value` sees it
when the dialog is closed. -/
inductive FormWidget
  | lineEdit (text : QString)
  | treeWidget (tw : QTreeWidget)
  | comboBox (currentText : QString)
  | calendarWidget (selectedDate : QDate)
  | checkBox (checked : Bool)
  | other
  deriving DecidableEq, Repr

/-- The dialog that has sent `finished`, as `dialogFinished` queries it: its
three properties and the children it is searched for (`none`: no such child). -/
structure Sender where
  qarma_autokill_parent : Bool := false
  qarma_date_format : QString := []
  qarma_separator : QString := []
  calendarWidget : Option QDate := none
  textValue : QString := []
  qarma_username : Option QString := none
  qarma_password : Option QString := none
  selectedFiles : QStringList := []
  selectedColor : QString := []
  textEdit : Option (Bool × QString) := none
  slider : Option Int := none
  treeWidget : Option QTreeWidget := none
  formLayout : Option (List FormWidget) := none
  deriving DecidableEq, Repr

/-- What `dialogFinished` leaves: the object with the text written, the exit
code, whether the parent process was sent signal 15, and whether the
`unhandled output` message was logged. -/
structure Finished where
  app : App
  exitCode : Int
  killedParent : Bool := false
  unhandled : Bool := false
  deriving DecidableEq, Repr

/-- Qt's `QString::number(int)`. -/
def number (n : Int) : QString := (toString n).toList

/-- The call `printf("%s\n", ...)` followed by `exit(0)`. -/
def printLine (self : App) (s : QString) : Finished :=
  { app := { self with out := self.out ++ [Printed.text (s ++ ['\n'])] }, exitCode := 0 }

/-- The static function `value` (lines 212-236); `dateToString` is Qt's
`QDate::toString`, with `none` for `Qt::SystemLocaleShortDate`. -/
def value (dateToString : QDate → Option QString → QString) (w : FormWidget)
    (pattern : QString) : QString :=
  match w with
  | FormWidget.lineEdit text => text
  | FormWidget.treeWidget tw =>
    tw.selectedItems.foldl
      (fun s item => (List.range tw.columnCount).foldl (fun s i => s ++ item.textAt i) s) []
  | FormWidget.comboBox currentText => currentText
  | FormWidget.calendarWidget date =>
    if pattern = [] then dateToString date none else dateToString date (some pattern)
  | FormWidget.checkBox checked => if checked then "true".toList else "false".toList
  | FormWidget.other => []

/-- The `List` case of the switch (lines 305-324). -/
def finishList (self : App) (sender : Sender) : Finished :=
  let result : QStringList :=
    match sender.treeWidget with
    | none => []
    | some tw =>
      let result := tw.selectedItems.map (fun twi => twi.textAt 0)
      let done := decide (tw.selectedItems ≠ [])
      if !done then
        result ++ (tw.topLevelItems.filter (fun twi => twi.checked)).map (fun twi => twi.textAt 1)
      else result
  printLine self (join result sender.qarma_separator)

/-- The `Scale` case of the switch (lines 298-304), which falls through to
the `List` case when the dialog has no slider. -/
def finishScale (self : App) (sender : Sender) : Finished :=
  match sender.slider with
  | some v => printLine self (number v)
  | none => finishList self sender

/-- Method `Qarma::dialogFinished`; `QDialog::Accepted` is 1. `none` stands
for the use of a child the dialog has not. -/
def dialogFinished (dateToString : QDate → Option QString → QString) (self : App)
    (sender : Sender) (status : Int) : Option Finished :=
  if status ≠ 1 then
    some { app := self, exitCode := 1, killedParent := sender.qarma_autokill_parent }
  else
    match self.m_type with
    | DialogType.Question | DialogType.Warning | DialogType.Info | DialogType.Error
    | DialogType.Progress | DialogType.Notification => some { app := self, exitCode := 0 }
    | DialogType.Calendar =>
      match sender.calendarWidget with
      | none => none
      | some date =>
        if sender.qarma_date_format = [] then some (printLine self (dateToString date none))
        else some (printLine self (dateToString date (some sender.qarma_date_format)))
    | DialogType.Entry => some (printLine self sender.textValue)
    | DialogType.Password =>
      let result : QString :=
        match sender.qarma_username with
        | some username => username ++ ['|']
        | none => []
      let result :=
        match sender.qarma_password with
        | some password => result ++ password
        | none => result
      some (printLine self result)
    | DialogType.FileSelection =>
      some (printLine self (join sender.selectedFiles sender.qarma_separator))
    | DialogType.ColorSelection => some (printLine self sender.selectedColor)
    | DialogType.TextInfo =>
      match sender.textEdit with
      | some (false, plainText) => some (printLine self plainText)
      | _ => some (finishScale self sender)
    | DialogType.Scale => some (finishScale self sender)
    | DialogType.List => some (finishList self sender)
    | DialogType.Forms =>
      match sender.formLayout with
      | none => none
      | some fl =>
        some (printLine self
          (join (fl.map (fun w => value dateToString w sender.qarma_date_format))
            sender.qarma_separator))
    | DialogType.Invalid => some { app := self, exitCode := 0, unhandled := true }

/-- The dialog has the children `dialogFinished` uses without a test: the
calendar of a Calendar dialog and the form layout of a Forms dialog. -/
def hasChildren (type : DialogType) (sender : Sender) : Prop :=
  (type = DialogType.Calendar → sender.calendarWidget.isSome = true) ∧
  (type = DialogType.Forms → sender.formLayout.isSome = true)

instance (type : DialogType) (sender : Sender) : Decidable (hasChildren type sender) := by
  unfold hasChildren; infer_instance

/-- What the body of the argument loop of `showList` does to the variables,
by the directive it looks at. -/
def showListApply (v : ListVars) (d : QString × QString) : ListVars :=
  if d.1 = "--text".toList then { v with dlg := { v.dlg with labelText := d.2 } }
  else if d.1 = "--multiple".toList then
    { v with dlg := { v.dlg with
      tree := { v.dlg.tree with selectionMode := SelectionMode.ExtendedSelection } } }
  else if d.1 = "--column".toList then { v with columns := v.columns ++ [d.2] }
  else if d.1 = "--editable".toList then { v with editable := true }
  else if d.1 = "--hide-header".toList then
    { v with dlg := { v.dlg with tree := { v.dlg.tree with headerHidden := true } } }
  else if d.1 = "--separator".toList then { v with dlg := { v.dlg with qarma_separator := d.2 } }
  else if d.1 = "--hide-column".toList then
    match toInt d.2 with
    | some n => { v with hiddenCols := v.hiddenCols ++ [n] }
    | none => v
  else if d.1 = "--print-column".toList then { v with todo := v.todo + 1 }
  else if d.1 = "--checklist".toList then
    { v with
      dlg := { v.dlg with tree := { v.dlg.tree with
        selectionMode := SelectionMode.NoSelection, allColumnsShowFocus := false } }
      checkable := true }
  else if d.1 = "--radiolist".toList then
    { v with
      dlg := { v.dlg with tree := { v.dlg.tree with
        selectionMode := SelectionMode.NoSelection, allColumnsShowFocus := false } }
      checkable := true
      exclusive := true }
  else if d.1 = "--imagelist".toList then { v with icons := true }
  else if d.1 ≠ "--list".toList then { v with values := v.values ++ [d.1] }
  else v

/-! ## `showScale` (lines 873-918) and `showProgress` (lines 840-866) -/

/-- The signal `valueChanged` of the slider: when the value has changed, every
connection to `printInteger` writes the new value. -/
def emitValueChanged (old : QSlider) (st : App × ScaleDialog) : App × ScaleDialog :=
  if st.2.slider.value ≠ old.value then
    ({ st.1 with out := st.1.out ++
        List.replicate st.2.printPartial (Printed.text (number st.2.slider.value ++ ['\n'])) },
     st.2)
  else st

/-- The body of the argument loop of `showScale` (lines 894-914). -/
def showScaleBody (args : QStringList) (i : Nat) (st : App × ScaleDialog) :
    Option (Nat × (App × ScaleDialog)) :=
  if at_ args i = "--text".toList then
    let (a, i) := NEXT_ARG args i
    some (i, (st.1, { st.2 with labelText := a }))
  else if at_ args i = "--value".toList then
    let (a, i) := NEXT_ARG args i
    some (i, emitValueChanged st.2.slider
      (st.1, { st.2 with slider := st.2.slider.setValue ((toInt a).getD 0) }))
  else if at_ args i = "--min-value".toList then
    let (a, i) := NEXT_ARG args i
    match toInt a with
    | some v =>
      some (i, emitValueChanged st.2.slider
        (st.1, { st.2 with slider := st.2.slider.setMinimum v }))
    | none => some (i, st)
  else if at_ args i = "--max-value".toList then
    let (a, i) := NEXT_ARG args i
    match toInt a with
    | some v =>
      some (i, emitValueChanged st.2.slider
        (st.1, { st.2 with slider := st.2.slider.setMaximum v }))
    | none => some (i, st)
  else if at_ args i = "--step".toList then
    let (a, i) := NEXT_ARG args i
    match toInt a with
    | some u => some (i, (st.1, { st.2 with slider := st.2.slider.setSingleStep u }))
    | none => some (i, st)
  else if at_ args i = "--print-partial".toList then
    some (i, (st.1, { st.2 with printPartial := st.2.printPartial + 1 }))
  else if at_ args i = "--hide-value".toList then
    some (i, (st.1, { st.2 with valueHidden := true }))
  else some (i, st)

/-- Method `Qarma::showScale`: the returned `char` and the object. -/
def showScale (self : App) (args : QStringList) : Option (Nat × App) :=
  let dlg : ScaleDialog := { slider := ({} : QSlider).setRange 0 100 }
  match forArgs args (showScaleBody args) args.length 0 (self, dlg) with
  | none => none
  | some (self, dlg) => some (0, { self with m_dialog := some (Dialog.scale dlg) })

/-- The flags of `showScale` that take a value. -/
def scaleValueFlags : List QString :=
  ["--text".toList, "--value".toList, "--min-value".toList, "--max-value".toList,
   "--step".toList]

/-- The body of the argument loop of `showProgress` (lines 845-858). -/
def showProgressBody (args : QStringList) (i : Nat) (dlg : QProgressDialog) :
    Option (Nat × QProgressDialog) :=
  if at_ args i = "--text".toList then
    let (a, i) := NEXT_ARG args i
    some (i, { dlg with labelText := a })
  else if at_ args i = "--percentage".toList then
    let (a, i) := NEXT_ARG args i
    some (i, dlg.setValue (toInt32 ((toUInt a).getD 0)))
  else if at_ args i = "--pulsate".toList then
    some (i, dlg.setRange 0 0)
  else if at_ args i = "--auto-close".toList then
    some (i, { dlg with qarma_autoclose := true })
  else if at_ args i = "--auto-kill".toList then
    some (i, { dlg with qarma_autokill_parent := true })
  else if at_ args i = "--no-cancel".toList then
    some (i, { dlg with cancelButtonHidden := true })
  else some (i, dlg)

/-- Method `Qarma::showProgress`: the returned `char` and the object; the
dialog listens to standard input when its maximum is above 0. -/
def showProgress (self : App) (args : QStringList) : Option (Nat × App) :=
  let dlg : QProgressDialog := ({} : QProgressDialog).setRange 0 101
  match forArgs args (showProgressBody args) args.length 0 dlg with
  | none => none
  | some dlg =>
    let dlg := dlg.connect DialogSlot.reject
    some (0, { self with m_dialog := some (Dialog.progress dlg) })

/-- The flags of `showProgress` that take a value. -/
def progressValueFlags : List QString := ["--text".toList, "--percentage".toList]

/-! ## The directives of `showCalendar` -/

/-- The flags of `showCalendar` that take a value. -/
def calendarValueFlags : List QString :=
  ["--text".toList, "--day".toList, "--month".toList, "--year".toList,
   "--date-format".toList]

/-- A Calendar directive whose flag is numeric and whose value does not parse
as an unsigned integer. -/
def calendarMalformed (d : QString × QString) : Bool :=
  decide (d.1 ∈ ["--day".toList, "--month".toList, "--year".toList]) &&
    decide (toUInt d.2 = none)


/-! ## The Forms builder (`buildList`, lines 991-1025; `showForms`, lines 1027-1090) -/

/-- The dialog and the locals of `showForms`. The pointers `lastList` and
`lastCombo` are the numbers of the form rows that hold the widgets they point
to; `none` is `NULL`. -/
structure FormsVars where
  dlg : FormsDialog := {}
  lastList : Option Nat := none
  lastListValues : QStringList := []
  lastListColumns : QStringList := []
  lastComboValues : QStringList := []
  lastListHeader : Bool := false
  lastCombo : Option Nat := none
  deriving DecidableEq, Repr

/-- The widget of form row `k` replaced by `f` of it. -/
def modifyRow (f : FormField → FormField) : Nat → List FormField → List FormField
  | _, [] => []
  | 0, w :: ws => f w :: ws
  | k + 1, w :: ws => w :: modifyRow f k ws

/-- Qt's `QFormLayout::addRow`: the row is added at the bottom. -/
def addRow (v : FormsVars) (w : FormField) : FormsVars :=
  { v with dlg := { v.dlg with fields := v.dlg.fields ++ [w] } }

/-- What `buildList` does to the tree widget: `setHeaderHidden(!showHeader)`,
`setHeaderLabels(columns)` when there are columns, and one
`addTopLevelItem` for each row. -/
def treeBuild (showHeader : Bool) (columns : QStringList) (rows : List QStringList) :
    FormField → FormField
  | FormField.tree label _ headerLabels items =>
    FormField.tree label (!showHeader)
      (if columns.length ≠ 0 then columns else headerLabels) (items ++ rows)
  | w => w

/-- Qt's `QComboBox::addItems` on a row of the form. -/
def addItems (texts : QStringList) : FormField → FormField
  | FormField.combo label items => FormField.combo label (items ++ texts)
  | w => w

/-- Function `buildList` on the locals of `showForms`: nothing happens when no
tree is pending, the buffers included; otherwise the tree is filled and the
buffers, the header flag and the pointer are cleared. `none` stands for a
row loop that does not end. -/
def buildList (v : FormsVars) : Option FormsVars :=
  match v.lastList with
  | none => some v
  | some tw =>
    match buildListItems v.lastListValues v.lastListColumns with
    | none => none
    | some rows =>
      let build := treeBuild v.lastListHeader v.lastListColumns rows
      some { v with
        dlg := { v.dlg with fields := modifyRow build tw v.dlg.fields }
        lastListValues := []
        lastListColumns := []
        lastListHeader := false
        lastList := none }

/-- The body of the argument loop of `showForms` (lines 1046-1083). -/
def showFormsBody (args : QStringList) (i : Nat) (v : FormsVars) : Option (Nat × FormsVars) :=
  if at_ args i = "--add-entry".toList then
    let (a, i) := NEXT_ARG args i
    some (i, addRow v (FormField.lineEdit a false))
  else if at_ args i = "--add-password".toList then
    let (a, i) := NEXT_ARG args i
    some (i, addRow v (FormField.lineEdit a true))
  else if at_ args i = "--add-calendar".toList then
    let (a, i) := NEXT_ARG args i
    some (i, addRow v (FormField.calendar a))
  else if at_ args i = "--add-list".toList then
    match buildList v with
    | none => none
    | some v =>
      let (a, i) := NEXT_ARG args i
      some (i, { (addRow v (FormField.tree a false [] [])) with
        lastList := some v.dlg.fields.length })
  else if at_ args i = "--list-values".toList then
    let (a, i) := NEXT_ARG args i
    some (i, { v with lastListValues := split a '|' })
  else if at_ args i = "--column-values".toList then
    let (a, i) := NEXT_ARG args i
    some (i, { v with lastListColumns := split a '|' })
  else if at_ args i = "--add-combo".toList then
    let (a, i) := NEXT_ARG args i
    some (i, { (addRow v (FormField.combo a v.lastComboValues)) with
      lastCombo := some v.dlg.fields.length
      lastComboValues := [] })
  else if at_ args i = "--combo-values".toList then
    let (a, i) := NEXT_ARG args i
    let v := { v with lastComboValues := split a '|' }
    match v.lastCombo with
    | some cb =>
      some (i, { v with
        dlg := { v.dlg with fields := modifyRow (addItems v.lastComboValues) cb v.dlg.fields }
        lastComboValues := []
        lastCombo := none })
    | none => some (i, v)
  else if at_ args i = "--show-header".toList then
    some (i, { v with lastListHeader := true })
  else if at_ args i = "--text".toList then
    let (a, i) := NEXT_ARG args i
    some (i, { v with dlg := { v.dlg with labelText := a } })
  else if at_ args i = "--separator".toList then
    let (a, i) := NEXT_ARG args i
    some (i, { v with dlg := { v.dlg with qarma_separator := a } })
  else if at_ args i = "--forms-date-format".toList then
    let (a, i) := NEXT_ARG args i
    some (i, { v with dlg := { v.dlg with qarma_date_format := a } })
  else if at_ args i = "--add-checkbox".toList then
    let (a, i) := NEXT_ARG args i
    some (i, addRow v (FormField.checkBox a))
  else some (i, v)

/-- Method `Qarma::showForms`: the returned `char` and the object. -/
def showForms (self : App) (args : QStringList) : Option (Nat × App) :=
  match forArgs args (showFormsBody args) args.length 0 {} with
  | none => none
  | some v =>
    match buildList v with
    | none => none
    | some v => some (0, { self with m_dialog := some (Dialog.forms v.dlg) })

/-- The flags of the Forms builder that take the next token as their value. -/
def formsValueFlags : List QString :=
  ["--add-entry".toList, "--add-password".toList, "--add-calendar".toList,
   "--add-list".toList, "--list-values".toList, "--column-values".toList,
   "--add-combo".toList, "--combo-values".toList, "--text".toList,
   "--separator".toList, "--forms-date-format".toList, "--add-checkbox".toList]

/-- The rows of `values` cut into rows of `w` cells, the last row taking what
is left: row `k` holds the cells `k * w` to `k * w + w - 1`. -/
def rowsOf (w : Nat) (values : QStringList) : List QStringList :=
  (List.range ((values.length + w - 1) / w)).map (fun k => (values.drop (k * w)).take w)

/-- The flags `showForms` tests, in the order of its `if` chain. -/
inductive FormsFlag
  | addEntry | addPassword | addCalendar | addList | listValues | columnValues | addCombo
  | comboValues | showHeader | text | separator | dateFormat | addCheckbox | other
  deriving DecidableEq, Repr

/-- The spelling of each flag of `showForms`. -/
def formsFlags : List (QString × FormsFlag) :=
  [("--add-entry".toList, FormsFlag.addEntry), ("--add-password".toList, FormsFlag.addPassword),
   ("--add-calendar".toList, FormsFlag.addCalendar), ("--add-list".toList, FormsFlag.addList),
   ("--list-values".toList, FormsFlag.listValues),
   ("--column-values".toList, FormsFlag.columnValues),
   ("--add-combo".toList, FormsFlag.addCombo), ("--combo-values".toList, FormsFlag.comboValues),
   ("--show-header".toList, FormsFlag.showHeader), ("--text".toList, FormsFlag.text),
   ("--separator".toList, FormsFlag.separator),
   ("--forms-date-format".toList, FormsFlag.dateFormat),
   ("--add-checkbox".toList, FormsFlag.addCheckbox)]

/-- The branch of the `if` chain of `showForms` a token in flag position
takes. -/
def formsFlag (a : QString) : FormsFlag :=
  ((formsFlags.find? (fun p => decide (p.1 = a))).map (fun p => p.2)).getD FormsFlag.other

/-- Function `buildList` with its rows in closed form. -/
def flush (v : FormsVars) : FormsVars :=
  match v.lastList with
  | none => v
  | some tw =>
    let build := treeBuild v.lastListHeader v.lastListColumns
      (rowsOf (max v.lastListColumns.length 1) v.lastListValues)
    { v with
      dlg := { v.dlg with fields := modifyRow build tw v.dlg.fields }
      lastListValues := []
      lastListColumns := []
      lastListHeader := false
      lastList := none }

/-- What one directive does to the locals of `showForms`: the body of the
argument loop, read on the flag and its value. -/
def formsStep (v : FormsVars) (d : QString × QString) : FormsVars :=
  match formsFlag d.1 with
  | FormsFlag.addEntry => addRow v (FormField.lineEdit d.2 false)
  | FormsFlag.addPassword => addRow v (FormField.lineEdit d.2 true)
  | FormsFlag.addCalendar => addRow v (FormField.calendar d.2)
  | FormsFlag.addList =>
    { (addRow (flush v) (FormField.tree d.2 false [] [])) with
      lastList := some (flush v).dlg.fields.length }
  | FormsFlag.listValues => { v with lastListValues := split d.2 '|' }
  | FormsFlag.columnValues => { v with lastListColumns := split d.2 '|' }
  | FormsFlag.addCombo =>
    { (addRow v (FormField.combo d.2 v.lastComboValues)) with
      lastCombo := some v.dlg.fields.length
      lastComboValues := [] }
  | FormsFlag.comboValues =>
    match v.lastCombo with
    | some cb =>
      { v with
        dlg := { v.dlg with fields := modifyRow (addItems (split d.2 '|')) cb v.dlg.fields }
        lastComboValues := []
        lastCombo := none }
    | none => { v with lastComboValues := split d.2 '|' }
  | FormsFlag.showHeader => { v with lastListHeader := true }
  | FormsFlag.text => { v with dlg := { v.dlg with labelText := d.2 } }
  | FormsFlag.separator => { v with dlg := { v.dlg with qarma_separator := d.2 } }
  | FormsFlag.dateFormat => { v with dlg := { v.dlg with qarma_date_format := d.2 } }
  | FormsFlag.addCheckbox => addRow v (FormField.checkBox d.2)
  | FormsFlag.other => v

/-- Whether a directive of the Forms builder adds a row to the form. -/
def addsRow (d : QString × QString) : Bool :=
  decide (d.1 ∈ ["--add-entry".toList, "--add-password".toList, "--add-calendar".toList,
    "--add-list".toList, "--add-combo".toList, "--add-checkbox".toList])

/-- The value string of the last directive with this flag, split on `'|'`;
the empty list when there is no such directive. -/
def pending (flag : QString) (ds : List (QString × QString)) : QStringList :=
  match lastValue flag ds with
  | none => []
  | some s => split s '|'

/-! ## The values of `showList` (lines 588-621) -/

/-- The flags `showList` tests before it takes a token for a value. -/
def listFlags : List QString :=
  ["--text".toList, "--multiple".toList, "--column".toList, "--editable".toList,
   "--hide-header".toList, "--separator".toList, "--hide-column".toList,
   "--print-column".toList, "--checklist".toList, "--radiolist".toList,
   "--imagelist".toList]

/-- The tokens in flag position that are none of the flags of `showList` and
not the mode flag `--list`, in their order. -/
def listValues (args : QStringList) : QStringList :=
  ((directives listValueFlags args).map (fun d => d.1)).filter
    (fun a => decide (a ∉ listFlags) && decide (a ≠ "--list".toList))

/-- The values as the specification has them: the tokens in flag position
that are none of the flags of `showList` and do not start with `--`. -/
def specListValues (args : QStringList) : QStringList :=
  ((directives listValueFlags args).map (fun d => d.1)).filter
    (fun a => decide (a ∉ listFlags) && !startsWith a "--".toList)

/-! ## The builders the dispatch loop calls -/

/-- The calls of descriptor builders the dispatch loop makes, each named by
the mode flag of its branch, in the order of the calls: the loop of
`dispatchLoop`, which takes a branch of its `if` chain exactly at a mode flag
and is left as soon as `error` is not 1. -/
def dispatchCalls (env : Env) (args : QStringList) :
    QStringList → App → Nat → Option (List QString)
  | [], _, _ => some []
  | arg :: rest, self, error =>
    match dispatchArg env args self error arg with
    | none => none
    | some (error, self) =>
      let call := if arg ∈ modeFlags then [arg] else []
      if error ≠ 1 then some call
      else (dispatchCalls env args rest self error).map (fun calls => call ++ calls)

/-! ## The progress protocol: values passed and the whole handler -/

/-- The arguments of the calls `dlg->setValue(qMin(100,u))` the line loop of
the progress branch makes (line 756), in the order of the calls. -/
def progressCalls (input : QStringList) : List Int :=
  input.filterMap (fun line => (toInt line).map (fun u => min 100 u))

/-- Method `readStdIn` in Progress mode, from the text read to the dialog and
the timers started (lines 725-770): a read of nothing on a call by the
notifier ends the input, and a read of nothing returns before the branch, the
static `cachedText` being written in TextInfo mode only. -/
def readStdInProgressMode (notifier : Bool) (dlg : QProgressDialog) (ba : QString) :
    QProgressDialog × List (Int × Slot) :=
  if ba = [] ∧ notifier = true then (dlg, [])
  else
    let cachedText : QString := []
    let newText := ba
    if newText = [] ∧ cachedText = [] then (dlg, [])
    else readStdInProgress dlg newText

/-! ## `showText` (lines 920-972) -/

/-- The body of the argument loop of `showText` (lines 931-948), on the
dialog and `needStdIn`; `readFile` gives the content of a file that can be
opened for reading. -/
def showTextBody (readFile : QString → Option QString) (args : QStringList) (i : Nat)
    (st : TextDialog × Bool) : Option (Nat × (TextDialog × Bool)) :=
  if at_ args i = "--filename".toList then
    let (a, i) := NEXT_ARG args i
    match readFile a with
    | some content => some (i, ({ st.1 with text := content }, false))
    | none => some (i, (st.1, false))
  else if at_ args i = "--editable".toList then
    some (i, ({ st.1 with readOnly := false }, st.2))
  else if at_ args i = "--font".toList then
    let (a, i) := NEXT_ARG args i
    some (i, ({ st.1 with font := some a }, st.2))
  else if at_ args i = "--checkbox".toList then
    let (a, i) := NEXT_ARG args i
    some (i, ({ st.1 with checkBoxes := st.1.checkBoxes ++ [a] }, st.2))
  else if at_ args i = "--auto-scroll".toList then
    some (i, ({ st.1 with qarma_autoscroll := true }, st.2))
  else some (i, st)

/-- Method `Qarma::showText`: the returned `char` and the object. The palette
and the frame a read-only text edit gets are left out. -/
def showText (readFile : QString → Option QString) (self : App) (args : QStringList) :
    Option (Nat × App) :=
  match forArgs args (showTextBody readFile args) args.length 0 ({ readOnly := true }, true) with
  | none => none
  | some (dlg, needStdIn) =>
    let dlg := { dlg with listening := needStdIn, okEnabled := decide (dlg.checkBoxes = []) }
    some (0, { self with m_dialog := some (Dialog.text dlg) })

/-- The flags of `showText` that take a value. -/
def textValueFlags : List QString :=
  ["--filename".toList, "--font".toList, "--checkbox".toList]

/-- The dialog `showText` has built as `dialogFinished` finds it when the
text edit holds `plainText`: the text edit is its only child that is looked
for, and the separator property is not set. -/
def textSender (dlg : TextDialog) (plainText : QString) : Sender :=
  { textEdit := some (dlg.readOnly, plainText) }

/-! ## The exclusive check list (`toggleItems`, lines 550-567) -/

/-- The list dialog while it is shown: the dialog and the static `recursion`
of `toggleItems`. -/
structure ListState where
  dlg : ListDialog := {}
  recursion : Bool := false
  deriving DecidableEq, Repr

/-- The check state of top-level row `i` set to `state`. -/
def setChecked (items : List QTreeWidgetItem) (i : Nat) (state : Bool) : List QTreeWidgetItem :=
  match items[i]? with
  | none => items
  | some twi => items.set i { twi with checked := state }

/-- The top-level rows of the tree replaced. -/
def ListState.withItems (st : ListState) (items : List QTreeWidgetItem) : ListState :=
  { st with dlg := { st.dlg with tree := { st.dlg.tree with topLevelItems := items } } }

mutual

/-- Qt's `QTreeWidgetItem::setCheckState(0, state)` on top-level row `i`, as
the view calls it for the user and `toggleItems` calls it itself: a state
that is the row's state already changes nothing; otherwise the state is
stored and `itemChanged(item, 0)` is emitted, on which `toggleItems` runs if
it is connected. `none` stands for exhausted fuel. -/
def setCheckState : Nat → ListState → Nat → Bool → Option ListState
  | 0, _, _, _ => none
  | fuel + 1, st, i, state =>
    match st.dlg.tree.topLevelItems[i]? with
    | none => some st
    | some twi =>
      if twi.checked = state then some st
      else
        let st := st.withItems (setChecked st.dlg.tree.topLevelItems i state)
        if st.dlg.toggleItemsConnected then toggleItems fuel st i 0 else some st
termination_by structural fuel => fuel

/-- Method `Qarma::toggleItems`; `item` is the number of the row the signal is about. -/
def toggleItems : Nat → ListState → Nat → Int → Option ListState
  | 0, _, _, _ => none
  | fuel + 1, st, item, column =>
    if column ≠ 0 then some st
    else if st.recursion then some st
    else
      let st := { st with recursion := true }
      match toggleLoop fuel st item 0 with
      | none => none
      | some st => some { st with recursion := false }
termination_by structural fuel => fuel

/-- The loop `for (int i = 0; i < tw->topLevelItemCount(); ++i)` of `toggleItems`. -/
def toggleLoop : Nat → ListState → Nat → Nat → Option ListState
  | 0, _, _, _ => none
  | fuel + 1, st, item, i =>
    if i < st.dlg.tree.topLevelItems.length then
      if i ≠ item then
        match setCheckState fuel st i false with
        | none => none
        | some st => toggleLoop fuel st item (i + 1)
      else toggleLoop fuel st item (i + 1)
    else some st
termination_by structural fuel => fuel

end

/-- The dialog `showList` builds of `--list --radiolist a b`: two rows, whose
texts have gone to the edit role of column 0. -/
def radioList0 : ListDialog :=
  { tree :=
      { selectionMode := SelectionMode.NoSelection
        allColumnsShowFocus := false
        columnCount := 1
        topLevelItems := [{ text := [[]], userCheckable := true },
                          { text := [[]], userCheckable := true }] }
    toggleItemsConnected := true }

/-- The check-state changes the user makes, one after the other, each through
`setCheckState` of the row's check box. -/
def userChanges (fuel : Nat) : ListState → List (Nat × Bool) → Option ListState
  | st, [] => some st
  | st, (i, state) :: rest =>
    match setCheckState fuel st i state with
    | none => none
    | some st => userChanges fuel st rest

/-- Every row from row `i` on, other than row `item`, unchecked. -/
def uncheckFrom (i item : Nat) (items : List QTreeWidgetItem) : List QTreeWidgetItem :=
  items.mapIdx (fun j twi => if i ≤ j ∧ j ≠ item then { twi with checked := false } else twi)

/-- At most one top-level row is checked. -/
def atMostOneChecked (items : List QTreeWidgetItem) : Prop :=
  ∀ i j : Nat, (items[i]?.map (fun twi => twi.checked)) = some true →
    (items[j]?.map (fun twi => twi.checked)) = some true → i = j

/-! ## The text protocol (`readStdIn`, lines 725-794) -/

/-- The animation of the scroll bar that `readStdIn` keeps in its static
`animator`. -/
structure QPropertyAnimation where
  running : Bool := false
  duration : Int := 250
  deriving DecidableEq, Repr

/-- The text dialog while it listens: the plain text of the text edit, its
`qarma_autoscroll` property, and the statics `cachedText` and `animator` of
`readStdIn` (`none`: the null pointer). -/
structure TextState where
  plainText : QString := []
  qarma_autoscroll : Bool := false
  cachedText : QString := []
  animator : Option QPropertyAnimation := none
  deriving DecidableEq, Repr

/-- The animation exists and is running. -/
def animating (st : TextState) : Bool :=
  match st.animator with
  | some a => a.running
  | none => false

/-- Method `readStdIn` in TextInfo mode (lines 725-794), for a dialog with
its text edit. `notifier` tells whether the socket notifier has sent the
call, `ba` is the line read, and `diff` is what line 784 finds between the
maximum of the scroll bar and its old value; `shown` stands for Qt's
`setText` followed by `toPlainText`. -/
def readStdInText (shown : QString → QString) (st : TextState) (notifier : Bool)
    (ba : QString) (diff : Int) : TextState :=
  if ba = [] ∧ notifier = true then st
  else
    let newText := ba
    if newText = [] ∧ st.cachedText = [] then st
    else
      let st := { st with cachedText := st.cachedText ++ newText }
      if !animating st then
        let st := { st with plainText := shown (st.plainText ++ st.cachedText), cachedText := [] }
        if st.qarma_autoscroll then
          let st := if st.animator = none then { st with animator := some {} } else st
          if diff > 0 then
            let start := fun (a : QPropertyAnimation) =>
              { a with duration := min (max 200 diff) 2500, running := true }
            { st with animator := st.animator.map start }
          else st
        else st
      else st

/-- A call of `readStdIn` in TextInfo mode: by the socket notifier, or by the
signal `finished()` of the animation; each with the line it reads and the
`diff` it finds. -/
inductive StdInCall
  | activated (ba : QString) (diff : Int)
  | finished (ba : QString) (diff : Int)
  deriving DecidableEq, Repr

/-- The line a call reads. -/
def StdInCall.chunk : StdInCall → QString
  | StdInCall.activated ba _ => ba
  | StdInCall.finished ba _ => ba

/-- The call is made while the animation is running: the notifier calls at
any time, the signal `finished()` comes when the animation has stopped. -/
def StdInCall.whileAnimating (st : TextState) : StdInCall → Bool
  | StdInCall.activated _ _ => animating st
  | StdInCall.finished _ _ => false

/-- The state after a call. -/
def textCall (shown : QString → QString) (st : TextState) : StdInCall → TextState
  | StdInCall.activated ba diff => readStdInText shown st true ba diff
  | StdInCall.finished ba diff =>
    readStdInText shown
      { st with animator := st.animator.map (fun a => { a with running := false }) }
      false ba diff

/-- The lines the calls have read, one after the other. -/
def received (calls : List StdInCall) : QString :=
  (calls.map StdInCall.chunk).flatten

/-! ## Tokenizer: proofs -/

theorem foldl_append_flatMap {α β : Type} (f : α → List β) (l : List α) (acc : List β) :
    l.foldl (fun r x => r ++ f x) acc = acc ++ l.flatMap f := by
  induction l generalizing acc with
  | nil => simp
  | cons x xs ih => simp [ih, List.flatMap_cons, List.append_assoc]

theorem map_at_range' (l : QStringList) (k : Nat) :
    (List.range' k (l.length - k)).map (at_ l) = l.drop k := by
  apply List.ext_getElem
  · simp
  · intro n h1 h2
    simp at h1
    simp [at_, List.getD, List.getElem?_eq_getElem, show k + n < l.length by omega]

theorem indexOf_eq_length_takeWhile (s : QString) (c : Char) :
    s.indexOf c = (s.takeWhile (fun x => x != c)).length := by
  induction s with
  | nil => simp
  | cons x xs ih =>
    by_cases h : x = c
    · subst h; simp [List.indexOf_cons, List.takeWhile_cons]
    · simp [List.indexOf_cons, List.takeWhile_cons, h, ih]

theorem takeWhile_eq_take (s : QString) (p : Char → Bool) :
    s.takeWhile p = s.take (s.takeWhile p).length := by
  induction s with
  | nil => simp
  | cons x xs ih =>
    by_cases h : p x
    · simp only [List.takeWhile_cons, h, if_true, List.length_cons, List.take_succ_cons]
      rw [← ih]
    · simp [List.takeWhile_cons, h]

theorem dropWhile_eq_drop (s : QString) (p : Char → Bool) :
    s.dropWhile p = s.drop (s.takeWhile p).length := by
  induction s with
  | nil => simp
  | cons x xs ih =>
    by_cases h : p x
    · simp only [List.takeWhile_cons, List.dropWhile_cons, h, if_true, List.length_cons,
        List.drop_succ_cons]
      exact ih
    · simp [List.takeWhile_cons, List.dropWhile_cons, h]

theorem length_takeWhile_lt_of_mem (s : QString) (c : Char) (h : c ∈ s) :
    (s.takeWhile (fun x => x != c)).length < s.length := by
  induction s with
  | nil => simp at h
  | cons x xs ih =>
    by_cases hx : x = c
    · subst hx; simp [List.takeWhile_cons]
    · have : c ∈ xs := by
        rcases List.mem_cons.mp h with h1 | h1
        · exact absurd h1.symm hx
        · exact h1
      simp [List.takeWhile_cons, hx, ih this]

theorem startsWith_dashes (a : QString) :
    startsWith a "--".toList = true ↔ a.take 2 = ['-', '-'] := by
  unfold startsWith
  rw [List.isPrefixOf_iff_prefix, List.prefix_iff_eq_take]
  simp [eq_comm]

theorem tokenizeArg_eq_specTokens (a : QString) : tokenizeArg a = specTokens a := by
  unfold tokenizeArg specTokens
  by_cases hd : a.take 2 = ['-', '-']
  · have hs : startsWith a "--".toList = true := (startsWith_dashes a).mpr hd
    by_cases he : '=' ∈ a
    · have hlt := length_takeWhile_lt_of_mem a '=' he
      have hidx : indexOf a '=' = ((a.takeWhile (fun x => x != '=')).length : Int) := by
        simp [indexOf, he, indexOf_eq_length_takeWhile]
      simp only [hs, hd, he, if_true, and_self, hidx]
      have h1 : ((a.takeWhile (fun x => x != '=')).length : Int) > -1 := by omega
      simp only [h1, if_true, left, mid]
      have h2 : ¬ (((a.takeWhile (fun x => x != '=')).length : Int) < 0 ∨
          (a.length : Int) ≤ ((a.takeWhile (fun x => x != '=')).length : Int)) := by omega
      have h3 : ¬ ((a.length : Int) < ((a.takeWhile (fun x => x != '=')).length : Int) + 1) := by
        omega
      simp only [h2, h3, if_false]
      have h4 : (((a.takeWhile (fun x => x != '=')).length : Int) + 1).toNat
          = (a.takeWhile (fun x => x != '=')).length + 1 := by omega
      rw [h4, Int.toNat_ofNat, ← takeWhile_eq_take, dropWhile_eq_drop, List.drop_drop]
    · have hidx : indexOf a '=' = -1 := by simp [indexOf, he]
      simp [hs, hd, he, hidx]
  · have hs : ¬ startsWith a ['-', '-'] = true := fun h => hd ((startsWith_dashes a).mp h)
    simp [hs, hd]

/-- C1: the token sequence is the in-order concatenation, over the arguments
after the program name, of the two tokens (text before the first `=`, text
after it) for an argument that starts with `--` and contains `=`, and of the
unchanged argument otherwise. -/
theorem tokenize_eq_flatMap_specTokens (argList : QStringList) :
    tokenize argList = (argList.drop 1).flatMap specTokens := by
  unfold tokenize
  rw [foldl_append_flatMap (fun i => tokenizeArg (at_ argList i))]
  rw [← map_at_range' argList 1, List.flatMap_map]
  simp [tokenizeArg_eq_specTokens]

/-! ## List rows: proofs -/

theorem rowLoop_spec (values : QStringList) (k : Nat) :
    ∀ (i : Nat) (item : QStringList), i < values.length →
      rowLoop values k i item
        = some (i + min k (values.length - i),
                item ++ (values.drop i).take (min k (values.length - i))) := by
  induction k with
  | zero => intro i item _; simp [rowLoop]
  | succ k ih =>
    intro i item hi
    have hd : values.drop i = at_ values i :: values.drop (i + 1) := by
      rw [List.drop_eq_getElem_cons hi]
      simp [at_, List.getD, List.getElem?_eq_getElem hi]
    by_cases hlast : i + 1 = values.length
    · have hm : min (k + 1) (values.length - i) = 1 := by omega
      simp [rowLoop, hi, hlast, hm, hd]
    · have hi' : i + 1 < values.length := by omega
      have hm : min (k + 1) (values.length - i) = min k (values.length - (i + 1)) + 1 := by omega
      simp only [rowLoop, hi, if_true, hlast, if_false, ih (i + 1) _ hi', hm, hd,
        List.take_succ_cons]
      simp [Nat.add_assoc, Nat.add_comm 1]

theorem ceil_step (n w : Nat) (hw : 1 ≤ w) (h : w ≤ n) :
    (n + w - 1) / w = (n - w + w - 1) / w + 1 := by
  have h1 : n + w - 1 = (n - w + w - 1) + w := by omega
  rw [h1, Nat.add_div_right _ (by omega : 0 < w)]

theorem ceil_small (n w : Nat) (h0 : 0 < n) (h : n ≤ w) : (n + w - 1) / w = 1 := by
  have h1 : n + w - 1 = (n - 1) + w := by omega
  rw [h1, Nat.add_div_right _ (by omega : 0 < w), Nat.div_eq_of_lt (by omega)]

theorem rowsLoop_spec (values : QStringList) (w : Nat) (hw : 1 ≤ w) (fuel : Nat) :
    ∀ (i : Nat) (rows : List QStringList), values.length - i ≤ fuel →
      ∃ out : List QStringList,
        rowsLoop values w fuel i rows = some (rows ++ out) ∧
        out.flatten = values.drop i ∧
        out.length = (values.length - i + w - 1) / w ∧
        (∀ r ∈ out, 1 ≤ r.length ∧ r.length ≤ w) ∧
        (∀ k, k + 1 < out.length → (out.getD k []).length = w) := by
  induction fuel with
  | zero =>
    intro i rows hf
    have hi : ¬ i < values.length := by omega
    refine ⟨[], ?_, ?_, ?_, ?_, ?_⟩
    · simp [rowsLoop, hi]
    · simp [List.drop_eq_nil_of_le (by omega : values.length ≤ i)]
    · have : values.length - i + w - 1 = w - 1 := by omega
      simp [this, Nat.div_eq_of_lt (by omega : w - 1 < w)]
    · simp
    · simp
  | succ fuel ih =>
    intro i rows hf
    by_cases hi : i < values.length
    · obtain ⟨out, h1, h2, h3, h4, h5⟩ :=
        ih (i + min w (values.length - i))
          (rows ++ [(values.drop i).take (min w (values.length - i))]) (by omega)
      refine ⟨(values.drop i).take (min w (values.length - i)) :: out, ?_, ?_, ?_, ?_, ?_⟩
      · rw [rowsLoop]
        simp [hi, rowLoop_spec values w i [] hi, h1]
      · rw [List.flatten_cons, h2, ← List.drop_drop, List.take_append_drop]
      · rw [List.length_cons, h3]
        by_cases hc : w ≤ values.length - i
        · rw [ceil_step (values.length - i) w hw hc]
          have : min w (values.length - i) = w := by omega
          rw [this]
          have : values.length - (i + w) = values.length - i - w := by omega
          rw [this]
        · rw [ceil_small (values.length - i) w (by omega) (by omega)]
          have : values.length - (i + min w (values.length - i)) = 0 := by omega
          rw [this]
          simp [Nat.div_eq_of_lt (by omega : w - 1 < w)]
      · intro r hr
        rcases List.mem_cons.mp hr with h | h
        · subst h
          simp only [List.length_take, List.length_drop]
          omega
        · exact h4 r h
      · intro k hk
        cases k with
        | zero =>
          simp only [List.getD_cons_zero, List.length_take, List.length_drop]
          have hpos : 0 < out.length := by simpa using hk
          rw [h3] at hpos
          by_cases hc : w ≤ values.length - i
          · omega
          · exfalso
            have : values.length - (i + min w (values.length - i)) = 0 := by omega
            rw [this] at hpos
            simp [Nat.div_eq_of_lt (by omega : w - 1 < w)] at hpos
        | succ k =>
          simp only [List.getD_cons_succ]
          exact h5 k (by simpa using hk)
    · have hle : values.length ≤ i := by omega
      refine ⟨[], ?_, ?_, ?_, ?_, ?_⟩
      · rw [rowsLoop]; simp [hi]
      · simp [List.drop_eq_nil_of_le hle]
      · have : values.length - i + w - 1 = w - 1 := by omega
        simp [this, Nat.div_eq_of_lt (by omega : w - 1 < w)]
      · simp
      · simp

/-! ## `readGeneral`: the loop and its recursion on the tokens -/

theorem drop_eq_at_cons (args : QStringList) (i : Nat) (hi : i < args.length) :
    args.drop i = at_ args i :: args.drop (i + 1) := by
  rw [List.drop_eq_getElem_cons hi]
  simp [at_, List.getD, List.getElem?_eq_getElem hi]

theorem NEXT_ARG_eq (args : QStringList) (i : Nat) :
    NEXT_ARG args i = ((args.drop (i + 1)).headD [], i + 1) := by
  unfold NEXT_ARG
  by_cases h : i + 1 < args.length
  · simp [h, drop_eq_at_cons args (i + 1) h]
  · simp [h, List.drop_eq_nil_of_le (by omega : args.length ≤ i + 1)]

theorem readGeneralLoop_succ (args : QStringList) (fuel i : Nat) (self : App)
    (remains : QStringList) (hi : i < args.length) :
    readGeneralLoop args (fuel + 1) i self remains =
      match action (at_ args i) with
      | Action.keep => readGeneralLoop args fuel (i + 1) self (remains ++ [at_ args i])
      | Action.switch set => readGeneralLoop args fuel (i + 1) (set self) remains
      | Action.takeString set =>
        readGeneralLoop args fuel (i + 1 + 1) (set ((args.drop (i + 1)).headD []) self) remains
      | Action.takeNumber set =>
        match toUInt ((args.drop (i + 1)).headD []) with
        | none =>
          some (false,
            (error self (at_ args i ++ " must be followed by a positive number".toList)).2, args)
        | some u => readGeneralLoop args fuel (i + 1 + 1) (set (toInt32 u) self) remains := by
  conv => lhs; unfold readGeneralLoop
  simp only [hi, if_true, NEXT_ARG_eq, action]
  split_ifs with h1 h2 h3 h4 h5 h6 h7 h8 <;> try rfl
  all_goals
    rw [‹at_ args i = _›]
    cases toUInt ((List.drop (i + 1) args).headD []) <;> rfl

theorem readGeneralLoop_eq_scan (args : QStringList) (fuel : Nat) :
    ∀ (i : Nat) (self : App) (remains : QStringList), args.length - i ≤ fuel →
      readGeneralLoop args fuel i self remains = some (scan args (args.drop i) self remains) := by
  induction fuel with
  | zero =>
    intro i self remains hf
    have hi : ¬ i < args.length := by omega
    rw [readGeneralLoop]
    simp [hi, List.drop_eq_nil_of_le (by omega : args.length ≤ i), scan]
  | succ fuel ih =>
    intro i self remains hf
    by_cases hi : i < args.length
    · have hdd : (args.drop (i + 1)).drop 1 = args.drop (i + 1 + 1) := by
        rw [List.drop_drop]
      rw [readGeneralLoop_succ args fuel i self remains hi, drop_eq_at_cons args i hi, scan]
      cases action (at_ args i) with
      | keep => exact ih (i + 1) _ _ (by omega)
      | switch set => exact ih (i + 1) _ _ (by omega)
      | takeString set => simp only [hdd]; exact ih (i + 1 + 1) _ _ (by omega)
      | takeNumber set =>
        simp only [hdd]
        cases toUInt ((List.drop (i + 1) args).headD []) with
        | none => rfl
        | some u => exact ih (i + 1 + 1) _ _ (by omega)
    · rw [readGeneralLoop]
      simp [hi, List.drop_eq_nil_of_le (by omega : args.length ≤ i), scan]

theorem readGeneral_eq_scan (self : App) (args : QStringList) :
    readGeneral self args = some (scan args args self []) := by
  unfold readGeneral
  rw [readGeneralLoop_eq_scan args args.length 0 self [] (by omega)]
  simp

theorem Frame.refl (s : App) : Frame s s := ⟨rfl, rfl, rfl, rfl, rfl⟩

theorem Frame.trans {s t u : App} (h1 : Frame s t) (h2 : Frame t u) : Frame s u := by
  unfold Frame at h1 h2 ⊢
  simp only [h2, h1, and_self]

theorem action_numeric (a : QString) (h : a ∈ numericFlags) :
    ∃ set, action a = Action.takeNumber set ∧ ∀ v s, Frame s (set v s) := by
  simp only [numericFlags, List.mem_cons, List.mem_singleton, List.not_mem_nil, or_false] at h
  rcases h with h | h | h | h <;> subst h
  all_goals exact ⟨_, rfl, fun v s => ⟨rfl, rfl, rfl, rfl, rfl⟩⟩

theorem action_string (a : QString) (h : a ∈ valueFlags) (hn : a ∉ numericFlags)
    (hc : a ≠ "--cancel-label".toList) :
    ∃ set, action a = Action.takeString set ∧ ∀ v s, Frame s (set v s) := by
  simp only [valueFlags, List.mem_cons, List.mem_singleton, List.not_mem_nil, or_false] at h
  rcases h with h | h | h | h | h | h | h | h <;> subst h
  all_goals first
    | exact ⟨_, rfl, fun v s => ⟨rfl, rfl, rfl, rfl, rfl⟩⟩
    | exact absurd rfl hc
    | exact absurd (by decide) hn

theorem action_other (a : QString) (h : a ∉ valueFlags) :
    action a = Action.keep ∨ ∃ set, action a = Action.switch set ∧ ∀ s, Frame s (set s) := by
  simp only [valueFlags, List.mem_cons, List.mem_singleton, List.not_mem_nil, or_false,
    not_or] at h
  obtain ⟨h1, h2, h3, h4, h5, h6, h7, h8⟩ := h
  by_cases hm : a = "--modal".toList
  · subst hm
    exact Or.inr ⟨_, rfl, fun s => ⟨rfl, rfl, rfl, rfl, rfl⟩⟩
  · left
    unfold action
    simp only [h1, h2, h3, h4, h5, h6, h8, hm, if_false]

theorem flagPositionsFrom_cons (i : Nat) (a : QString) (rest : QStringList) :
    flagPositionsFrom i (a :: rest) =
      i :: (if a ∈ valueFlags then flagPositionsFrom (i + 2) (rest.drop 1)
            else flagPositionsFrom (i + 1) rest) := by
  cases rest with
  | nil => split_ifs <;> simp [flagPositionsFrom]
  | cons b rest => simp [flagPositionsFrom]

theorem at_eq_headD_drop (args : QStringList) (k : Nat) :
    at_ args k = (args.drop k).headD [] := by
  by_cases h : k < args.length
  · rw [drop_eq_at_cons args k h]; rfl
  · simp [at_, List.getD, List.drop_eq_nil_of_le (by omega : args.length ≤ k),
      List.getElem?_eq_none (by omega : args.length ≤ k)]

theorem toUInt_nil : toUInt [] = none := by decide

/-- The facts about position `i` when the tokens from `i` on are `a :: rest`. -/
theorem position_facts (args : QStringList) (i : Nat) (a : QString) (rest : QStringList)
    (hd : args.drop i = a :: rest) :
    at_ args i = a ∧ args.drop (i + 1) = rest ∧ a ∈ args ∧
      args.drop (i + 2) = rest.drop 1 ∧
      (lacksNumber args i ↔ a ∈ numericFlags ∧ toUInt (rest.headD []) = none) := by
  have hi : i < args.length := by
    by_contra h
    rw [List.drop_eq_nil_of_le (by omega : args.length ≤ i)] at hd
    exact List.noConfusion hd
  have h0 := drop_eq_at_cons args i hi
  rw [hd] at h0
  have ha : at_ args i = a := (List.cons.inj h0).1.symm
  have hr : args.drop (i + 1) = rest := (List.cons.inj h0).2.symm
  have hmem : a ∈ args := by
    have : a ∈ args.drop i := by rw [hd]; exact List.mem_cons_self _ _
    exact List.mem_of_mem_drop this
  have hdd : args.drop (i + 2) = rest.drop 1 := by
    rw [← hr, List.drop_drop]
  have hnext : at_ args (i + 1) = rest.headD [] := by rw [at_eq_headD_drop, hr]
  refine ⟨ha, hr, hmem, hdd, ?_⟩
  unfold lacksNumber
  rw [ha, hnext]
  constructor
  · rintro ⟨h1, h2 | h2⟩
    · have : rest = [] := by
        rw [← hr]; exact List.drop_eq_nil_of_le h2
      subst this
      exact ⟨h1, toUInt_nil⟩
    · exact ⟨h1, h2⟩
  · rintro ⟨h1, h2⟩
    exact ⟨h1, Or.inr h2⟩

theorem scan_spec (args : QStringList) (hc : "--cancel-label".toList ∉ args) (n : Nat) :
    ∀ (l : QStringList) (i : Nat) (self : App) (remains : QStringList),
      l.length = n → args.drop i = l →
      ((flagPositionsFrom i l).filter (fun p => decide (lacksNumber args p)) = [] →
        ∃ self1 r, scan args l self remains = (true, self1, r) ∧ Frame self self1) ∧
      (∀ p ps, (flagPositionsFrom i l).filter (fun p => decide (lacksNumber args p)) = p :: ps →
        ∃ self1, Frame self self1 ∧
          scan args l self remains =
            (false,
             (error self1 (at_ args p ++ " must be followed by a positive number".toList)).2,
             args)) := by
  induction n using Nat.strong_induction_on with
  | _ n ih =>
    intro l i self remains hl hd
    cases l with
    | nil =>
      refine ⟨fun _ => ⟨self, remains, by simp [scan], Frame.refl self⟩, ?_⟩
      intro p ps h
      simp [flagPositionsFrom] at h
    | cons a rest =>
      obtain ⟨ha, hr, hmem, hdd, hlack⟩ := position_facts args i a rest hd
      have hne : a ≠ "--cancel-label".toList := fun h => hc (h ▸ hmem)
      have hlen : rest.length < n := by simp at hl; omega
      have hlen1 : (rest.drop 1).length < n := by simp at hl ⊢; omega
      rw [flagPositionsFrom_cons, List.filter_cons]
      by_cases hv : a ∈ valueFlags
      · by_cases hnum : a ∈ numericFlags
        · obtain ⟨set, hact, hframe⟩ := action_numeric a hnum
          cases hu : toUInt (rest.headD []) with
          | none =>
            have hl1 : lacksNumber args i := hlack.mpr ⟨hnum, hu⟩
            simp only [hl1, decide_True, if_true]
            refine ⟨fun h => List.noConfusion h, ?_⟩
            intro p ps h
            have hp : i = p := (List.cons.inj h).1
            subst hp
            refine ⟨self, Frame.refl self, ?_⟩
            rw [scan, hact]
            simp only [hu, ha]
          | some u =>
            have hl1 : ¬ lacksNumber args i := fun h => by
              have := (hlack.mp h).2; rw [hu] at this; exact Option.noConfusion this
            simp only [hl1, decide_False, hv, if_true, Bool.false_eq_true, if_false]
            have hs : scan args (a :: rest) self remains
                = scan args (rest.drop 1) (set (toInt32 u) self) remains := by
              rw [scan, hact]; simp only [hu]
            rw [hs]
            obtain ⟨g1, g2⟩ := ih _ hlen1 (rest.drop 1) (i + 2) (set (toInt32 u) self) remains
              rfl hdd
            refine ⟨fun h => ?_, fun p ps h => ?_⟩
            · obtain ⟨s1, r, e1, f1⟩ := g1 h
              exact ⟨s1, r, e1, (hframe _ _).trans f1⟩
            · obtain ⟨s1, f1, e1⟩ := g2 p ps h
              exact ⟨s1, (hframe _ _).trans f1, e1⟩
        · obtain ⟨set, hact, hframe⟩ := action_string a hv hnum hne
          have hl1 : ¬ lacksNumber args i := fun h => hnum (hlack.mp h).1
          simp only [hl1, decide_False, hv, if_true, Bool.false_eq_true, if_false]
          have hs : scan args (a :: rest) self remains
              = scan args (rest.drop 1) (set (rest.headD []) self) remains := by
            rw [scan, hact]
          rw [hs]
          obtain ⟨g1, g2⟩ := ih _ hlen1 (rest.drop 1) (i + 2) (set (rest.headD []) self) remains
            rfl hdd
          refine ⟨fun h => ?_, fun p ps h => ?_⟩
          · obtain ⟨s1, r, e1, f1⟩ := g1 h
            exact ⟨s1, r, e1, (hframe _ _).trans f1⟩
          · obtain ⟨s1, f1, e1⟩ := g2 p ps h
            exact ⟨s1, (hframe _ _).trans f1, e1⟩
      · have hnum : a ∉ numericFlags := fun h => hv (by
          simp only [numericFlags, List.mem_cons, List.mem_singleton, List.not_mem_nil,
            or_false] at h
          rcases h with h | h | h | h <;> subst h <;> decide)
        have hl1 : ¬ lacksNumber args i := fun h => hnum (hlack.mp h).1
        simp only [hl1, decide_False, hv, Bool.false_eq_true, if_false]
        rcases action_other a hv with hact | ⟨set, hact, hframe⟩
        · have hs : scan args (a :: rest) self remains
              = scan args rest self (remains ++ [a]) := by
            rw [scan, hact]
          rw [hs]
          exact ih _ hlen rest (i + 1) self (remains ++ [a]) rfl hr
        · have hs : scan args (a :: rest) self remains
              = scan args rest (set self) remains := by
            rw [scan, hact]
          rw [hs]
          obtain ⟨g1, g2⟩ := ih _ hlen rest (i + 1) (set self) remains rfl hr
          refine ⟨fun h => ?_, fun p ps h => ?_⟩
          · obtain ⟨s1, r, e1, f1⟩ := g1 h
            exact ⟨s1, r, e1, (hframe _).trans f1⟩
          · obtain ⟨s1, f1, e1⟩ := g2 p ps h
            exact ⟨s1, (hframe _).trans f1, e1⟩

theorem length_of_drop_eq (args : QStringList) (i : Nat) (l : QStringList) (a : QString)
    (hd : args.drop i = a :: l) : args.length = i + 1 + l.length := by
  have := congrArg List.length hd
  simp at this
  omega

theorem le_of_mem_flagPositionsFrom (n : Nat) :
    ∀ (l : QStringList) (i p : Nat), l.length = n → p ∈ flagPositionsFrom i l → i ≤ p := by
  induction n using Nat.strong_induction_on with
  | _ n ih =>
    intro l i p hl hp
    cases l with
    | nil => simp [flagPositionsFrom] at hp
    | cons a rest =>
      rw [flagPositionsFrom_cons] at hp
      rcases List.mem_cons.mp hp with h | h
      · omega
      · split_ifs at h
        · have := ih (rest.drop 1).length (by simp at hl ⊢; omega) _ _ _ rfl h
          omega
        · have := ih rest.length (by simp at hl; omega) _ _ _ rfl h
          omega

/-- When the last token is a string-valued flag in flag position and the scan
succeeds, the last thing done to the object is storing the null string. -/
theorem scan_last (args : QStringList) (hc : "--cancel-label".toList ∉ args)
    (set : QString → App → App)
    (hset : action (at_ args (args.length - 1)) = Action.takeString set) (n : Nat) :
    ∀ (l : QStringList) (i : Nat) (self self1 : App) (remains r : QStringList),
      l.length = n → args.drop i = l → (args.length - 1) ∈ flagPositionsFrom i l →
      scan args l self remains = (true, self1, r) → ∃ s, self1 = set [] s := by
  induction n using Nat.strong_induction_on with
  | _ n ih =>
    intro l i self self1 remains r hl hd hp hs
    cases l with
    | nil => simp [flagPositionsFrom] at hp
    | cons a rest =>
      obtain ⟨ha, hr, hmem, hdd, _⟩ := position_facts args i a rest hd
      have hlenA := length_of_drop_eq args i rest a hd
      have hne : a ≠ "--cancel-label".toList := fun h => hc (h ▸ hmem)
      have hlen : rest.length < n := by simp at hl; omega
      have hlen1 : (rest.drop 1).length < n := by simp at hl ⊢; omega
      rw [flagPositionsFrom_cons] at hp
      rcases List.mem_cons.mp hp with h | h
      · have hrest : rest = [] := by
          apply List.length_eq_zero.mp; omega
        subst hrest
        rw [h, ha] at hset
        rw [scan, hset] at hs
        simp only [List.drop_nil, List.headD_nil, scan] at hs
        exact ⟨self, ((Prod.mk.inj (Prod.mk.inj hs).2).1).symm⟩
      · by_cases hv : a ∈ valueFlags
        · simp only [hv, if_true] at h
          by_cases hnum : a ∈ numericFlags
          · obtain ⟨set1, hact, _⟩ := action_numeric a hnum
            rw [scan, hact] at hs
            cases hu : toUInt (rest.headD []) with
            | none =>
              simp only [hu] at hs
              exact absurd (Prod.mk.inj hs).1 (by decide)
            | some u =>
              simp only [hu] at hs
              exact ih _ hlen1 _ _ _ _ _ _ rfl hdd h hs
          · obtain ⟨set1, hact, _⟩ := action_string a hv hnum hne
            rw [scan, hact] at hs
            exact ih _ hlen1 _ _ _ _ _ _ rfl hdd h hs
        · simp only [hv, if_false] at h
          rcases action_other a hv with hact | ⟨set1, hact, _⟩
          · rw [scan, hact] at hs
            exact ih _ hlen _ _ _ _ _ _ rfl hr h hs
          · rw [scan, hact] at hs
            exact ih _ hlen _ _ _ _ _ _ rfl hr h hs

theorem mem_offending_of_last_numeric (args : QStringList)
    (hp : (args.length - 1) ∈ flagPositions args)
    (hnum : at_ args (args.length - 1) ∈ numericFlags) : offending args ≠ [] := by
  have hmem : (args.length - 1) ∈ offending args := by
    unfold offending
    rw [List.mem_filter]
    refine ⟨hp, ?_⟩
    simp only [decide_eq_true_eq, lacksNumber]
    exact ⟨hnum, Or.inl (by omega)⟩
  intro h
  rw [h] at hmem
  exact List.not_mem_nil _ hmem

/-! ## The constructor: proofs -/

theorem action_frame (a : QString) :
    match action a with
    | Action.takeString set => ∀ v s, (set v s).m_type = s.m_type
    | Action.takeNumber set => ∀ v s, (set v s).m_type = s.m_type
    | Action.switch set => ∀ s, (set s).m_type = s.m_type
    | Action.keep => True := by
  unfold action
  split_ifs <;> simp

theorem scan_m_type (args : QStringList) (n : Nat) :
    ∀ (l : QStringList) (self : App) (remains : QStringList), l.length = n →
      (scan args l self remains).2.1.m_type = self.m_type := by
  induction n using Nat.strong_induction_on with
  | _ n ih =>
    intro l self remains hl
    cases l with
    | nil => simp [scan]
    | cons a rest =>
      have hlen : rest.length < n := by simp at hl; omega
      have hlen1 : (rest.drop 1).length < n := by simp at hl ⊢; omega
      have hf := action_frame a
      rw [scan]
      cases hact : action a with
      | keep => exact ih _ hlen _ _ _ rfl
      | switch set =>
        rw [hact] at hf
        simp only
        rw [ih _ hlen _ _ _ rfl, hf]
      | takeString set =>
        rw [hact] at hf
        simp only
        rw [ih _ hlen1 _ _ _ rfl, hf]
      | takeNumber set =>
        rw [hact] at hf
        simp only
        cases toUInt (rest.headD []) with
        | none => rfl
        | some u =>
          simp only
          rw [ih _ hlen1 _ _ _ rfl, hf]

theorem showCalendarLoop_spec (args : QStringList) (fuel : Nat) :
    ∀ (i : Nat) (self : App) (vars : CalendarVars), args.length - i ≤ fuel →
      ∃ r, showCalendarLoop args fuel i self vars = some r ∧
        ∀ c s, r = Sum.inl (c, s) → c = 0 ∧ s.m_type = self.m_type := by
  induction fuel with
  | zero =>
    intro i self vars hf
    have hi : ¬ i < args.length := by omega
    rw [showCalendarLoop]
    simp [hi]
  | succ fuel ih =>
    intro i self vars hf
    by_cases hi : i < args.length
    · have h1 := fun s v => ih (i + 1) s v (by omega)
      have h2 := fun s v => ih (i + 1 + 1) s v (by omega)
      rw [showCalendarLoop]
      simp only [hi, if_true, NEXT_ARG_eq]
      split_ifs
      · exact h2 _ _
      · cases toUInt ((List.drop (i + 1) args).headD []) with
        | none => exact ⟨_, rfl, fun c s h => by cases h; exact ⟨rfl, rfl⟩⟩
        | some u => exact h2 _ _
      · cases toUInt ((List.drop (i + 1) args).headD []) with
        | none => exact ⟨_, rfl, fun c s h => by cases h; exact ⟨rfl, rfl⟩⟩
        | some u => exact h2 _ _
      · cases toUInt ((List.drop (i + 1) args).headD []) with
        | none => exact ⟨_, rfl, fun c s h => by cases h; exact ⟨rfl, rfl⟩⟩
        | some u => exact h2 _ _
      · exact h2 _ _
      · exact h1 _ _
    · rw [showCalendarLoop]
      simp [hi]

theorem showCalendar_spec (env : Env) (self : App) (args : QStringList) :
    ∃ s, showCalendar env self args = some (0, s) ∧ s.m_type = self.m_type := by
  obtain ⟨r, h1, h2⟩ := showCalendarLoop_spec args args.length 0 self
    { d := env.day, m := env.month, y := env.year } (by omega)
  unfold showCalendar
  rw [h1]
  cases r with
  | inl p =>
    obtain ⟨c, s⟩ := p
    obtain ⟨hc, hs⟩ := h2 c s rfl
    subst hc
    exact ⟨s, rfl, hs⟩
  | inr vars => exact ⟨_, rfl, rfl⟩

theorem showNotificationLoop_spec (args : QStringList) (fuel : Nat) :
    ∀ (i : Nat) (self : App) (message : QString) (listening : Bool), args.length - i ≤ fuel →
      ∃ s m l, showNotificationLoop args fuel i self message listening = some (s, m, l) ∧
        s.m_type = self.m_type := by
  induction fuel with
  | zero =>
    intro i self message listening hf
    have hi : ¬ i < args.length := by omega
    rw [showNotificationLoop]
    simp [hi]
  | succ fuel ih =>
    intro i self message listening hf
    by_cases hi : i < args.length
    · have h1 := fun s m l => ih (i + 1) s m l (by omega)
      have h2 := fun s m l => ih (i + 1 + 1) s m l (by omega)
      rw [showNotificationLoop]
      simp only [hi, if_true, NEXT_ARG_eq]
      split_ifs
      · exact h2 _ _ _
      · exact h1 _ _ _
      · exact h2 _ _ _
      · exact h1 _ _ _
    · rw [showNotificationLoop]
      simp [hi]

theorem showNotification_spec (env : Env) (self : App) (args : QStringList) :
    ∃ s, showNotification env self args = some (0, s) ∧ s.m_type = self.m_type := by
  obtain ⟨s, m, l, h1, h2⟩ := showNotificationLoop_spec args args.length 0 self [] false
    (by omega)
  unfold showNotification
  rw [h1]
  refine ⟨_, rfl, ?_⟩
  simp only [notify]
  split_ifs <;> simp [h2]

theorem modeOf_eq_none_of_not_mem (arg : QString) (h : arg ∉ modeFlags) : modeOf arg = none := by
  simp only [modeFlags, List.mem_cons, List.mem_singleton, List.not_mem_nil, or_false,
    not_or] at h
  obtain ⟨h1, h2, h3, h4, h5, h6, h7, h8, h9, h10, h11, h12, h13, h14, h15⟩ := h
  unfold modeOf
  simp only [h1, h2, h3, h4, h5, h6, h7, h8, h9, h10, h11, h12, h13, h14, h15, if_false]

theorem dispatchArg_of_not_mem (env : Env) (args : QStringList) (self : App) (e : Nat)
    (arg : QString) (h : arg ∉ modeFlags) :
    dispatchArg env args self e arg = some (e, self) := by
  simp only [modeFlags, List.mem_cons, List.mem_singleton, List.not_mem_nil, or_false,
    not_or] at h
  obtain ⟨h1, h2, h3, h4, h5, h6, h7, h8, h9, h10, h11, h12, h13, h14, h15⟩ := h
  unfold dispatchArg
  simp only [h1, h2, h3, h4, h5, h6, h7, h8, h9, h10, h11, h12, h13, h14, h15, if_false]

theorem dispatchArg_of_mem (env : Env) (args : QStringList) (self : App) (e : Nat)
    (arg : QString) (h : arg ∈ modeFlags) :
    ∃ s t, dispatchArg env args self e arg = some (0, s) ∧ modeOf arg = some t ∧
      s.m_type = t := by
  simp only [modeFlags, List.mem_cons, List.mem_singleton, List.not_mem_nil, or_false] at h
  rcases h with h | h | h | h | h | h | h | h | h | h | h | h | h | h | h <;> subst h
  case inl =>
    obtain ⟨s, h1, h2⟩ := showCalendar_spec env { self with m_type := DialogType.Calendar } args
    exact ⟨s, _, h1, rfl, h2⟩
  case inr.inr.inr.inr.inr.inr.inl =>
    obtain ⟨s, h1, h2⟩ :=
      showNotification_spec env { self with m_type := DialogType.Notification } args
    exact ⟨s, _, h1, rfl, h2⟩
  all_goals exact ⟨_, _, rfl, rfl, rfl⟩

theorem dispatchLoop_spec (env : Env) (args : QStringList) :
    ∀ (rest : QStringList) (self : App),
      ∃ s e, dispatchLoop env args rest self 1 = some (s, e) ∧
        s.m_type = (rest.findSome? modeOf).getD self.m_type := by
  intro rest
  induction rest with
  | nil => intro self; exact ⟨self, 1, rfl, rfl⟩
  | cons arg rest ih =>
    intro self
    by_cases hmem : arg ∈ modeFlags
    · obtain ⟨s, t, h1, h2, h3⟩ := dispatchArg_of_mem env args self 1 arg hmem
      refine ⟨s, 0, ?_, ?_⟩
      · rw [dispatchLoop, h1]
        simp
      · simp [List.findSome?_cons, h2, h3]
    · obtain ⟨s, e, h1, h2⟩ := ih self
      refine ⟨s, e, ?_, ?_⟩
      · rw [dispatchLoop, dispatchArg_of_not_mem env args self 1 arg hmem]
        simpa using h1
      · simp [List.findSome?_cons, modeOf_eq_none_of_not_mem arg hmem, h2]

theorem helpScan_of_not_requested (self : App) (tokens : QStringList)
    (h : helpRequested tokens = false) : helpScan self tokens = self := by
  unfold helpScan
  unfold helpRequested at h
  induction tokens generalizing self with
  | nil => rfl
  | cons a rest ih =>
    simp only [List.any_cons, Bool.or_eq_false_iff, decide_eq_false_iff_not] at h
    obtain ⟨⟨h1, h2⟩, h3⟩ := h
    simp only [List.foldl_cons, h1, h2, false_or, Bool.false_eq_true, if_false]
    exact ih self h3

/-! ## Claims -/

/-- C2: for every value sequence and every number of columns, concatenating
the rows built by the row loop of `showList` and of `buildList`, in row order,
gives back the value sequence. -/
theorem rows_flatten_eq_values (values columns : QStringList) :
    (showListItems values columns).map List.flatten = some values ∧
    (buildListItems values columns).map List.flatten = some values := by
  constructor
  · obtain ⟨out, h1, h2, _⟩ :=
      rowsLoop_spec values (max columns.length 1) (by omega) values.length 0 [] (by omega)
    simp [showListItems, h1, h2]
  · have hw : 1 ≤ (if columns.length ≠ 0 then columns.length else 1) := by
      split_ifs <;> omega
    obtain ⟨out, h1, h2, _⟩ := rowsLoop_spec values _ hw values.length 0 [] (by omega)
    simp only [buildListItems, h1]
    simp [h2]

/-- C3: with `W = max (number of columns) 1`, `showList` builds
`ceil (N / W)` rows from `N` values without reading outside the value list;
every row has between 1 and `W` cells, every row but the last has exactly `W`,
no row is built from no values, and three values in two columns give the rows
`[v1, v2]` and `[v3]`. -/
theorem showList_row_shape (values columns : QStringList) (v1 v2 v3 c1 c2 : QString) :
    (∃ rows, showListItems values columns = some rows ∧
      rows.length = (values.length + max columns.length 1 - 1) / max columns.length 1 ∧
      (∀ r ∈ rows, 1 ≤ r.length ∧ r.length ≤ max columns.length 1) ∧
      (∀ k, k + 1 < rows.length → (rows.getD k []).length = max columns.length 1) ∧
      (values.length = 0 → rows = [])) ∧
    showListItems [v1, v2, v3] [c1, c2] = some [[v1, v2], [v3]] := by
  refine ⟨?_, rfl⟩
  obtain ⟨out, h1, _, h3, h4, h5⟩ :=
    rowsLoop_spec values (max columns.length 1) (by omega) values.length 0 [] (by omega)
  refine ⟨out, by simp [showListItems, h1], by simpa using h3, h4, h5, ?_⟩
  intro h0
  have hl : out.length = 0 := by
    rw [h3, h0]
    exact Nat.div_eq_of_lt (by omega)
  exact List.length_eq_zero.mp hl

/-- C4, as stated, fails for the single token `--width`: `readGeneral`
reports failure although no numeric flag is followed by a token. -/
theorem readGeneral_fails_without_following_token :
    ¬ ((readGeneral {} ["--width".toList]).map (fun r => r.1) = some false ↔
        ∃ p ∈ flagPositions ["--width".toList], followedByMalformed ["--width".toList] p) := by
  decide

/-- C4, amended: on a token sequence without `--cancel-label`, `readGeneral`
returns, and it reports failure exactly when some numeric general flag in flag
position is followed by no token or by a token that does not parse as an
unsigned integer; it then prints the diagnostic of the first such flag and
leaves the caller's token sequence as it was. -/
theorem readGeneral_fails_iff_offending (self : App) (args : QStringList)
    (hc : "--cancel-label".toList ∉ args) :
    ∃ ok self1 args1, readGeneral self args = some (ok, self1, args1) ∧
      (ok = false ↔ offending args ≠ []) ∧
      (∀ p, (offending args).head? = some p →
        self1.out = self.out ++ [diagnostic (at_ args p)] ∧ args1 = args) := by
  rw [readGeneral_eq_scan]
  obtain ⟨g1, g2⟩ := scan_spec args hc args.length args 0 self [] rfl (by simp)
  cases hoff : offending args with
  | nil =>
    obtain ⟨s1, r, e1, _⟩ := g1 hoff
    exact ⟨true, s1, r, by rw [e1], by simp, by simp⟩
  | cons p ps =>
    obtain ⟨s1, f1, e1⟩ := g2 p ps hoff
    refine ⟨false, _, args, by rw [e1], by simp, ?_⟩
    intro q hq
    have hq' : p = q := by simpa using hq
    subst hq'
    refine ⟨?_, rfl⟩
    simp [error, diagnostic, f1.1]

/-- The amended C4 at the tokens `--modal --height tall`. -/
theorem readGeneral_fails_iff_offending_witness :
    "--cancel-label".toList ∉ ["--modal".toList, "--height".toList, "tall".toList] ∧
    ∃ ok self1 args1,
      readGeneral {} ["--modal".toList, "--height".toList, "tall".toList]
        = some (ok, self1, args1) ∧
      (ok = false ↔ offending ["--modal".toList, "--height".toList, "tall".toList] ≠ []) ∧
      (∀ p, (offending ["--modal".toList, "--height".toList, "tall".toList]).head? = some p →
        self1.out = ({} : App).out ++
            [diagnostic (at_ ["--modal".toList, "--height".toList, "tall".toList] p)] ∧
          args1 = ["--modal".toList, "--height".toList, "tall".toList]) :=
  ⟨by decide,
   readGeneral_fails_iff_offending {} ["--modal".toList, "--height".toList, "tall".toList]
     (by decide)⟩

/-- C6: the code stores the number through an `int`: `--width 4294967295` is
accepted by the unsigned parse and leaves the width `-1`, which is neither
the literal's value nor non-negative. -/
theorem width_stored_negative :
    toUInt "4294967295".toList = some 4294967295 ∧
    (readGeneral {} ["--width".toList, "4294967295".toList]).map
        (fun r => (r.1, r.2.1.m_size.wd)) = some (true, -1) := by
  decide

/-- C7, as stated, fails for the single token `--height`: the last token is a
value-taking general flag in flag position, and `readGeneral` reports failure. -/
theorem trailing_numeric_flag_fails :
    (["--height".toList].length - 1) ∈ flagPositions ["--height".toList] ∧
    at_ ["--height".toList] (["--height".toList].length - 1) ∈ valueFlags ∧
    (readGeneral {} ["--height".toList]).map (fun r => r.1) = some false := by
  decide

/-- C7, amended: on a token sequence without `--cancel-label` whose last token
is in flag position: if that token is a numeric flag, `readGeneral` reports
failure; if no numeric flag lacks a number, `readGeneral` succeeds, and the
value recorded for a trailing `--title`, `--window-icon` or `--ok-label` is
the empty string. -/
theorem readGeneral_trailing_flag (self : App) (args : QStringList)
    (hc : "--cancel-label".toList ∉ args)
    (hp : (args.length - 1) ∈ flagPositions args) :
    (at_ args (args.length - 1) ∈ numericFlags →
      ∃ self1, readGeneral self args = some (false, self1, args)) ∧
    (offending args = [] →
      ∃ self1 r, readGeneral self args = some (true, self1, r) ∧
        (at_ args (args.length - 1) = "--title".toList → self1.m_caption = []) ∧
        (at_ args (args.length - 1) = "--window-icon".toList → self1.m_icon = []) ∧
        (at_ args (args.length - 1) = "--ok-label".toList → self1.m_ok = [])) := by
  rw [readGeneral_eq_scan]
  obtain ⟨g1, g2⟩ := scan_spec args hc args.length args 0 self [] rfl (by simp)
  constructor
  · intro hnum
    have hne := mem_offending_of_last_numeric args hp hnum
    cases hoff : offending args with
    | nil => exact absurd hoff hne
    | cons p ps =>
      obtain ⟨s1, _, e1⟩ := g2 p ps hoff
      exact ⟨_, by rw [e1]⟩
  · intro hoff
    obtain ⟨s1, r, e1, _⟩ := g1 hoff
    refine ⟨s1, r, by rw [e1], ?_, ?_, ?_⟩
    · intro ht
      obtain ⟨s, hs⟩ := scan_last args hc (fun v s => { s with m_caption := v })
        (by rw [ht]; rfl) args.length args 0 self s1 [] r rfl (by simp) hp e1
      rw [hs]
    · intro ht
      obtain ⟨s, hs⟩ := scan_last args hc (fun v s => { s with m_icon := v })
        (by rw [ht]; rfl) args.length args 0 self s1 [] r rfl (by simp) hp e1
      rw [hs]
    · intro ht
      obtain ⟨s, hs⟩ := scan_last args hc (fun v s => { s with m_ok := v })
        (by rw [ht]; rfl) args.length args 0 self s1 [] r rfl (by simp) hp e1
      rw [hs]

/-- The amended C7 at the tokens `--width 640 --title`. -/
theorem readGeneral_trailing_flag_witness :
    "--cancel-label".toList ∉ ["--width".toList, "640".toList, "--title".toList] ∧
    (["--width".toList, "640".toList, "--title".toList].length - 1) ∈
      flagPositions ["--width".toList, "640".toList, "--title".toList] ∧
    offending ["--width".toList, "640".toList, "--title".toList] = [] ∧
    ∃ self1 r,
      readGeneral {} ["--width".toList, "640".toList, "--title".toList] = some (true, self1, r) ∧
      self1.m_caption = [] :=
  ⟨by decide, by decide, by decide,
   let ⟨self1, r, h, ht, _⟩ :=
     (readGeneral_trailing_flag {} ["--width".toList, "640".toList, "--title".toList]
       (by decide) (by decide)).2 (by decide)
   ⟨self1, r, h, ht (by decide)⟩⟩

/-- C8: `--cancel-label` is not read: its branch repeats the test for
`--ok-label`, so the flag and its value stay in the token stream and
`m_cancel` stays null, while `--ok-label` is recorded and removed. -/
theorem cancel_label_not_recorded :
    readGeneral {} ["--cancel-label".toList, "No".toList]
      = some (true, {}, ["--cancel-label".toList, "No".toList]) ∧
    readGeneral {} ["--ok-label".toList, "Yes".toList]
      = some (true, { m_ok := "Yes".toList }, []) := by
  decide

/-- C9: on `--list --cancel-label Abort a` the remaining token stream still
holds `--cancel-label` and `Abort`, where the specification retains `--list`
and `a` only. -/
theorem cancel_label_stays_in_remains :
    (readGeneral {} ["--list".toList, "--cancel-label".toList, "Abort".toList, "a".toList]).map
        (fun r => (r.1, r.2.2))
      = some (true, ["--list".toList, "--cancel-label".toList, "Abort".toList, "a".toList]) ∧
    specRemaining ["--list".toList, "--cancel-label".toList, "Abort".toList, "a".toList]
      = ["--list".toList, "a".toList] := by
  decide

/-- C5, as stated, fails for `qarma --width abc`: the diagnostic is written
with `printf`, so standard output is not left empty. -/
theorem diagnostic_goes_to_stdout :
    ¬ ((construct env0 ["qarma".toList, "--width".toList, "abc".toList]).map
        (fun app => (exec app, app.out, app.m_dialog)) = some (some 1, [], none)) := by
  decide

/-- C5, amended: for every invocation that is not a help request and has no
`--cancel-label` among its tokens, if a numeric general flag in flag position
lacks a number, then the constructor returns, the exit code is 1, no dialog is
shown, and what is written to standard output is exactly the diagnostic of
the first such flag. -/
theorem malformed_number_exits_1 (env : Env) (argList : QStringList) (p : Nat)
    (hn : 2 ≤ argList.length) (hh : helpRequested (tokenize argList) = false)
    (hc : "--cancel-label".toList ∉ tokenize argList)
    (hp : (offending (tokenize argList)).head? = some p) :
    ∃ app, construct env argList = some app ∧ exec app = some 1 ∧
      app.out = [diagnostic (at_ (tokenize argList) p)] ∧ app.m_dialog = none := by
  obtain ⟨_, g2⟩ := scan_spec (tokenize argList) hc (tokenize argList).length
    (tokenize argList) 0 {} [] rfl (by simp)
  cases hoff : offending (tokenize argList) with
  | nil => rw [hoff] at hp; exact Option.noConfusion hp
  | cons q qs =>
    rw [hoff] at hp
    have hq : q = p := by simpa using hp
    subst hq
    obtain ⟨s1, f1, e1⟩ := g2 q qs hoff
    obtain ⟨fo, fp, fd, _⟩ := f1
    refine ⟨(error s1 (at_ (tokenize argList) q ++
      " must be followed by a positive number".toList)).2, ?_, ?_, ?_, ?_⟩
    · unfold construct
      simp only [show ¬ argList.length < 2 by omega, if_false,
        helpScan_of_not_requested _ _ hh, readGeneral_eq_scan, e1]
      rfl
    · simp [exec, error, fp]
    · simp [error, diagnostic, fo]
    · simp [error, fd]

/-- The amended C5 at the invocation `qarma --timeout=soon --entry`. -/
theorem malformed_number_exits_1_witness :
    2 ≤ ["qarma".toList, "--timeout=soon".toList, "--entry".toList].length ∧
    helpRequested (tokenize ["qarma".toList, "--timeout=soon".toList, "--entry".toList])
      = false ∧
    "--cancel-label".toList ∉
      tokenize ["qarma".toList, "--timeout=soon".toList, "--entry".toList] ∧
    (offending (tokenize ["qarma".toList, "--timeout=soon".toList, "--entry".toList])).head?
      = some 0 ∧
    ∃ app, construct env0 ["qarma".toList, "--timeout=soon".toList, "--entry".toList]
        = some app ∧ exec app = some 1 ∧
      app.out = [diagnostic
        (at_ (tokenize ["qarma".toList, "--timeout=soon".toList, "--entry".toList]) 0)] ∧
      app.m_dialog = none :=
  ⟨by decide, by decide, by decide, by decide,
   malformed_number_exits_1 env0 ["qarma".toList, "--timeout=soon".toList, "--entry".toList] 0
     (by decide) (by decide) (by decide) (by decide)⟩

/-- C10, as stated, fails for `qarma --title --calendar --entry`: the first
mode flag of the original token stream is `--calendar`, but it is consumed as
the title and the mode selected is Entry. -/
theorem mode_selected_after_filtering :
    firstMode (tokenize ["qarma".toList, "--title".toList, "--calendar".toList,
      "--entry".toList]) = DialogType.Calendar ∧
    (construct env0 ["qarma".toList, "--title".toList, "--calendar".toList,
      "--entry".toList]).map (fun app => app.m_type) = some DialogType.Entry := by
  decide

/-- C10, amended: for every invocation that is not a help request and on
which `readGeneral` succeeds, the constructor returns and the mode selected is
the mode of the first mode-selecting flag of the token stream that
`readGeneral` leaves, `Invalid` when that stream has none. -/
theorem mode_eq_firstMode_of_remains (env : Env) (argList : QStringList) (self1 : App)
    (remains : QStringList) (hn : 2 ≤ argList.length)
    (hh : helpRequested (tokenize argList) = false)
    (hr : readGeneral {} (tokenize argList) = some (true, self1, remains)) :
    ∃ app, construct env argList = some app ∧ app.m_type = firstMode remains := by
  have ht : self1.m_type = DialogType.Invalid := by
    rw [readGeneral_eq_scan] at hr
    have h := scan_m_type (tokenize argList) _ (tokenize argList) {} [] rfl
    rw [Option.some.inj hr] at h
    exact h
  obtain ⟨s, e, h1, h2⟩ := dispatchLoop_spec env remains remains self1
  have hm : s.m_type = firstMode remains := by rw [h2, ht]; rfl
  unfold construct
  simp only [show ¬ argList.length < 2 by omega, if_false,
    helpScan_of_not_requested _ _ hh, hr, h1]
  by_cases he : e ≠ 0
  · exact ⟨postQuit s, by simp [he], hm⟩
  · exact ⟨s, by simp [he], hm⟩

/-- The amended C10 at the invocation `qarma --title --calendar --entry`. -/
theorem mode_eq_firstMode_of_remains_witness :
    2 ≤ ["qarma".toList, "--title".toList, "--calendar".toList, "--entry".toList].length ∧
    helpRequested (tokenize ["qarma".toList, "--title".toList, "--calendar".toList,
      "--entry".toList]) = false ∧
    readGeneral {} (tokenize ["qarma".toList, "--title".toList, "--calendar".toList,
      "--entry".toList])
      = some (true, { m_caption := "--calendar".toList }, ["--entry".toList]) ∧
    ∃ app, construct env0 ["qarma".toList, "--title".toList, "--calendar".toList,
        "--entry".toList] = some app ∧
      app.m_type = firstMode ["--entry".toList] :=
  ⟨by decide, by decide, by decide,
   mode_eq_firstMode_of_remains env0
     ["qarma".toList, "--title".toList, "--calendar".toList, "--entry".toList]
     { m_caption := "--calendar".toList } ["--entry".toList]
     (by decide) (by decide) (by decide)⟩

/-! ## Notifications: proofs -/

theorem find?_filter_ne (ps : QVariantMap) (key k : QString) (h : ¬ k = key) :
    (ps.filter (fun p => decide (p.1 ≠ key))).find? (fun p => decide (p.1 = k))
      = ps.find? (fun p => decide (p.1 = k)) := by
  induction ps with
  | nil => rfl
  | cons p ps ih =>
    by_cases hp : p.1 = key
    · have hpk : ¬ p.1 = k := fun e => h (e.symm.trans hp)
      rw [List.filter_cons_of_neg (by simpa using hp),
        List.find?_cons_of_neg _ (by simpa using hpk)]
      exact ih
    · rw [List.filter_cons_of_pos (by simpa using hp)]
      by_cases hpk : p.1 = k
      · rw [List.find?_cons_of_pos _ (by simpa using hpk),
          List.find?_cons_of_pos _ (by simpa using hpk)]
      · rw [List.find?_cons_of_neg _ (by simpa using hpk),
          List.find?_cons_of_neg _ (by simpa using hpk)]
        exact ih

theorem mapValue_mapInsert (m : QVariantMap) (key value k : QString) :
    mapValue (mapInsert m key value) k = if k = key then some value else mapValue m k := by
  unfold mapValue mapInsert
  by_cases h : k = key
  · subst h
    rw [List.find?_cons_of_pos _ (by simp), if_pos rfl]
    rfl
  · have h' : ¬ key = k := fun e => h e.symm
    rw [List.find?_cons_of_neg _ (by simpa using h'), if_neg h, find?_filter_ne m key k h]

theorem nodup_keys_mapInsert (m : QVariantMap) (key value : QString)
    (h : (m.map (fun p => p.1)).Nodup) :
    ((mapInsert m key value).map (fun p => p.1)).Nodup := by
  unfold mapInsert
  rw [List.map_cons, List.nodup_cons]
  constructor
  · intro hmem
    obtain ⟨p, hp, hk⟩ := List.mem_map.mp hmem
    have := (List.mem_filter.mp hp).2
    simp at this
    exact this hk
  · exact (h.sublist ((List.filter_sublist m).map _))

/-- The pairs from index `i` on, two elements at a time. -/
theorem hintLoop_spec (h : QStringList) (fuel : Nat) :
    ∀ (i : Nat) (m : QVariantMap), h.length - i ≤ fuel → (m.map (fun p => p.1)).Nodup →
      ∃ m1, hintLoop h fuel i m = some m1 ∧ (m1.map (fun p => p.1)).Nodup ∧
        ∀ key, mapValue m1 key =
          match (((List.range ((h.length - i) / 2)).map
              (fun k => (at_ h (i + 2 * k), at_ h (i + 2 * k + 1)))).reverse.find?
              (fun p => decide (p.1 = key))) with
          | some p => some p.2
          | none => mapValue m key := by
  induction fuel with
  | zero =>
    intro i m hf hn
    have hi : ¬ ((i : Int) < (h.length : Int) - 1) := by omega
    have h0 : (h.length - i) / 2 = 0 := by omega
    exact ⟨m, by rw [hintLoop]; simp [hi], hn, by simp [h0]⟩
  | succ fuel ih =>
    intro i m hf hn
    by_cases hi : (i : Int) < (h.length : Int) - 1
    · have hb : i < h.length ∧ i + 1 < h.length := by omega
      obtain ⟨m1, e1, n1, v1⟩ := ih (i + 2) (mapInsert m (at_ h i) (at_ h (i + 1))) (by omega)
        (nodup_keys_mapInsert m _ _ hn)
      refine ⟨m1, by rw [hintLoop]; simp [hi, hb, e1], n1, ?_⟩
      intro key
      have hdiv : (h.length - i) / 2 = (h.length - (i + 2)) / 2 + 1 := by omega
      rw [v1 key, hdiv, List.range_succ_eq_map, List.map_cons, List.map_map, List.reverse_cons,
        List.find?_append]
      have hfun : ((fun k => (at_ h (i + 2 * k), at_ h (i + 2 * k + 1))) ∘ Nat.succ)
          = (fun k => (at_ h (i + 2 + 2 * k), at_ h (i + 2 + 2 * k + 1))) := by
        funext k
        simp only [Function.comp, Nat.succ_eq_add_one]
        rw [show i + 2 * (k + 1) = i + 2 + 2 * k by omega]
      rw [hfun]
      cases hfind : (((List.range ((h.length - (i + 2)) / 2)).map
          (fun k => (at_ h (i + 2 + 2 * k), at_ h (i + 2 + 2 * k + 1)))).reverse.find?
          (fun p => decide (p.1 = key))) with
      | some p => simp
      | none =>
        rw [mapValue_mapInsert]
        by_cases hk : key = at_ h i
        · subst hk; simp
        · have hk' : ¬ at_ h i = key := fun e => hk e.symm
          simp [hk, hk']
    · have h0 : (h.length - i) / 2 = 0 := by omega
      exact ⟨m, by rw [hintLoop]; simp [hi], hn, by simp [h0]⟩

/-- C13: for every hint string, the hint map is built without a read outside
the split list, its keys are distinct, and the value stored under a key is the
second element of the last pair `h[2k], h[2k+1]` (with `2k+1` below the
length) whose first element is the key, none when there is no such pair; the
empty string gives the empty map, and `a:b:c:d` gives `a -> b, c -> d`. -/
theorem notifyHintMap_spec (hints : QString) :
    (∃ m, notifyHintMap hints = some m ∧ (m.map (fun p => p.1)).Nodup ∧
      ∀ key, mapValue m key =
        ((specPairs (split hints ':')).reverse.find? (fun p => decide (p.1 = key))).map
          (fun p => p.2)) ∧
    notifyHintMap [] = some [] ∧
    (∃ m, notifyHintMap "a:b:c:d".toList = some m ∧
      (∀ key, mapValue m key =
        if key = "a".toList then some "b".toList
        else if key = "c".toList then some "d".toList else none)) := by
  refine ⟨?_, by decide, ?_⟩
  · obtain ⟨m, e1, n1, v1⟩ := hintLoop_spec (split hints ':') (split hints ':').length 0 []
      (by omega) (by simp)
    refine ⟨m, e1, n1, ?_⟩
    intro key
    rw [v1 key]
    simp only [specPairs, Nat.sub_zero, Nat.zero_add]
    cases ((List.range ((split hints ':').length / 2)).map
        (fun k => (at_ (split hints ':') (2 * k), at_ (split hints ':') (2 * k + 1)))).reverse.find?
        (fun p => decide (p.1 = key)) with
    | some p => rfl
    | none => rfl
  · refine ⟨[("c".toList, "d".toList), ("a".toList, "b".toList)], by decide, ?_⟩
    intro key
    by_cases hc : key = "c".toList
    · subst hc; decide
    · by_cases ha : key = "a".toList
      · subst ha; decide
      · have hc' : ¬ "c".toList = key := fun e => hc e.symm
        have ha' : ¬ "a".toList = key := fun e => ha e.symm
        unfold mapValue
        rw [List.find?_cons_of_neg _ (by simpa using hc'),
          List.find?_cons_of_neg _ (by simpa using ha'), if_neg ha, if_neg hc]
        rfl

theorem utf16_of_bmp (s : QString) (h : ∀ c ∈ s, c.toNat < 0x10000) :
    utf16 s = s.map Char.toNat := by
  induction s with
  | nil => rfl
  | cons c cs ih =>
    have hc : c.toNat < 0x10000 := h c (List.mem_cons_self c cs)
    have hcs : utf16 cs = cs.map Char.toNat := ih (fun x hx => h x (List.mem_cons_of_mem c hx))
    have hcons : utf16 (c :: cs) = utf16Char c ++ utf16 cs := by
      unfold utf16
      rw [List.flatMap_cons]
    rw [hcons, hcs, List.map_cons]
    unfold utf16Char
    rw [if_pos hc]
    rfl

/-- C14, as stated, fails for a message of exactly 32 characters: its summary
is the first 25 characters followed by `...`, not the message. -/
theorem summary_of_32_characters_is_cut :
    "abcdefghijklmnopqrstuvwxyz012345".toList.length = 32 ∧
    (utf16 "abcdefghijklmnopqrstuvwxyz012345".toList).length = 32 ∧
    notifySummary "abcdefghijklmnopqrstuvwxyz012345".toList
      = utf16 "abcdefghijklmnopqrstuvwxy...".toList ∧
    notifySummary "abcdefghijklmnopqrstuvwxyz012345".toList
      ≠ utf16 "abcdefghijklmnopqrstuvwxyz012345".toList := by
  decide

/-- C14, amended: the summary of a message of fewer than 32 UTF-16 code
units, the characters `QString::length()` counts, is the message; the summary
of a message of 32 code units or more is its first 25 code units followed by
`...`. For a message within the Basic Multilingual Plane a code unit is a
character: its length in code units is its length in characters, and with 32
characters or more its summary is its first 25 characters followed by
`...`. -/
theorem notifySummary_spec (message : QString) :
    ((utf16 message).length < 32 → notifySummary message = utf16 message) ∧
    (32 ≤ (utf16 message).length →
      notifySummary message = (utf16 message).take 25 ++ utf16 "...".toList) ∧
    ((∀ c ∈ message, c.toNat < 0x10000) →
      (utf16 message).length = message.length ∧
      (32 ≤ message.length →
        notifySummary message = utf16 (message.take 25 ++ "...".toList))) := by
  refine ⟨?_, ?_, ?_⟩
  · intro h
    unfold notifySummary
    rw [if_pos h]
  · intro h
    unfold notifySummary
    rw [if_neg (by omega)]
  · intro hbmp
    have hu := utf16_of_bmp message hbmp
    have hlen : (utf16 message).length = message.length := by
      rw [hu, List.length_map]
    refine ⟨hlen, fun h => ?_⟩
    have htake : utf16 (message.take 25) = (message.take 25).map Char.toNat :=
      utf16_of_bmp _ (fun c hc => hbmp c (List.mem_of_mem_take hc))
    have happ : utf16 (message.take 25 ++ "...".toList)
        = utf16 (message.take 25) ++ utf16 "...".toList := by
      unfold utf16
      rw [List.flatMap_append]
    unfold notifySummary
    rw [if_neg (by omega), happ, htake, hu, List.map_take]

/-- The amended C14 at a message of 31 characters, at a message of 40
characters, and at 16 characters above the Basic Multilingual Plane, which
are 32 code units: the summary ends with the first unit of the 13th pair. -/
theorem notifySummary_spec_witness :
    ((utf16 "abcdefghijklmnopqrstuvwxyz01234".toList).length < 32 ∧
      notifySummary "abcdefghijklmnopqrstuvwxyz01234".toList
        = utf16 "abcdefghijklmnopqrstuvwxyz01234".toList) ∧
    ((∀ c ∈ "abcdefghijklmnopqrstuvwxyz0123456789ABCD".toList, c.toNat < 0x10000) ∧
      32 ≤ "abcdefghijklmnopqrstuvwxyz0123456789ABCD".toList.length ∧
      notifySummary "abcdefghijklmnopqrstuvwxyz0123456789ABCD".toList
        = utf16 ("abcdefghijklmnopqrstuvwxyz0123456789ABCD".toList.take 25 ++ "...".toList)) ∧
    ((List.replicate 16 (Char.ofNat 0x1F600)).length = 16 ∧
      32 ≤ (utf16 (List.replicate 16 (Char.ofNat 0x1F600))).length ∧
      notifySummary (List.replicate 16 (Char.ofNat 0x1F600))
        = (utf16 (List.replicate 16 (Char.ofNat 0x1F600))).take 25 ++ utf16 "...".toList ∧
      notifySummary (List.replicate 16 (Char.ofNat 0x1F600))
        = (List.replicate 12 [0xD83D, 0xDE00]).flatten ++ [0xD83D] ++ [46, 46, 46]) :=
  ⟨⟨by decide, (notifySummary_spec "abcdefghijklmnopqrstuvwxyz01234".toList).1 (by decide)⟩,
   ⟨by decide, by decide,
    ((notifySummary_spec "abcdefghijklmnopqrstuvwxyz0123456789ABCD".toList).2.2
      (by decide)).2 (by decide)⟩,
   ⟨by decide, by decide,
    (notifySummary_spec (List.replicate 16 (Char.ofNat 0x1F600))).2.1 (by decide),
    by decide⟩⟩

/-- C19: the batch `hints: urgency` has a recognized key, yet the usage hint
is written: the `hints` branch stores the hint string but, unlike the
branches for `icon`, `message`, `tooltip` and `visible`, leaves
`userNeedsHelp` set. A `message` line in its place suppresses the hint. -/
theorem hints_line_still_prints_usage :
    (split "hints: urgency\n".toList '\n').any hasRecognizedKey = true ∧
    (readStdInNotification env0 {} "hints: urgency\n".toList).log = [Logged.usageHint] ∧
    (readStdInNotification env0 {} "hints: urgency\n".toList).app.m_notificationHints
      = " urgency".toList ∧
    (readStdInNotification env0 {} "message: urgency\n".toList).log = [] := by
  decide
/-! ## The progress dialog: proofs -/

theorem setValue_clamped (d : QProgressDialog) (h0 : d.minimum = 0) (h1 : d.maximum = 101)
    (u : Int) :
    d.setValue (min 100 u) = if 0 ≤ u then { d with value := min 100 u } else d := by
  obtain ⟨mn, mx, v, ar, lt, cbt, cbh, ac, ak, cs⟩ := d
  simp only at h0 h1
  subst h0 h1
  have e1 : ¬ (min 100 u > (101 : Int)) := by omega
  have e4 : ¬ (min 100 u = (101 : Int)) := by omega
  by_cases hu : 0 ≤ u
  · have e2 : ¬ (min 100 u < (0 : Int)) := by omega
    simp [QProgressDialog.setValue, e1, e2, e4, hu]
  · have e2 : min 100 u < (0 : Int) := by omega
    simp [QProgressDialog.setValue, e1, e2, e4, hu]

theorem progressLines_snoc (dlg : QProgressDialog) (l : QStringList) (x : QString) :
    progressLines dlg (l ++ [x]) =
      match toInt x with
      | some u => (progressLines dlg l).setValue (min 100 u)
      | none => progressLines dlg l := by
  simp [progressLines, List.foldl_append]

/-- The line loop changes the value only; in range 0..101 the value afterwards
is the clamped last non-negative integer, if there is one. -/
theorem progressLines_spec (input : QStringList) :
    ∀ (dlg : QProgressDialog), dlg.minimum = 0 → dlg.maximum = 101 →
      progressLines dlg input =
        { dlg with value := ((lastNatural input).map (fun u => min 100 u)).getD dlg.value } := by
  induction input using List.reverseRecOn with
  | nil => intro dlg _ _; rfl
  | append_singleton l x ih =>
    intro dlg h0 h1
    rw [progressLines_snoc, ih dlg h0 h1]
    unfold lastNatural
    rw [List.filterMap_append, List.filter_append]
    cases hx : toInt x with
    | none => simp [List.filterMap_cons, hx]
    | some u =>
      simp only [List.filterMap_cons, hx, List.filterMap_nil]
      have hsv := fun v0 => setValue_clamped { dlg with value := v0 } h0 h1 u
      rw [hsv]
      by_cases hu : 0 ≤ u
      · simp [List.filter_cons, hu, List.getLast?_append]
      · simp [List.filter_cons, hu]

/-- C11, as stated, fails for the lines `50`, `-5`: the last line that parses
as an integer is `-5`, but the value stays 50, since the dialog ignores a
value below its minimum. -/
theorem negative_line_leaves_value :
    (lastInteger ["50".toList, "-5".toList]).map (fun u => min 100 u) = some (-5) ∧
    (progressLines progress0 ["50".toList, "-5".toList]).value = 50 := by
  decide

/-- C11, amended: for a progress dialog with the range 0..101 that
`showProgress` gives it, the lines that do not parse as an integer and the
lines that parse as a negative integer leave the value unchanged, and after
the lines the value is `min 100 u` for the last line `u` that parses as a
non-negative integer (unchanged when there is none); the lines `50`, `101`,
`30` leave the value 30. -/
theorem progressLines_value (dlg : QProgressDialog) (input : QStringList)
    (h0 : dlg.minimum = 0) (h1 : dlg.maximum = 101) :
    (progressLines dlg input).value
        = ((lastNatural input).map (fun u => min 100 u)).getD dlg.value ∧
    (progressLines dlg ["50".toList, "101".toList, "30".toList]).value = 30 := by
  constructor
  · rw [progressLines_spec input dlg h0 h1]
  · have h30 : lastNatural ["50".toList, "101".toList, "30".toList] = some 30 := by decide
    rw [progressLines_spec _ dlg h0 h1, h30]
    rfl

/-- The amended C11 at the lines `7`, `x`, `-1`, `250`, empty. -/
theorem progressLines_value_witness :
    progress0.minimum = 0 ∧ progress0.maximum = 101 ∧
    (progressLines progress0 ["7".toList, "x".toList, "-1".toList, "250".toList, []]).value
        = ((lastNatural ["7".toList, "x".toList, "-1".toList, "250".toList, []]).map
            (fun u => min 100 u)).getD progress0.value :=
  ⟨by decide, by decide,
   (progressLines_value progress0 ["7".toList, "x".toList, "-1".toList, "250".toList, []]
     (by decide) (by decide)).1⟩

theorem mem_filter_ne_append (cs : List DialogSlot) (a b s : DialogSlot)
    (hall : ∀ x : DialogSlot, x = a ∨ x = b)
    (hs : s ∈ cs.filter (fun x => decide (x ≠ a)) ++ [b]) : s = b := by
  rcases List.mem_append.mp hs with h | h
  · have hne : s ≠ a := by simpa using (List.mem_filter.mp h).2
    rcases hall s with e | e
    · exact absurd e hne
    · exact e
  · simpa using h

/-- What every processed chunk maintains. -/
theorem readStdInProgress_invariant (dlg : QProgressDialog) (newText : QString)
    (h0 : dlg.minimum = 0) (h1 : dlg.maximum = 101) (ha : dlg.qarma_autoclose = false)
    (hinv : dlg.value ≠ 100 → cancelRejects dlg) :
    (readStdInProgress dlg newText).1.minimum = 0 ∧
    (readStdInProgress dlg newText).1.maximum = 101 ∧
    (readStdInProgress dlg newText).1.qarma_autoclose = false ∧
    ((readStdInProgress dlg newText).1.value = 100 →
      cancelAccepts (readStdInProgress dlg newText).1) ∧
    ((readStdInProgress dlg newText).1.value ≠ 100 →
      cancelRejects (readStdInProgress dlg newText).1) := by
  obtain ⟨mn, mx, v0, ar, lt, cbt, cbh, ac, ak, cs⟩ := dlg
  simp only at h0 h1 ha hinv
  subst h0 h1 ha
  have hp := progressLines_spec (split newText '\n') ⟨0, 101, v0, ar, lt, cbt, cbh, false, ak, cs⟩
    rfl rfl
  simp only at hp
  generalize ((lastNatural (split newText '\n')).map (fun u => min 100 u)).getD v0 = v at hp
  unfold readStdInProgress
  simp only [hp]
  by_cases hv : v = 100
  · subst hv
    simp only [if_true, Bool.false_eq_true, if_false, QProgressDialog.connect,
      QProgressDialog.disconnect, cancelAccepts, cancelRejects]
    refine ⟨trivial, trivial, trivial, fun _ => ⟨by simp, fun s hs => ?_⟩, fun h => absurd rfl h⟩
    exact mem_filter_ne_append cs DialogSlot.reject DialogSlot.accept s
      (fun x => by cases x <;> simp) hs
  · by_cases ho : v0 = 100
    · simp only [hv, ho, if_true, if_false, QProgressDialog.connect,
        QProgressDialog.disconnect, cancelAccepts, cancelRejects]
      refine ⟨trivial, trivial, trivial, fun h => h.elim, fun _ => ⟨by simp, fun s hs => ?_⟩⟩
      exact mem_filter_ne_append cs DialogSlot.accept DialogSlot.reject s
        (fun x => by cases x <;> simp) hs
    · simp only [hv, ho, if_false]
      exact ⟨trivial, trivial, trivial, fun h => h.elim, fun _ => hinv ho⟩

theorem not_cancelAccepts_and_cancelRejects (dlg : QProgressDialog)
    (ha : cancelAccepts dlg) (hr : cancelRejects dlg) : False := by
  obtain ⟨hne, hall⟩ := ha
  cases hc : dlg.canceled with
  | nil => exact hne hc
  | cons s rest =>
    have hs : s ∈ dlg.canceled := by rw [hc]; exact List.mem_cons_self _ _
    have e1 := hall s hs
    have e2 := hr.2 s hs
    rw [e1] at e2
    exact DialogSlot.noConfusion e2

theorem chunks_invariant (chunks : List QString) :
    ∀ (dlg : QProgressDialog), dlg.minimum = 0 → dlg.maximum = 101 →
      dlg.qarma_autoclose = false → (dlg.value = 100 → cancelAccepts dlg) →
      (dlg.value ≠ 100 → cancelRejects dlg) →
      ((chunks.foldl (fun d c => (readStdInProgress d c).1) dlg).value = 100 →
        cancelAccepts (chunks.foldl (fun d c => (readStdInProgress d c).1) dlg)) ∧
      ((chunks.foldl (fun d c => (readStdInProgress d c).1) dlg).value ≠ 100 →
        cancelRejects (chunks.foldl (fun d c => (readStdInProgress d c).1) dlg)) := by
  induction chunks with
  | nil => intro dlg _ _ _ ha hr; exact ⟨ha, hr⟩
  | cons c rest ih =>
    intro dlg h0 h1 hc _ hr
    obtain ⟨g0, g1, gc, ga, gr⟩ := readStdInProgress_invariant dlg c h0 h1 hc hr
    exact ih _ g0 g1 gc ga gr

/-- C12: for a progress dialog with range 0..101, without auto-close, whose
value is not 100 and whose cancel action rejects, after every sequence of
processed input chunks the cancel action accepts if and only if the value is
exactly 100, and rejects if and only if it is not. -/
theorem cancel_accepts_iff_value_100 (dlg : QProgressDialog) (chunks : List QString)
    (h0 : dlg.minimum = 0) (h1 : dlg.maximum = 101) (hc : dlg.qarma_autoclose = false)
    (hv : dlg.value ≠ 100) (hr : cancelRejects dlg) :
    (cancelAccepts (chunks.foldl (fun d c => (readStdInProgress d c).1) dlg) ↔
      (chunks.foldl (fun d c => (readStdInProgress d c).1) dlg).value = 100) ∧
    (cancelRejects (chunks.foldl (fun d c => (readStdInProgress d c).1) dlg) ↔
      (chunks.foldl (fun d c => (readStdInProgress d c).1) dlg).value ≠ 100) := by
  obtain ⟨ga, gr⟩ := chunks_invariant chunks dlg h0 h1 hc (fun h => absurd h hv) (fun _ => hr)
  constructor
  · refine ⟨fun h => ?_, ga⟩
    by_contra hne
    exact not_cancelAccepts_and_cancelRejects _ h (gr hne)
  · refine ⟨fun h hval => ?_, gr⟩
    exact not_cancelAccepts_and_cancelRejects _ (ga hval) h

/-- C12 at the chunks `40`, `100`, `100`, `99`, where the dialog ends at 99
with cancel rejecting, having passed through 100. -/
theorem cancel_accepts_iff_value_100_witness :
    progress0.minimum = 0 ∧ progress0.maximum = 101 ∧ progress0.qarma_autoclose = false ∧
    progress0.value ≠ 100 ∧ cancelRejects progress0 ∧
    (cancelAccepts (["40\n".toList, "100\n".toList, "100\n".toList, "99\n".toList].foldl
        (fun d c => (readStdInProgress d c).1) progress0) ↔
      (["40\n".toList, "100\n".toList, "100\n".toList, "99\n".toList].foldl
        (fun d c => (readStdInProgress d c).1) progress0).value = 100) ∧
    (cancelRejects (["40\n".toList, "100\n".toList, "100\n".toList, "99\n".toList].foldl
        (fun d c => (readStdInProgress d c).1) progress0) ↔
      (["40\n".toList, "100\n".toList, "100\n".toList, "99\n".toList].foldl
        (fun d c => (readStdInProgress d c).1) progress0).value ≠ 100) :=
  ⟨by decide, by decide, by decide, by decide, by decide,
   cancel_accepts_iff_value_100 progress0
     ["40\n".toList, "100\n".toList, "100\n".toList, "99\n".toList]
     (by decide) (by decide) (by decide) (by decide) (by decide)⟩

/-! ## Argument loops: proofs -/

theorem directives_cons (vf : List QString) (a : QString) (rest : QStringList) :
    directives vf (a :: rest) =
      (a, if a ∈ vf then rest.headD [] else []) ::
        directives vf (if a ∈ vf then rest.drop 1 else rest) := by
  cases rest with
  | nil => split_ifs <;> simp [directives]
  | cons b rest => by_cases h : a ∈ vf <;> simp [directives, h]

/-- The loop of a builder follows the directives: when the body, at a token
in flag position, steps over the value exactly for the value-taking flags
and changes a part `f` of its state as `upd` says, the loop returns and that
part is folded over the directives. -/
theorem forArgs_project {σ β : Type} (args : QStringList) (vf : List QString)
    (body : Nat → σ → Option (Nat × σ)) (f : σ → β) (upd : β → QString × QString → β)
    (hbody : ∀ i st, i < args.length →
      ∃ st1, body i st = some (if at_ args i ∈ vf then i + 1 else i, st1) ∧
        f st1 = upd (f st)
          (at_ args i, if at_ args i ∈ vf then (args.drop (i + 1)).headD [] else []))
    (fuel : Nat) :
    ∀ (i : Nat) (st : σ), args.length - i ≤ fuel →
      ∃ st1, forArgs args body fuel i st = some st1 ∧
        f st1 = (directives vf (args.drop i)).foldl upd (f st) := by
  induction fuel with
  | zero =>
    intro i st hf
    have hi : ¬ i < args.length := by omega
    refine ⟨st, by rw [forArgs]; simp [hi], ?_⟩
    rw [List.drop_eq_nil_of_le (by omega : args.length ≤ i)]
    rfl
  | succ fuel ih =>
    intro i st hf
    by_cases hi : i < args.length
    · obtain ⟨st1, hb, hf1⟩ := hbody i st hi
      rw [drop_eq_at_cons args i hi, directives_cons, List.foldl_cons, ← hf1]
      by_cases hm : at_ args i ∈ vf
      · simp only [hm, if_true] at hb ⊢
        obtain ⟨st2, h2, hf2⟩ := ih (i + 1 + 1) st1 (by omega)
        refine ⟨st2, ?_, ?_⟩
        · rw [forArgs]; simp only [hi, if_true, hb]; exact h2
        · rw [hf2, List.drop_drop]
      · simp only [hm, if_false] at hb ⊢
        obtain ⟨st2, h2, hf2⟩ := ih (i + 1) st1 (by omega)
        refine ⟨st2, ?_, hf2⟩
        rw [forArgs]; simp only [hi, if_true, hb]; exact h2
    · refine ⟨st, by rw [forArgs]; simp [hi], ?_⟩
      rw [List.drop_eq_nil_of_le (by omega : args.length ≤ i)]
      rfl

/-- Folding "the value of this flag replaces what is stored" over directives
leaves the value of the last such directive. -/
theorem foldl_replace_eq_lastValue (flag : QString) (ds : List (QString × QString))
    (init : QString) :
    ds.foldl (fun s d => if d.1 = flag then d.2 else s) init
      = (lastValue flag ds).getD init := by
  induction ds using List.reverseRecOn with
  | nil => rfl
  | append_singleton l d ih =>
    rw [List.foldl_append, List.foldl_cons, List.foldl_nil, ih]
    unfold lastValue
    rw [List.filter_append]
    by_cases hd : d.1 = flag
    · simp [List.filter_cons, hd, List.getLast?_append]
    · simp [List.filter_cons, hd]
/-! ## `showList`: proofs -/

theorem showListBody_eq (args : QStringList) (i : Nat) (v : ListVars) :
    showListBody args i v =
      some (if at_ args i ∈ listValueFlags then i + 1 else i,
        showListApply v
          (at_ args i,
           if at_ args i ∈ listValueFlags then (args.drop (i + 1)).headD [] else [])) := by
  unfold showListBody showListApply
  simp only [NEXT_ARG_eq]
  generalize at_ args i = a
  by_cases hm : a ∈ listValueFlags
  · simp only [hm, if_true]
    simp only [listValueFlags, List.mem_cons, List.mem_singleton, List.not_mem_nil,
      or_false] at hm
    rcases hm with h | h | h | h <;> subst h
    · rfl
    · rfl
    · rfl
    · show (match toInt _ with
        | some n => _
        | none => _) = _
      cases toInt ((List.drop (i + 1) args).headD []) <;> rfl
  · simp only [hm, if_false]
    simp only [listValueFlags, List.mem_cons, List.mem_singleton, List.not_mem_nil, or_false,
      not_or] at hm
    obtain ⟨h1, h2, h3, h4⟩ := hm
    simp only [h1, h2, h3, h4, if_false]
    simp only [apply_ite (Prod.mk i), apply_ite some]

theorem showListApply_separator (v : ListVars) (d : QString × QString) :
    (showListApply v d).dlg.qarma_separator
      = if d.1 = "--separator".toList then d.2 else v.dlg.qarma_separator := by
  obtain ⟨a, b⟩ := d
  by_cases hs : a = "--separator".toList
  · subst hs; rfl
  · simp only [showListApply, hs, if_false]
    cases toInt b <;>
      simp only [apply_ite (fun v : ListVars => v.dlg.qarma_separator), ite_self]

/-- The argument loop of `showList` returns, and the separator it leaves is
the value of the last `--separator` directive, the initial one without any. -/
theorem showList_separator (self : App) (args : QStringList) :
    ∃ s dlg, showList self args = some (0, s) ∧ s.m_dialog = some (Dialog.list dlg) ∧
      s.out = self.out ∧ s.posted = self.posted ∧ s.m_type = self.m_type ∧
      dlg.qarma_separator
        = (lastValue "--separator".toList (directives listValueFlags args)).getD "|".toList := by
  obtain ⟨v, hv, hsep⟩ := forArgs_project args listValueFlags (showListBody args)
    (fun v => v.dlg.qarma_separator) (fun s d => if d.1 = "--separator".toList then d.2 else s)
    (fun i st _ => ⟨_, showListBody_eq args i st, showListApply_separator st _⟩)
    args.length 0
    { dlg := { tree := { selectionMode := SelectionMode.SingleSelection,
                         allColumnsShowFocus := true } } } (by omega)
  obtain ⟨rows, hrows, _⟩ := rowsLoop_spec v.values (max v.columns.length 1) (by omega)
    v.values.length 0 [] (by omega)
  rw [foldl_replace_eq_lastValue] at hsep
  unfold showList
  simp only [hv, hrows, List.nil_append]
  exact ⟨_, _, rfl, rfl, rfl, rfl, rfl, by simpa using hsep⟩

/-! ## Claims on the result -/

theorem finishScale_exitCode (self : App) (sender : Sender) :
    (finishScale self sender).exitCode = 0 := by
  unfold finishScale finishList
  split <;> rfl

theorem dialogFinished_rejected (dateToString : QDate → Option QString → QString)
    (self : App) (sender : Sender) (status : Int) (hs : status ≠ 1) :
    dialogFinished dateToString self sender status
      = some { app := self, exitCode := 1, killedParent := sender.qarma_autokill_parent } := by
  unfold dialogFinished
  rw [if_pos hs]

theorem dialogFinished_accepted (dateToString : QDate → Option QString → QString)
    (self : App) (sender : Sender) (hw : hasChildren self.m_type sender) :
    ∃ r, dialogFinished dateToString self sender 1 = some r ∧ r.exitCode = 0 := by
  obtain ⟨hcal, hform⟩ := hw
  unfold dialogFinished
  rw [if_neg (by decide)]
  cases ht : self.m_type with
  | Calendar =>
    obtain ⟨date, hd⟩ := Option.isSome_iff_exists.mp (hcal ht)
    simp only [hd]
    split_ifs <;> exact ⟨_, rfl, rfl⟩
  | Forms =>
    obtain ⟨fl, hf⟩ := Option.isSome_iff_exists.mp (hform ht)
    simp only [hf]
    exact ⟨_, rfl, rfl⟩
  | TextInfo =>
    simp only
    split
    · exact ⟨_, rfl, rfl⟩
    · exact ⟨_, rfl, finishScale_exitCode self sender⟩
  | Scale => exact ⟨_, rfl, finishScale_exitCode self sender⟩
  | _ => exact ⟨_, rfl, rfl⟩

/-- C17: whatever the mode and the dialog, finishing with a status other
than accepted gives exit code 1 and writes nothing to standard output;
finishing with the status accepted gives exit code 0, for a dialog that has
the children its mode is read from; the exit code is thus 0 exactly when the
status is accepted. -/
theorem dialogFinished_exit_code (dateToString : QDate → Option QString → QString)
    (self : App) (sender : Sender) (status : Int)
    (hw : status = 1 → hasChildren self.m_type sender) :
    ∃ r, dialogFinished dateToString self sender status = some r ∧
      r.exitCode = (if status = 1 then 0 else 1) ∧
      (status ≠ 1 → r.exitCode = 1 ∧ r.app.out = self.out) ∧
      (status = 1 → r.exitCode = 0) := by
  by_cases hs : status = 1
  · obtain ⟨r, h1, h2⟩ := dialogFinished_accepted dateToString self sender (hw hs)
    subst hs
    exact ⟨r, h1, by rw [if_pos rfl]; exact h2, fun h => absurd rfl h, fun _ => h2⟩
  · refine ⟨_, dialogFinished_rejected dateToString self sender status hs, ?_,
      fun _ => ⟨rfl, rfl⟩, fun h => absurd h hs⟩
    rw [if_neg hs]

/-- C17 at an accepted Calendar dialog showing 29 February 2024. -/
theorem dialogFinished_exit_code_witness :
    ((1 : Int) = 1 → hasChildren ({ m_type := DialogType.Calendar } : App).m_type
      { calendarWidget := some { year := 2024, month := 2, day := 29 } }) ∧
    ∃ r, dialogFinished (fun _ _ => "29.02.24".toList) { m_type := DialogType.Calendar }
        { calendarWidget := some { year := 2024, month := 2, day := 29 } } 1 = some r ∧
      r.exitCode = (if (1 : Int) = 1 then 0 else 1) ∧
      ((1 : Int) ≠ 1 → r.exitCode = 1 ∧
        r.app.out = ({ m_type := DialogType.Calendar } : App).out) ∧
      ((1 : Int) = 1 → r.exitCode = 0) :=
  ⟨fun _ => by decide,
   dialogFinished_exit_code (fun _ _ => "29.02.24".toList) { m_type := DialogType.Calendar }
     { calendarWidget := some { year := 2024, month := 2, day := 29 } } 1 (fun _ => by decide)⟩

/-- C18: on acceptance of a List dialog the line written is the join, by the
separator property, of the first-column texts of the selected rows when there
is a selected row, and otherwise of the second-column texts of the checked
top-level rows in row order; a newline follows and the exit code is 0. The
separator property `showList` leaves is the value of the last `--separator`
directive, `|` without any. -/
theorem list_result_line (dateToString : QDate → Option QString → QString) (self : App)
    (sender : Sender) (tw : QTreeWidget) (args : QStringList)
    (ht : self.m_type = DialogType.List) (hs : sender.treeWidget = some tw) :
    (dialogFinished dateToString self sender 1).map (fun r => (r.app.out, r.exitCode))
      = some (self.out ++
          [Printed.text
            (join
              (if tw.selectedItems ≠ [] then tw.selectedItems.map (fun twi => twi.textAt 0)
               else (tw.topLevelItems.filter (fun twi => twi.checked)).map
                 (fun twi => twi.textAt 1))
              sender.qarma_separator ++ ['\n'])], 0) ∧
    ∃ s dlg, showList self args = some (0, s) ∧ s.m_dialog = some (Dialog.list dlg) ∧
      dlg.qarma_separator
        = (lastValue "--separator".toList (directives listValueFlags args)).getD "|".toList := by
  constructor
  · unfold dialogFinished
    rw [if_neg (by decide), ht]
    simp only [finishList, hs, printLine, Option.map_some']
    by_cases hsel : tw.selectedItems = []
    · simp [hsel]
    · simp [hsel]
  · obtain ⟨s, dlg, h1, h2, _, _, _, h3⟩ := showList_separator self args
    exact ⟨s, dlg, h1, h2, h3⟩

/-- C18 at a check list with the rows apple (checked), pear, plum (checked)
and no selection, built with `--separator ;`. -/
theorem list_result_line_witness :
    ({ m_type := DialogType.List } : App).m_type = DialogType.List ∧
    ({ qarma_separator := ";".toList,
       treeWidget := some { topLevelItems :=
         [{ text := [[], "apple".toList], checked := true },
          { text := [[], "pear".toList] },
          { text := [[], "plum".toList], checked := true }] } } : Sender).treeWidget
      = some { topLevelItems :=
         [{ text := [[], "apple".toList], checked := true },
          { text := [[], "pear".toList] },
          { text := [[], "plum".toList], checked := true }] } ∧
    (dialogFinished (fun _ _ => []) { m_type := DialogType.List }
        { qarma_separator := ";".toList,
          treeWidget := some { topLevelItems :=
            [{ text := [[], "apple".toList], checked := true },
             { text := [[], "pear".toList] },
             { text := [[], "plum".toList], checked := true }] } } 1).map
        (fun r => (r.app.out, r.exitCode))
      = some ([Printed.text "apple;plum\n".toList], 0) ∧
    ∃ s dlg, showList { m_type := DialogType.List }
        ["--list".toList, "--checklist".toList, "--separator".toList, ";".toList] = some (0, s) ∧
      s.m_dialog = some (Dialog.list dlg) ∧ dlg.qarma_separator = ";".toList :=
  ⟨rfl, rfl,
   (list_result_line (fun _ _ => []) { m_type := DialogType.List }
      { qarma_separator := ";".toList,
        treeWidget := some { topLevelItems :=
          [{ text := [[], "apple".toList], checked := true },
           { text := [[], "pear".toList] },
           { text := [[], "plum".toList], checked := true }] } }
      { topLevelItems :=
          [{ text := [[], "apple".toList], checked := true },
           { text := [[], "pear".toList] },
           { text := [[], "plum".toList], checked := true }] }
      ["--list".toList, "--checklist".toList, "--separator".toList, ";".toList] rfl rfl).1,
   (list_result_line (fun _ _ => []) { m_type := DialogType.List }
      { qarma_separator := ";".toList,
        treeWidget := some { topLevelItems :=
          [{ text := [[], "apple".toList], checked := true },
           { text := [[], "pear".toList] },
           { text := [[], "plum".toList], checked := true }] } }
      { topLevelItems :=
          [{ text := [[], "apple".toList], checked := true },
           { text := [[], "pear".toList] },
           { text := [[], "plum".toList], checked := true }] }
      ["--list".toList, "--checklist".toList, "--separator".toList, ";".toList] rfl rfl).2⟩
/-! ## The other builders: proofs -/

theorem emitValueChanged_posted (old : QSlider) (st : App × ScaleDialog) :
    (emitValueChanged old st).1.posted = st.1.posted := by
  unfold emitValueChanged
  split_ifs <;> rfl

theorem showScaleBody_step (args : QStringList) (i : Nat) (st : App × ScaleDialog) :
    ∃ st1, showScaleBody args i st = some (if at_ args i ∈ scaleValueFlags then i + 1 else i, st1) ∧
      st1.1.posted = st.1.posted := by
  unfold showScaleBody
  simp only [NEXT_ARG_eq]
  generalize at_ args i = a
  by_cases hm : a ∈ scaleValueFlags
  · simp only [hm, if_true]
    simp only [scaleValueFlags, List.mem_cons, List.mem_singleton, List.not_mem_nil,
      or_false] at hm
    rcases hm with h | h | h | h | h <;> subst h
    · exact ⟨_, rfl, rfl⟩
    · exact ⟨_, rfl, emitValueChanged_posted _ _⟩
    · rw [if_neg (by decide), if_neg (by decide), if_pos rfl]
      cases toInt ((List.drop (i + 1) args).headD [])
      · exact ⟨_, rfl, rfl⟩
      · exact ⟨_, rfl, emitValueChanged_posted _ _⟩
    · rw [if_neg (by decide), if_neg (by decide), if_neg (by decide), if_pos rfl]
      cases toInt ((List.drop (i + 1) args).headD [])
      · exact ⟨_, rfl, rfl⟩
      · exact ⟨_, rfl, emitValueChanged_posted _ _⟩
    · rw [if_neg (by decide), if_neg (by decide), if_neg (by decide), if_neg (by decide),
        if_pos rfl]
      cases toInt ((List.drop (i + 1) args).headD []) <;> exact ⟨_, rfl, rfl⟩
  · simp only [hm, if_false]
    simp only [scaleValueFlags, List.mem_cons, List.mem_singleton, List.not_mem_nil, or_false,
      not_or] at hm
    obtain ⟨h1, h2, h3, h4, h5⟩ := hm
    simp only [h1, h2, h3, h4, h5, if_false]
    split_ifs <;> exact ⟨_, rfl, rfl⟩

theorem foldl_const {α β : Type} (ds : List α) (b : β) : ds.foldl (fun p _ => p) b = b := by
  induction ds with
  | nil => rfl
  | cons d ds ih => exact ih

/-- The Scale builder never fails: it returns 0 with the dialog shown and
nothing queued. -/
theorem showScale_spec (self : App) (args : QStringList) :
    ∃ s dlg, showScale self args = some (0, s) ∧ s.m_dialog = some (Dialog.scale dlg) ∧
      s.posted = self.posted := by
  obtain ⟨st, hst, hp⟩ := forArgs_project args scaleValueFlags (showScaleBody args)
    (fun st => st.1.posted) (fun p _ => p) (fun i st _ => showScaleBody_step args i st)
    args.length 0 (self, { slider := ({} : QSlider).setRange 0 100 }) (by omega)
  rw [foldl_const] at hp
  unfold showScale
  simp only [hst]
  exact ⟨_, _, rfl, rfl, hp⟩

theorem setValue_canceled (d : QProgressDialog) (v : Int) :
    (d.setValue v).canceled = d.canceled := by
  simp only [QProgressDialog.setValue, QProgressDialog.reset,
    apply_ite (fun d : QProgressDialog => d.canceled), ite_self]

theorem setRange_canceled (d : QProgressDialog) (a b : Int) :
    (d.setRange a b).canceled = d.canceled := by
  simp only [QProgressDialog.setRange, QProgressDialog.reset,
    apply_ite (fun d : QProgressDialog => d.canceled), ite_self]

theorem showProgressBody_step (args : QStringList) (i : Nat) (dlg : QProgressDialog) :
    ∃ dlg1, showProgressBody args i dlg
        = some (if at_ args i ∈ progressValueFlags then i + 1 else i, dlg1) ∧
      dlg1.canceled = dlg.canceled := by
  unfold showProgressBody
  simp only [NEXT_ARG_eq]
  generalize at_ args i = a
  by_cases hm : a ∈ progressValueFlags
  · simp only [hm, if_true]
    simp only [progressValueFlags, List.mem_cons, List.mem_singleton, List.not_mem_nil,
      or_false] at hm
    rcases hm with h | h <;> subst h
    · exact ⟨_, rfl, rfl⟩
    · exact ⟨_, rfl, setValue_canceled _ _⟩
  · simp only [hm, if_false]
    simp only [progressValueFlags, List.mem_cons, List.mem_singleton, List.not_mem_nil,
      or_false, not_or] at hm
    obtain ⟨h1, h2⟩ := hm
    simp only [h1, h2, if_false]
    split_ifs
    · exact ⟨_, rfl, setRange_canceled _ _ _⟩
    all_goals exact ⟨_, rfl, rfl⟩

/-- The Progress builder never fails: it returns 0 with the dialog shown,
`canceled()` connected to `reject` only, and the object otherwise untouched. -/
theorem showProgress_spec (self : App) (args : QStringList) :
    ∃ dlg, showProgress self args
        = some (0, { self with m_dialog := some (Dialog.progress dlg) }) ∧
      dlg.canceled = [DialogSlot.reject] := by
  obtain ⟨d, hd, hc⟩ := forArgs_project args progressValueFlags (showProgressBody args)
    (fun d => d.canceled) (fun p _ => p) (fun i st _ => showProgressBody_step args i st)
    args.length 0 (({} : QProgressDialog).setRange 0 101) (by omega)
  rw [foldl_const] at hc
  unfold showProgress
  simp only [hd]
  refine ⟨_, rfl, ?_⟩
  simp only [QProgressDialog.connect, hc]
  rfl

theorem calendarMalformed_numeric (a v : QString)
    (h : a ∈ ["--day".toList, "--month".toList, "--year".toList]) :
    calendarMalformed (a, v) = decide (toUInt v = none) := by
  simp only [calendarMalformed, h, decide_True, Bool.true_and]

/-- One iteration of the argument loop of `showCalendar`, by the directive at
`i`: a numeric flag whose value does not parse ends the loop with the
diagnostic and the `char` 0; anything else goes on behind the directive. -/
theorem showCalendarLoop_succ (args : QStringList) (fuel i : Nat) (self : App)
    (vars : CalendarVars) (hi : i < args.length) :
    ∃ vars1, showCalendarLoop args (fuel + 1) i self vars =
      if calendarMalformed (at_ args i,
          if at_ args i ∈ calendarValueFlags then (args.drop (i + 1)).headD [] else []) = true
      then
        some (Sum.inl (0,
          (error self (at_ args i ++ " must be followed by a positive number".toList)).2))
      else
        showCalendarLoop args fuel
          ((if at_ args i ∈ calendarValueFlags then i + 1 else i) + 1) self vars1 := by
  conv => enter [1, vars1, 1]; unfold showCalendarLoop
  simp only [hi, if_true, NEXT_ARG_eq]
  generalize at_ args i = a
  by_cases hm : a ∈ calendarValueFlags
  · simp only [hm, if_true]
    simp only [calendarValueFlags, List.mem_cons, List.mem_singleton, List.not_mem_nil,
      or_false] at hm
    rcases hm with h | h | h | h | h <;> subst h
    · exact ⟨_, rfl⟩
    · rw [if_neg (by decide), if_pos rfl]
      cases hu : toUInt ((List.drop (i + 1) args).headD []) with
      | none =>
        refine ⟨vars, ?_⟩
        rw [if_pos (by rw [calendarMalformed_numeric _ _ (by decide), hu]; rfl)]
        rfl
      | some u =>
        refine ⟨{ vars with d := toInt32 u }, ?_⟩
        rw [if_neg (by rw [calendarMalformed_numeric _ _ (by decide), hu]; simp)]
    · rw [if_neg (by decide), if_neg (by decide), if_pos rfl]
      cases hu : toUInt ((List.drop (i + 1) args).headD []) with
      | none =>
        refine ⟨vars, ?_⟩
        rw [if_pos (by rw [calendarMalformed_numeric _ _ (by decide), hu]; rfl)]
        rfl
      | some u =>
        refine ⟨{ vars with m := toInt32 u }, ?_⟩
        rw [if_neg (by rw [calendarMalformed_numeric _ _ (by decide), hu]; simp)]
    · rw [if_neg (by decide), if_neg (by decide), if_neg (by decide), if_pos rfl]
      cases hu : toUInt ((List.drop (i + 1) args).headD []) with
      | none =>
        refine ⟨vars, ?_⟩
        rw [if_pos (by rw [calendarMalformed_numeric _ _ (by decide), hu]; rfl)]
        rfl
      | some u =>
        refine ⟨{ vars with y := toInt32 u }, ?_⟩
        rw [if_neg (by rw [calendarMalformed_numeric _ _ (by decide), hu]; simp)]
    · exact ⟨_, rfl⟩
  · simp only [hm, if_false]
    simp only [calendarValueFlags, List.mem_cons, List.mem_singleton, List.not_mem_nil,
      or_false, not_or] at hm
    obtain ⟨h1, h2, h3, h4, h5⟩ := hm
    refine ⟨vars, ?_⟩
    have hnm : ¬ calendarMalformed (a, []) = true := by
      simp only [calendarMalformed, List.mem_cons, List.mem_singleton, List.not_mem_nil,
        or_false, h2, h3, h4, decide_False, Bool.false_and, Bool.false_eq_true,
        not_false_eq_true]
    rw [if_neg hnm]
    simp only [h1, h2, h3, h4, h5, if_false]

/-- The argument loop of `showCalendar` by the directives from `i` on: the
first malformed numeric directive ends it with that flag's diagnostic;
without one it runs to the end. -/
theorem showCalendarLoop_directives (args : QStringList) (fuel : Nat) :
    ∀ (i : Nat) (self : App) (vars : CalendarVars), args.length - i ≤ fuel →
      (∀ d, (directives calendarValueFlags (args.drop i)).find? calendarMalformed = some d →
        showCalendarLoop args fuel i self vars = some (Sum.inl (0,
          (error self (d.1 ++ " must be followed by a positive number".toList)).2))) ∧
      ((directives calendarValueFlags (args.drop i)).find? calendarMalformed = none →
        ∃ vars1, showCalendarLoop args fuel i self vars = some (Sum.inr vars1)) := by
  induction fuel with
  | zero =>
    intro i self vars hf
    have hi : ¬ i < args.length := by omega
    rw [List.drop_eq_nil_of_le (by omega : args.length ≤ i)]
    refine ⟨fun d h => by simp [directives] at h, fun _ => ⟨vars, ?_⟩⟩
    rw [showCalendarLoop]; simp [hi]
  | succ fuel ih =>
    intro i self vars hf
    by_cases hi : i < args.length
    · obtain ⟨vars1, hstep⟩ := showCalendarLoop_succ args fuel i self vars hi
      rw [drop_eq_at_cons args i hi, directives_cons, List.find?_cons, hstep]
      by_cases hbad : calendarMalformed (at_ args i,
          if at_ args i ∈ calendarValueFlags then (args.drop (i + 1)).headD [] else []) = true
      · rw [if_pos hbad]
        simp only [hbad]
        exact ⟨fun d h => by cases h; rfl, fun h => Option.noConfusion h⟩
      · rw [if_neg hbad]
        simp only [Bool.not_eq_true] at hbad
        simp only [hbad]
        by_cases hm : at_ args i ∈ calendarValueFlags
        · simp only [hm, if_true]
          have := ih (i + 1 + 1) self vars1 (by omega)
          rw [List.drop_drop]
          exact this
        · simp only [hm, if_false]
          exact ih (i + 1) self vars1 (by omega)
    · rw [List.drop_eq_nil_of_le (by omega : args.length ≤ i)]
      refine ⟨fun d h => by simp [directives] at h, fun _ => ⟨vars, ?_⟩⟩
      rw [showCalendarLoop]; simp [hi]

/-! ## Claims on the builders' numeric flags -/

/-- C20, as stated, fails outside the Calendar builder: `--value abc` leaves
the Scale dialog built with value 0, `--hide-column abc` and
`--percentage abc` leave the List and the Progress dialog built, and none of
the three builders raises an error. -/
theorem non_numeric_value_is_not_fatal :
    showScale {} ["--scale".toList, "--value".toList, "abc".toList]
      = some (0, { m_dialog := some (Dialog.scale
          { slider := { minimum := 0, maximum := 100, value := 0 } }) }) ∧
    (showList {} ["--list".toList, "--hide-column".toList, "abc".toList]).map
        (fun r => (r.1, r.2.out, r.2.posted, r.2.m_dialog.isSome)) = some (0, [], [], true) ∧
    (showProgress {} ["--progress".toList, "--percentage".toList, "abc".toList]).map
        (fun r => (r.1, r.2.out, r.2.posted, r.2.m_dialog.isSome)) = some (0, [], [], true) := by
  decide

/-- C20, amended: only the Calendar builder is fatal on a number that does
not parse. When a `--day`, `--month` or `--year` directive has a value that
does not parse as an unsigned integer, `showCalendar` ends at the first such
directive with that flag's diagnostic and `quitOnError` queued, and shows no
dialog; without such a directive it shows the dialog. `showList`,
`showScale` and `showProgress` return 0 with their dialog shown and queue
nothing, whatever their tokens are. -/
theorem only_calendar_numbers_are_fatal (env : Env) (self : App) (args : QStringList) :
    (∀ d, (directives calendarValueFlags args).find? calendarMalformed = some d →
      showCalendar env self args = some (0,
        { self with
          out := self.out ++ [diagnostic d.1]
          posted := self.posted ++ [Slot.quitOnError] })) ∧
    ((directives calendarValueFlags args).find? calendarMalformed = none →
      ∃ s, showCalendar env self args = some (0, s) ∧ s.m_dialog.isSome = true ∧
        s.posted = self.posted ∧ s.out = self.out) ∧
    (∃ s dlg, showList self args = some (0, s) ∧ s.m_dialog = some (Dialog.list dlg) ∧
      s.posted = self.posted ∧ s.out = self.out) ∧
    (∃ s dlg, showScale self args = some (0, s) ∧ s.m_dialog = some (Dialog.scale dlg) ∧
      s.posted = self.posted) ∧
    (∃ dlg, showProgress self args
      = some (0, { self with m_dialog := some (Dialog.progress dlg) })) := by
  obtain ⟨hbad, hgood⟩ := showCalendarLoop_directives args args.length 0 self
    { d := env.day, m := env.month, y := env.year } (by omega)
  rw [List.drop_zero] at hbad hgood
  refine ⟨?_, ?_, ?_, showScale_spec self args, ?_⟩
  · intro d hd
    unfold showCalendar
    rw [hbad d hd]
    simp [error, diagnostic]
  · intro hnone
    obtain ⟨vars1, h1⟩ := hgood hnone
    unfold showCalendar
    rw [h1]
    exact ⟨_, rfl, rfl, rfl, rfl⟩
  · obtain ⟨s, dlg, h1, h2, h3, h4, _⟩ := showList_separator self args
    exact ⟨s, dlg, h1, h2, h4, h3⟩
  · obtain ⟨dlg, h1, _⟩ := showProgress_spec self args
    exact ⟨dlg, h1⟩

/-- C20, amended, at `--calendar --day x --month y`: the first malformed
directive is `--day x`, and `showCalendar` ends with the diagnostic of
`--day`, `quitOnError` queued and no dialog. -/
theorem only_calendar_numbers_are_fatal_witness :
    (directives calendarValueFlags ["--calendar".toList, "--day".toList, "x".toList,
        "--month".toList, "y".toList]).find? calendarMalformed
      = some ("--day".toList, "x".toList) ∧
    showCalendar env0 {} ["--calendar".toList, "--day".toList, "x".toList,
        "--month".toList, "y".toList]
      = some (0, { out := [diagnostic "--day".toList], posted := [Slot.quitOnError] }) :=
  ⟨by decide,
   (only_calendar_numbers_are_fatal env0 {} ["--calendar".toList, "--day".toList, "x".toList,
      "--month".toList, "y".toList]).1 ("--day".toList, "x".toList) (by decide)⟩

/-! ## The Forms builder: proofs -/

theorem rowsLoop_closed (values : QStringList) (w : Nat) (hw : 1 ≤ w) (fuel : Nat) :
    ∀ (i : Nat) (rows : List QStringList), values.length - i ≤ fuel →
      rowsLoop values w fuel i rows = some (rows ++
        (List.range ((values.length - i + w - 1) / w)).map
          (fun k => (values.drop (i + k * w)).take w)) := by
  induction fuel with
  | zero =>
    intro i rows hf
    have hi : ¬ i < values.length := by omega
    have h0 : values.length - i + w - 1 = w - 1 := by omega
    simp [rowsLoop, hi, h0, Nat.div_eq_of_lt (by omega : w - 1 < w)]
  | succ fuel ih =>
    intro i rows hf
    by_cases hi : i < values.length
    · rw [rowsLoop]
      simp only [hi, if_true, rowLoop_spec values w i [] hi, List.nil_append]
      rw [ih _ _ (by omega)]
      congr 1
      rw [List.append_assoc]
      congr 1
      by_cases hc : w ≤ values.length - i
      · have hm : min w (values.length - i) = w := by omega
        have hl : values.length - (i + w) = values.length - i - w := by omega
        rw [hm, hl, ceil_step (values.length - i) w hw hc, List.range_succ_eq_map]
        simp only [List.map_cons, List.map_map, Nat.zero_mul, Nat.add_zero,
          List.singleton_append]
        congr 1
        apply List.map_congr_left
        intro k _
        simp only [Function.comp, Nat.succ_mul]
        congr 2
        omega
      · have hm : min w (values.length - i) = values.length - i := by omega
        have hl : values.length - (i + (values.length - i)) = 0 := by omega
        rw [hm, hl, ceil_small (values.length - i) w (by omega) (by omega)]
        have h0 : (0 + w - 1) / w = 0 := by
          rw [Nat.zero_add]; exact Nat.div_eq_of_lt (by omega)
        rw [h0]
        have h1 : List.range 1 = [0] := rfl
        rw [h1, List.take_of_length_le (by simp)]
        simp only [List.range_zero, List.map_cons, List.map_nil, Nat.zero_mul, Nat.add_zero,
          List.append_nil]
        rw [List.take_of_length_le (by simp; omega)]
    · have h0 : values.length - i + w - 1 = w - 1 := by omega
      rw [rowsLoop]
      simp [hi, h0, Nat.div_eq_of_lt (by omega : w - 1 < w)]

theorem buildListItems_eq (values columns : QStringList) :
    buildListItems values columns = some (rowsOf (max columns.length 1) values) := by
  have hc : (if columns.length ≠ 0 then columns.length else 1) = max columns.length 1 := by
    split_ifs <;> omega
  unfold buildListItems rowsOf
  simp only [hc]
  rw [rowsLoop_closed values _ (by omega) values.length 0 [] (by omega)]
  simp

theorem buildList_eq (v : FormsVars) : buildList v = some (flush v) := by
  unfold buildList flush
  cases v.lastList with
  | none => rfl
  | some tw => simp only [buildListItems_eq]

theorem formsFlag_other (a : QString) (h : ∀ p ∈ formsFlags, p.1 ≠ a) :
    formsFlag a = FormsFlag.other := by
  have hn : formsFlags.find? (fun p => decide (p.1 = a)) = none := by
    rw [List.find?_eq_none]
    intro p hp
    simpa using h p hp
  unfold formsFlag
  rw [hn]
  rfl

theorem formsFlag_mem (a : QString) (e : FormsFlag) (h : formsFlag a = e)
    (he : e ≠ FormsFlag.other) : (a, e) ∈ formsFlags := by
  unfold formsFlag at h
  cases hf : formsFlags.find? (fun p => decide (p.1 = a)) with
  | none => rw [hf] at h; exact absurd h.symm he
  | some p =>
    rw [hf] at h
    have h1 : p.1 = a := by simpa using List.find?_some hf
    have h2 : p.2 = e := h
    have h3 : p ∈ formsFlags := List.mem_of_find?_eq_some hf
    rw [← h1, ← h2]
    exact h3

theorem showFormsBody_eq (args : QStringList) (i : Nat) (v : FormsVars) :
    showFormsBody args i v =
      some (if at_ args i ∈ formsValueFlags then i + 1 else i,
        formsStep v
          (at_ args i,
           if at_ args i ∈ formsValueFlags then (args.drop (i + 1)).headD [] else [])) := by
  unfold showFormsBody
  simp only [NEXT_ARG_eq, buildList_eq]
  generalize at_ args i = a
  by_cases hm : a ∈ formsValueFlags
  · simp only [hm, if_true]
    simp only [formsValueFlags, List.mem_cons, List.mem_singleton, List.not_mem_nil,
      or_false] at hm
    rcases hm with h | h | h | h | h | h | h | h | h | h | h | h <;> subst h
    all_goals first
      | rfl
      | (rcases v with ⟨dlg, tw, values, columns, texts, header, _ | cb⟩ <;> rfl)
  · simp only [hm, if_false]
    simp only [formsValueFlags, List.mem_cons, List.mem_singleton, List.not_mem_nil, or_false,
      not_or] at hm
    by_cases hs : a = "--show-header".toList
    · subst hs; rfl
    · have ho : formsFlag a = FormsFlag.other := by
        apply formsFlag_other
        intro p hp
        simp only [formsFlags, List.mem_cons, List.mem_singleton, List.not_mem_nil,
          or_false] at hp
        rcases hp with h | h | h | h | h | h | h | h | h | h | h | h | h <;> subst h <;>
          simp only [ne_eq, eq_comm, hm, hs, not_false_eq_true]
      simp only [hm, hs, if_false, formsStep, ho]

theorem showForms_eq (self : App) (args : QStringList) :
    showForms self args = some (0, { self with m_dialog := some (Dialog.forms
      (flush ((directives formsValueFlags args).foldl formsStep {})).dlg) }) := by
  obtain ⟨v, hv, hf⟩ := forArgs_project args formsValueFlags (showFormsBody args)
    (fun v => v) formsStep (fun i v _ => ⟨_, showFormsBody_eq args i v, rfl⟩)
    args.length 0 {} (by omega)
  rw [List.drop_zero] at hf
  unfold showForms
  simp only [hv, buildList_eq, hf]

theorem modifyRow_length (f : FormField → FormField) (l : List FormField) :
    ∀ j, (modifyRow f j l).length = l.length := by
  induction l with
  | nil => intro j; cases j <;> rfl
  | cons w ws ih =>
    intro j
    cases j with
    | zero => rfl
    | succ j => simp [modifyRow, ih j]

theorem modifyRow_getElem? (f : FormField → FormField) (l : List FormField) :
    ∀ j k, (modifyRow f j l)[k]? = if j = k then l[k]?.map f else l[k]? := by
  induction l with
  | nil => intro j k; cases j <;> simp [modifyRow]
  | cons w ws ih =>
    intro j k
    cases j with
    | zero =>
      cases k with
      | zero => simp [modifyRow]
      | succ k => simp [modifyRow]
    | succ j =>
      cases k with
      | zero => simp [modifyRow]
      | succ k => simp [modifyRow, ih j k]

theorem modifyRow_keeps (f : FormField → FormField) (l : List FormField) (j k : Nat)
    (w : FormField) (hf : f w = w) (h : l[k]? = some w) : (modifyRow f j l)[k]? = some w := by
  rw [modifyRow_getElem?]
  split_ifs
  · rw [h, Option.map_some', hf]
  · exact h

theorem getElem?_append_some (l l2 : List FormField) (k : Nat) (w : FormField)
    (h : l[k]? = some w) : (l ++ l2)[k]? = some w := by
  have hk : k < l.length := by
    by_contra hc
    rw [List.getElem?_eq_none (by omega)] at h
    cases h
  rw [List.getElem?_append_left hk, h]

theorem lt_of_getElem?_some (l : List FormField) (k : Nat) (w : FormField)
    (h : l[k]? = some w) : k < l.length := by
  by_contra hc
  rw [List.getElem?_eq_none (by omega)] at h
  cases h

theorem flush_of_none (v : FormsVars) (h : v.lastList = none) : flush v = v := by
  unfold flush
  rw [h]

theorem flush_lastList (v : FormsVars) : (flush v).lastList = none := by
  unfold flush
  cases h : v.lastList with
  | none => exact h
  | some tw => rfl

theorem flush_flush (v : FormsVars) : flush (flush v) = flush v :=
  flush_of_none _ (flush_lastList v)

theorem flush_length (v : FormsVars) : (flush v).dlg.fields.length = v.dlg.fields.length := by
  unfold flush
  cases v.lastList with
  | none => rfl
  | some tw => exact modifyRow_length _ _ _

theorem flush_buffers (v : FormsVars)
    (h : v.lastList ≠ none ∨ (v.lastListValues = [] ∧ v.lastListColumns = [])) :
    (flush v).lastListValues = [] ∧ (flush v).lastListColumns = [] := by
  unfold flush
  cases hl : v.lastList with
  | none =>
    rcases h with h | h
    · exact absurd hl h
    · exact h
  | some tw => exact ⟨rfl, rfl⟩

theorem flush_keeps (v : FormsVars) (k : Nat) (w : FormField)
    (h : v.dlg.fields[k]? = some w) (hk : v.lastList ≠ some k) :
    (flush v).dlg.fields[k]? = some w := by
  unfold flush
  cases hl : v.lastList with
  | none => exact h
  | some tw =>
    have hne : tw ≠ k := fun e => hk (by rw [hl, e])
    show (modifyRow _ tw v.dlg.fields)[k]? = some w
    rw [modifyRow_getElem?, if_neg hne, h]

theorem flush_commit (v : FormsVars) (k : Nat) (label : QString) (hidden : Bool)
    (labels : QStringList) (items : List QStringList) (hl : v.lastList = some k)
    (h : v.dlg.fields[k]? = some (FormField.tree label hidden labels items)) :
    (flush v).dlg.fields[k]? = some (FormField.tree label (!v.lastListHeader)
      (if v.lastListColumns.length ≠ 0 then v.lastListColumns else labels)
      (items ++ rowsOf (max v.lastListColumns.length 1) v.lastListValues)) := by
  unfold flush
  rw [hl]
  show (modifyRow _ k v.dlg.fields)[k]? = _
  rw [modifyRow_getElem?, if_pos rfl, h]
  rfl

theorem formsFlag_addList (a : QString) :
    formsFlag a = FormsFlag.addList ↔ a = "--add-list".toList := by
  constructor
  · intro h
    simpa [formsFlags] using formsFlag_mem a _ h (by decide)
  · intro h; subst h; rfl

theorem formsFlag_listValues (a : QString) :
    formsFlag a = FormsFlag.listValues ↔ a = "--list-values".toList := by
  constructor
  · intro h
    simpa [formsFlags] using formsFlag_mem a _ h (by decide)
  · intro h; subst h; rfl

theorem formsFlag_columnValues (a : QString) :
    formsFlag a = FormsFlag.columnValues ↔ a = "--column-values".toList := by
  constructor
  · intro h
    simpa [formsFlags] using formsFlag_mem a _ h (by decide)
  · intro h; subst h; rfl

/-- A directive other than `--add-list` leaves the pending tree pointer and
every tree of the form as they are; it replaces a buffer exactly when it is
the buffer's flag. -/
theorem formsStep_mid (v : FormsVars) (d : QString × QString)
    (hd : formsFlag d.1 ≠ FormsFlag.addList) :
    (formsStep v d).lastList = v.lastList ∧
    (formsStep v d).lastListValues
      = (if formsFlag d.1 = FormsFlag.listValues then split d.2 '|' else v.lastListValues) ∧
    (formsStep v d).lastListColumns
      = (if formsFlag d.1 = FormsFlag.columnValues then split d.2 '|'
          else v.lastListColumns) ∧
    (∀ (k : Nat) (label : QString) (hidden : Bool) (labels : QStringList)
        (items : List QStringList),
      v.dlg.fields[k]? = some (FormField.tree label hidden labels items) →
      (formsStep v d).dlg.fields[k]? = some (FormField.tree label hidden labels items)) := by
  unfold formsStep
  generalize formsFlag d.1 = e at hd
  cases e
  case addList => exact absurd rfl hd
  case comboValues =>
    cases v.lastCombo with
    | none => exact ⟨rfl, rfl, rfl, fun _ _ _ _ _ h => h⟩
    | some cb =>
      exact ⟨rfl, rfl, rfl, fun k _ _ _ _ h => modifyRow_keeps _ _ cb k _ rfl h⟩
  all_goals first
    | exact ⟨rfl, rfl, rfl, fun _ _ _ _ _ h => h⟩
    | exact ⟨rfl, rfl, rfl, fun k _ _ _ _ h => getElem?_append_some _ _ k _ h⟩

/-- A tree of the form that is not the pending one stays as it is, whatever
the directive. -/
theorem formsStep_keeps (v : FormsVars) (d : QString × QString) (k : Nat) (label : QString)
    (hidden : Bool) (labels : QStringList) (items : List QStringList)
    (h : v.dlg.fields[k]? = some (FormField.tree label hidden labels items))
    (hk : v.lastList ≠ some k) :
    (formsStep v d).dlg.fields[k]? = some (FormField.tree label hidden labels items) ∧
    (formsStep v d).lastList ≠ some k := by
  by_cases hd : formsFlag d.1 = FormsFlag.addList
  · unfold formsStep
    rw [hd]
    have h1 := flush_keeps v k _ h hk
    have h2 := lt_of_getElem?_some _ _ _ h1
    refine ⟨getElem?_append_some _ _ k _ h1, ?_⟩
    intro e
    have e1 : (flush v).dlg.fields.length = k := Option.some.inj e
    omega
  · obtain ⟨h1, _, _, h4⟩ := formsStep_mid v d hd
    exact ⟨h4 k _ _ _ _ h, by rw [h1]; exact hk⟩

theorem foldl_keeps (ds : List (QString × QString)) (k : Nat) (label : QString)
    (hidden : Bool) (labels : QStringList) (items : List QStringList) :
    ∀ v : FormsVars, v.dlg.fields[k]? = some (FormField.tree label hidden labels items) →
      v.lastList ≠ some k →
      (ds.foldl formsStep v).dlg.fields[k]? = some (FormField.tree label hidden labels items) ∧
      (ds.foldl formsStep v).lastList ≠ some k := by
  induction ds with
  | nil => intro v h hk; exact ⟨h, hk⟩
  | cons d ds ih =>
    intro v h hk
    obtain ⟨h1, h2⟩ := formsStep_keeps v d k label hidden labels items h hk
    exact ih _ h1 h2

theorem lastValue_snoc (flag : QString) (l : List (QString × QString)) (d : QString × QString) :
    lastValue flag (l ++ [d]) = if d.1 = flag then some d.2 else lastValue flag l := by
  unfold lastValue
  rw [List.filter_append]
  by_cases hd : d.1 = flag
  · simp [List.filter_cons, hd, List.getLast?_append]
  · simp [List.filter_cons, hd]

/-- Over directives without `--add-list` the pending tree stays pending and
untouched, and each buffer ends as the last value given for it. -/
theorem foldl_mid (ds : List (QString × QString)) (v : FormsVars)
    (hds : ∀ d ∈ ds, d.1 ≠ "--add-list".toList) :
    (ds.foldl formsStep v).lastList = v.lastList ∧
    (ds.foldl formsStep v).lastListValues
      = (match lastValue "--list-values".toList ds with
          | none => v.lastListValues
          | some s => split s '|') ∧
    (ds.foldl formsStep v).lastListColumns
      = (match lastValue "--column-values".toList ds with
          | none => v.lastListColumns
          | some s => split s '|') ∧
    (∀ (k : Nat) (label : QString) (hidden : Bool) (labels : QStringList)
        (items : List QStringList),
      v.dlg.fields[k]? = some (FormField.tree label hidden labels items) →
      (ds.foldl formsStep v).dlg.fields[k]? = some (FormField.tree label hidden labels items)) := by
  induction ds using List.reverseRecOn with
  | nil => exact ⟨rfl, rfl, rfl, fun _ _ _ _ _ h => h⟩
  | append_singleton l d ih =>
    obtain ⟨i1, i2, i3, i4⟩ := ih (fun x hx => hds x (List.mem_append_left _ hx))
    have hd : formsFlag d.1 ≠ FormsFlag.addList := fun e =>
      hds d (List.mem_append_right _ (List.mem_singleton_self d)) ((formsFlag_addList _).1 e)
    obtain ⟨s1, s2, s3, s4⟩ := formsStep_mid (l.foldl formsStep v) d hd
    rw [List.foldl_append, List.foldl_cons, List.foldl_nil]
    refine ⟨s1.trans i1, ?_, ?_, fun k a b c e h => s4 k a b c e (i4 k a b c e h)⟩
    · rw [s2, lastValue_snoc, i2]
      simp only [formsFlag_listValues]
      split_ifs <;> rfl
    · rw [s3, lastValue_snoc, i3]
      simp only [formsFlag_columnValues]
      split_ifs <;> rfl

theorem addsRow_iff (d : QString × QString) :
    addsRow d = true ↔
      formsFlag d.1 ∈ [FormsFlag.addEntry, FormsFlag.addPassword, FormsFlag.addCalendar,
        FormsFlag.addList, FormsFlag.addCombo, FormsFlag.addCheckbox] := by
  obtain ⟨a, b⟩ := d
  unfold addsRow
  simp only [decide_eq_true_eq, List.mem_cons, List.mem_singleton, List.not_mem_nil, or_false]
  constructor
  · intro h
    rcases h with h | h | h | h | h | h <;> subst h <;> decide
  · intro h
    have hm : ∀ e, formsFlag a = e → e ≠ FormsFlag.other → (a, e) ∈ formsFlags :=
      formsFlag_mem a
    rcases h with h | h | h | h | h | h <;>
      · have h1 := hm _ h (by decide)
        simp [formsFlags] at h1
        simp [h1]

theorem formsStep_length (v : FormsVars) (d : QString × QString) :
    (formsStep v d).dlg.fields.length
      = v.dlg.fields.length + (if addsRow d = true then 1 else 0) := by
  have hi := addsRow_iff d
  unfold formsStep
  generalize formsFlag d.1 = e at hi
  cases e
  case comboValues =>
    simp at hi
    cases v.lastCombo <;> simp [hi, modifyRow_length]
  all_goals
    simp at hi
    simp [hi, addRow, flush_length]

theorem foldl_length (ds : List (QString × QString)) :
    ∀ v : FormsVars, (ds.foldl formsStep v).dlg.fields.length
      = v.dlg.fields.length + (ds.filter addsRow).length := by
  induction ds with
  | nil => intro v; rfl
  | cons d ds ih =>
    intro v
    rw [List.foldl_cons, ih, formsStep_length, List.filter_cons]
    by_cases h : addsRow d = true
    · simp only [h, if_true, List.length_cons]; omega
    · rw [Bool.not_eq_true] at h
      simp [h]

theorem formsStep_pending (v : FormsVars) (d : QString × QString)
    (h : v.lastList ≠ none ∨ d.1 = "--add-list".toList) : (formsStep v d).lastList ≠ none := by
  by_cases hd : formsFlag d.1 = FormsFlag.addList
  · unfold formsStep
    rw [hd]
    exact fun e => Option.noConfusion e
  · rw [(formsStep_mid v d hd).1]
    rcases h with h | h
    · exact h
    · exact absurd ((formsFlag_addList _).2 h) hd

theorem foldl_pending (ds : List (QString × QString)) :
    ∀ v : FormsVars, (v.lastList ≠ none ∨ ∃ d ∈ ds, d.1 = "--add-list".toList) →
      (ds.foldl formsStep v).lastList ≠ none := by
  induction ds with
  | nil =>
    intro v h
    rcases h with h | ⟨d, hd, _⟩
    · exact h
    · cases hd
  | cons d ds ih =>
    intro v h
    rw [List.foldl_cons]
    apply ih
    rcases h with h | ⟨x, hx, hxa⟩
    · exact Or.inl (formsStep_pending v d (Or.inl h))
    · rcases List.mem_cons.1 hx with e | hm
      · exact Or.inl (formsStep_pending v d (Or.inr (e ▸ hxa)))
      · exact Or.inr ⟨x, hm, hxa⟩

theorem formsStep_empty (v : FormsVars) (d : QString × QString)
    (hv : v.lastListValues = []) (hc : v.lastListColumns = [])
    (hd : d.1 ≠ "--list-values".toList ∧ d.1 ≠ "--column-values".toList) :
    (formsStep v d).lastListValues = [] ∧ (formsStep v d).lastListColumns = [] := by
  by_cases ha : formsFlag d.1 = FormsFlag.addList
  · unfold formsStep
    rw [ha]
    exact flush_buffers v (Or.inr ⟨hv, hc⟩)
  · obtain ⟨_, s2, s3, _⟩ := formsStep_mid v d ha
    rw [s2, s3, if_neg (fun e => hd.1 ((formsFlag_listValues _).1 e)),
      if_neg (fun e => hd.2 ((formsFlag_columnValues _).1 e))]
    exact ⟨hv, hc⟩

theorem foldl_empty (ds : List (QString × QString)) :
    ∀ v : FormsVars, v.lastListValues = [] → v.lastListColumns = [] →
      (∀ d ∈ ds, d.1 ≠ "--list-values".toList ∧ d.1 ≠ "--column-values".toList) →
      (ds.foldl formsStep v).lastListValues = [] ∧
      (ds.foldl formsStep v).lastListColumns = [] := by
  induction ds with
  | nil => intro v hv hc _; exact ⟨hv, hc⟩
  | cons d ds ih =>
    intro v hv hc h
    obtain ⟨h1, h2⟩ := formsStep_empty v d hv hc (h d (List.mem_cons_self d ds))
    exact ih _ h1 h2 (fun x hx => h x (List.mem_cons_of_mem d hx))

theorem formsStep_flush (v : FormsVars) (d : QString × QString)
    (hd : d.1 = "--add-list".toList) : formsStep (flush v) d = formsStep v d := by
  unfold formsStep
  rw [(formsFlag_addList _).2 hd]
  simp only [flush_flush]

/-- The final `buildList` after directives that are none, or begin with an
`--add-list`, is the same whether or not the pending tree was filled before
them. -/
theorem flush_foldl_flush (ds : List (QString × QString)) (v : FormsVars)
    (h : ∀ d, ds.head? = some d → d.1 = "--add-list".toList) :
    flush (ds.foldl formsStep v) = flush (ds.foldl formsStep (flush v)) := by
  cases ds with
  | nil => exact (flush_flush v).symm
  | cons d ds => rw [List.foldl_cons, List.foldl_cons, formsStep_flush v d (h d rfl)]

theorem ite_length_ne_zero (l : QStringList) : (if l.length ≠ 0 then l else []) = l := by
  cases l <;> rfl

/-! ## Claims on the Forms builder -/

/-- C15: for every label `X` and value string `V`, `showForms` on
`--add-combo X --combo-values V` and on `--combo-values V --add-combo X`,
with or without the mode flag in front, returns 0 with the same dialog: a
form of exactly one row, the combo box labelled `X` whose items are `V` split
on `'|'`, in order. -/
theorem combo_commit_order (self : App) (X V : QString) :
    showForms self ["--add-combo".toList, X, "--combo-values".toList, V]
      = some (0, { self with m_dialog := some (Dialog.forms
          { fields := [FormField.combo X (split V '|')] }) }) ∧
    showForms self ["--combo-values".toList, V, "--add-combo".toList, X]
      = some (0, { self with m_dialog := some (Dialog.forms
          { fields := [FormField.combo X (split V '|')] }) }) ∧
    showForms self ["--forms".toList, "--add-combo".toList, X, "--combo-values".toList, V]
      = some (0, { self with m_dialog := some (Dialog.forms
          { fields := [FormField.combo X (split V '|')] }) }) ∧
    showForms self ["--forms".toList, "--combo-values".toList, V, "--add-combo".toList, X]
      = some (0, { self with m_dialog := some (Dialog.forms
          { fields := [FormField.combo X (split V '|')] }) }) :=
  ⟨rfl, rfl, rfl, rfl⟩

/-- C16, as stated, fails for the first list of a form: no `--list-values`
stands between `--add-list L1` and the end of the tokens, yet `L1` gets the
rows `A` and `B` of the `--list-values A|B` given before it, because
`buildList` leaves the buffers as they are while no tree is pending. -/
theorem values_before_first_list_are_committed :
    directives formsValueFlags ["--forms".toList, "--list-values".toList, "A|B".toList,
        "--add-list".toList, "L1".toList]
      = [("--forms".toList, []), ("--list-values".toList, "A|B".toList)]
          ++ (("--add-list".toList, "L1".toList) :: []) ++ [] ∧
    pending "--list-values".toList [] = [] ∧
    showForms {} ["--forms".toList, "--list-values".toList, "A|B".toList,
        "--add-list".toList, "L1".toList]
      = some (0, { m_dialog := some (Dialog.forms { fields :=
          [FormField.tree "L1".toList true [] [["A".toList], ["B".toList]]] }) }) := by
  decide

/-- C16, amended: let the directives of a Forms token stream be `D0`, then
`--add-list L1`, then `Dmid` without an `--add-list`, then `Drest` that is
empty or begins with the next `--add-list`; and let `D0` hold an `--add-list`,
or neither a `--list-values` nor a `--column-values`. Then `showForms`
returns 0 with a dialog whose row number (count of the row-adding directives
of `D0`) is the tree labelled `L1`; its header labels are the last
`--column-values` of `Dmid` split on `'|'` and its rows are the last
`--list-values` of `Dmid` split on `'|'` and cut into rows of max(number of
columns, 1) cells, none when `Dmid` has no `--list-values`. What precedes
`--add-list L1` and what follows the next `--add-list` has no part in it. -/
theorem list_rows_of_own_section (self : App) (args : QStringList)
    (D0 Dmid Drest : List (QString × QString)) (L1 : QString)
    (hds : directives formsValueFlags args
      = D0 ++ (("--add-list".toList, L1) :: Dmid) ++ Drest)
    (hmid : ∀ d ∈ Dmid, d.1 ≠ "--add-list".toList)
    (hrest : ∀ d, Drest.head? = some d → d.1 = "--add-list".toList)
    (hD0 : (∃ d ∈ D0, d.1 = "--add-list".toList) ∨
      (∀ d ∈ D0, d.1 ≠ "--list-values".toList ∧ d.1 ≠ "--column-values".toList)) :
    ∃ dlg hidden, showForms self args
        = some (0, { self with m_dialog := some (Dialog.forms dlg) }) ∧
      dlg.fields[(D0.filter addsRow).length]?
        = some (FormField.tree L1 hidden (pending "--column-values".toList Dmid)
            (rowsOf (max (pending "--column-values".toList Dmid).length 1)
              (pending "--list-values".toList Dmid))) := by
  obtain ⟨v0, hv0⟩ : ∃ v0, v0 = D0.foldl formsStep {} := ⟨_, rfl⟩
  obtain ⟨k, hk0⟩ : ∃ k, k = (D0.filter addsRow).length := ⟨_, rfl⟩
  have hbuf : (flush v0).lastListValues = [] ∧ (flush v0).lastListColumns = [] := by
    apply flush_buffers
    rw [hv0]
    rcases hD0 with h | h
    · exact Or.inl (foldl_pending D0 {} (Or.inr h))
    · exact Or.inr (foldl_empty D0 {} rfl rfl h)
  have hk : (flush v0).dlg.fields.length = k := by
    rw [flush_length, hv0, foldl_length D0 {}, hk0]
    exact Nat.zero_add _
  have h1 : formsStep v0 ("--add-list".toList, L1)
      = { (addRow (flush v0) (FormField.tree L1 false [] [])) with lastList := some k } := by
    rw [← hk]; rfl
  obtain ⟨m1, m2, m3, m4⟩ := foldl_mid Dmid (formsStep v0 ("--add-list".toList, L1)) hmid
  have hrow : (formsStep v0 ("--add-list".toList, L1)).dlg.fields[k]?
      = some (FormField.tree L1 false [] []) := by
    rw [h1]
    show ((flush v0).dlg.fields ++ [FormField.tree L1 false [] []])[k]? = _
    rw [← hk, List.getElem?_append_right (Nat.le_refl _)]
    simp
  have e2 : (formsStep v0 ("--add-list".toList, L1)).lastListValues = [] := by
    rw [h1]; exact hbuf.1
  have e3 : (formsStep v0 ("--add-list".toList, L1)).lastListColumns = [] := by
    rw [h1]; exact hbuf.2
  have hc := flush_commit _ k L1 false [] [] (m1.trans (by rw [h1])) (m4 k _ _ _ _ hrow)
  rw [m2, m3, e2, e3, ite_length_ne_zero, List.nil_append] at hc
  have hfin := foldl_keeps Drest k _ _ _ _ _ hc
    (by rw [flush_lastList]; exact fun e => Option.noConfusion e)
  have hlast := flush_keeps _ k _ hfin.1 hfin.2
  rw [← flush_foldl_flush Drest _ hrest] at hlast
  have hshow : showForms self args = some (0, { self with m_dialog := some (Dialog.forms
      (flush (Drest.foldl formsStep
        (Dmid.foldl formsStep (formsStep v0 ("--add-list".toList, L1))))).dlg) }) := by
    rw [showForms_eq, hds, List.foldl_append, List.foldl_append, List.foldl_cons, ← hv0]
  rw [← hk0]
  exact ⟨_, _, hshow, hlast⟩

/-- C16, amended, at `--forms --add-list L1 --column-values a|b --list-values
1|2|3 --add-list L2`: the first row of the form is the tree `L1` with the
header labels `a`, `b` and the rows `1 2` and `3`. -/
theorem list_rows_of_own_section_witness :
    directives formsValueFlags ["--forms".toList, "--add-list".toList, "L1".toList,
        "--column-values".toList, "a|b".toList, "--list-values".toList, "1|2|3".toList,
        "--add-list".toList, "L2".toList]
      = [("--forms".toList, [])]
          ++ (("--add-list".toList, "L1".toList) ::
              [("--column-values".toList, "a|b".toList),
               ("--list-values".toList, "1|2|3".toList)])
          ++ [("--add-list".toList, "L2".toList)] ∧
    (∀ d ∈ [("--forms".toList, ([] : QString))],
      d.1 ≠ "--list-values".toList ∧ d.1 ≠ "--column-values".toList) ∧
    ∃ dlg hidden, showForms {} ["--forms".toList, "--add-list".toList, "L1".toList,
        "--column-values".toList, "a|b".toList, "--list-values".toList, "1|2|3".toList,
        "--add-list".toList, "L2".toList]
        = some (0, { m_dialog := some (Dialog.forms dlg) }) ∧
      dlg.fields[0]? = some (FormField.tree "L1".toList hidden ["a".toList, "b".toList]
        [["1".toList, "2".toList], ["3".toList]]) :=
  ⟨by decide, by decide,
   list_rows_of_own_section {} _ [("--forms".toList, [])]
     [("--column-values".toList, "a|b".toList), ("--list-values".toList, "1|2|3".toList)]
     [("--add-list".toList, "L2".toList)] "L1".toList (by decide) (by decide)
     (fun d h => Option.some.inj h ▸ rfl) (Or.inr (by decide))⟩

/-! ## The values of `showList`: proofs -/

theorem showListApply_values (v : ListVars) (d : QString × QString) :
    (showListApply v d).values
      = v.values ++ (if d.1 ∉ listFlags ∧ d.1 ≠ "--list".toList then [d.1] else []) := by
  obtain ⟨a, b⟩ := d
  by_cases hm : a ∈ listFlags
  · simp only [hm, not_true_eq_false, false_and, if_false, List.append_nil]
    simp only [listFlags, List.mem_cons, List.mem_singleton, List.not_mem_nil, or_false] at hm
    rcases hm with h | h | h | h | h | h | h | h | h | h | h <;> subst h
    all_goals first
      | rfl
      | (show (match toInt b with
            | some n => _
            | none => _ : ListVars).values = _
         cases toInt b <;> rfl)
  · simp only [hm, not_false_eq_true, true_and]
    simp only [listFlags, List.mem_cons, List.mem_singleton, List.not_mem_nil, or_false,
      not_or] at hm
    simp only [showListApply, hm, if_false]
    by_cases hl : a = "--list".toList
    · subst hl; simp
    · simp only [hl, ne_eq, not_false_eq_true, if_true]

theorem foldl_values (ds : List (QString × QString)) :
    ∀ init : QStringList,
      ds.foldl (fun vals d =>
          vals ++ (if d.1 ∉ listFlags ∧ d.1 ≠ "--list".toList then [d.1] else [])) init
        = init ++ (ds.map (fun d => d.1)).filter
            (fun a => decide (a ∉ listFlags) && decide (a ≠ "--list".toList)) := by
  induction ds with
  | nil => intro init; simp
  | cons d ds ih =>
    intro init
    rw [List.foldl_cons, ih, List.map_cons, List.filter_cons]
    by_cases h : d.1 ∉ listFlags ∧ d.1 ≠ "--list".toList
    · have hb : (decide (d.1 ∉ listFlags) && decide (d.1 ≠ "--list".toList)) = true := by
        simpa using h
      rw [if_pos h, if_pos hb, List.append_assoc, List.singleton_append]
    · have hb : (decide (d.1 ∉ listFlags) && decide (d.1 ≠ "--list".toList)) = false := by
        rw [Bool.eq_false_iff]; simpa using h
      rw [if_neg h, hb, List.append_nil]
      rfl

/-! ## Claims on the values of `showList` -/

/-- C21, as stated, fails for an unknown flag: `--foo` in `--list --foo a` is
no flag of `showList`, starts with `--`, and yet becomes the first value and
a row of the list, where the specification has the one value `a`. -/
theorem unknown_flag_becomes_value :
    specListValues ["--list".toList, "--foo".toList, "a".toList] = ["a".toList] ∧
    showList {} ["--list".toList, "--foo".toList, "a".toList]
      = some (0, { m_dialog := some (Dialog.list { tree :=
          { selectionMode := SelectionMode.SingleSelection
            allColumnsShowFocus := true
            columnCount := 1
            topLevelItems := [{ text := ["--foo".toList] }, { text := ["a".toList] }] } }) }) := by
  decide

/-- C21, amended: for every token stream, `showList` returns 0 with a dialog
whose rows, put one after the other, are exactly the tokens in flag position
that are none of the flags of `showList` and not `--list`, in their original
order, whether or not they start with `--`; each row is shown as the item
lines 639-653 make of it. -/
theorem showList_values (self : App) (args : QStringList) :
    ∃ (dlg : ListDialog) (rows : List QStringList) (editable checkable icons : Bool),
      showList self args = some (0, { self with m_dialog := some (Dialog.list dlg) }) ∧
      dlg.tree.topLevelItems = rows.map (showListItem editable checkable icons) ∧
      rows.flatten = listValues args := by
  obtain ⟨v, hv, hvals⟩ := forArgs_project args listValueFlags (showListBody args)
    (fun v => v.values)
    (fun vals d => vals ++ (if d.1 ∉ listFlags ∧ d.1 ≠ "--list".toList then [d.1] else []))
    (fun i st _ => ⟨_, showListBody_eq args i st, showListApply_values st _⟩)
    args.length 0
    { dlg := { tree := { selectionMode := SelectionMode.SingleSelection,
                         allColumnsShowFocus := true } } } (by omega)
  obtain ⟨rows, hrows, hflat, _⟩ := rowsLoop_spec v.values (max v.columns.length 1) (by omega)
    v.values.length 0 [] (by omega)
  rw [foldl_values, List.drop_zero] at hvals
  rw [List.drop_zero, hvals, List.nil_append] at hflat
  unfold showList
  simp only [hv, hrows, List.nil_append]
  exact ⟨_, rows, _, _, _, rfl, rfl, hflat⟩

/-! ## The dispatch loop: first match wins -/

theorem dispatch_without_mode (env : Env) (args : QStringList) (self : App) :
    ∀ tokens : QStringList, (∀ a ∈ tokens, a ∉ modeFlags) →
      dispatchLoop env args tokens self 1 = some (self, 1) ∧
      dispatchCalls env args tokens self 1 = some [] := by
  intro tokens
  induction tokens with
  | nil => intro _; exact ⟨rfl, rfl⟩
  | cons a rest ih =>
    intro h
    have ha : a ∉ modeFlags := h a (List.mem_cons_self a rest)
    obtain ⟨i1, i2⟩ := ih (fun x hx => h x (List.mem_cons_of_mem a hx))
    rw [dispatchLoop, dispatchCalls, dispatchArg_of_not_mem env args self 1 a ha]
    simp only [ne_eq, not_true_eq_false, if_false, i1, i2, ha, Option.map_some',
      List.nil_append, and_self]

theorem dispatch_at_first_mode (env : Env) (args : QStringList) (self : App)
    (flag : QString) (post : QStringList) (hflag : flag ∈ modeFlags) :
    ∀ pre : QStringList, (∀ a ∈ pre, a ∉ modeFlags) →
      ∃ s, dispatchArg env args self 1 flag = some (0, s) ∧
        dispatchLoop env args (pre ++ flag :: post) self 1 = some (s, 0) ∧
        dispatchCalls env args (pre ++ flag :: post) self 1 = some [flag] ∧
        modeOf flag = some s.m_type := by
  obtain ⟨s, t, h1, h2, h3⟩ := dispatchArg_of_mem env args self 1 flag hflag
  intro pre
  induction pre with
  | nil =>
    intro _
    refine ⟨s, h1, ?_, ?_, by rw [h2, h3]⟩
    · rw [List.nil_append, dispatchLoop, h1]
      rfl
    · rw [List.nil_append, dispatchCalls, h1]
      simp only [ne_eq, zero_ne_one, not_false_eq_true, if_true, hflag]
  | cons a rest ih =>
    intro h
    have ha : a ∉ modeFlags := h a (List.mem_cons_self a rest)
    obtain ⟨s1, e1, e2, e3, e4⟩ := ih (fun x hx => h x (List.mem_cons_of_mem a hx))
    have es : s1 = s := by
      rw [h1] at e1
      exact (Prod.mk.inj (Option.some.inj e1)).2.symm
    subst es
    refine ⟨s1, h1, ?_, ?_, e4⟩
    · rw [List.cons_append, dispatchLoop, dispatchArg_of_not_mem env args self 1 a ha]
      simp only [ne_eq, not_true_eq_false, if_false, e2]
    · rw [List.cons_append, dispatchCalls, dispatchArg_of_not_mem env args self 1 a ha]
      simp only [ne_eq, not_true_eq_false, if_false, e3, ha, Option.map_some',
        List.nil_append]

/-- C22: the dispatch loop starts with `error = 1` over the tokens it is
handed. When no token is a mode flag, no builder is called and the object,
its mode included, stays as it is (`Invalid` in the constructor). When `flag`
is the first mode flag, the only builder called is that of `flag`, the loop
ends with what this builder returned and left, whatever follows `flag`, and
the recorded mode is the mode of `flag`; the builder returns 0 also when it
has raised a fatal error, so a later mode flag is never tried. -/
theorem first_mode_flag_wins (env : Env) (self : App) (args : QStringList) :
    ((∀ a ∈ args, a ∉ modeFlags) →
      dispatchLoop env args args self 1 = some (self, 1) ∧
      dispatchCalls env args args self 1 = some []) ∧
    (∀ (pre : QStringList) (flag : QString) (post : QStringList),
      args = pre ++ flag :: post → (∀ a ∈ pre, a ∉ modeFlags) → flag ∈ modeFlags →
      ∃ s, dispatchArg env args self 1 flag = some (0, s) ∧
        dispatchLoop env args args self 1 = some (s, 0) ∧
        dispatchCalls env args args self 1 = some [flag] ∧
        modeOf flag = some s.m_type) := by
  refine ⟨dispatch_without_mode env args self args, ?_⟩
  intro pre flag post hargs hpre hflag
  obtain ⟨s, h1, h2, h3, h4⟩ := dispatch_at_first_mode env args self flag post hflag pre hpre
  rw [← hargs] at h2 h3
  exact ⟨s, h1, h2, h3, h4⟩

/-- C22 at the tokens `--calendar --day x --entry`: the Calendar builder is
the only one called although it ends in a fatal error, `--entry` is never
tried, and the mode is Calendar. -/
theorem first_mode_flag_wins_witness :
    ["--calendar".toList, "--day".toList, "x".toList, "--entry".toList]
      = [] ++ "--calendar".toList :: ["--day".toList, "x".toList, "--entry".toList] ∧
    "--calendar".toList ∈ modeFlags ∧
    (∃ s, dispatchArg env0 ["--calendar".toList, "--day".toList, "x".toList, "--entry".toList]
          {} 1 "--calendar".toList = some (0, s) ∧
      dispatchLoop env0 ["--calendar".toList, "--day".toList, "x".toList, "--entry".toList]
          ["--calendar".toList, "--day".toList, "x".toList, "--entry".toList] {} 1
          = some (s, 0) ∧
      dispatchCalls env0 ["--calendar".toList, "--day".toList, "x".toList, "--entry".toList]
          ["--calendar".toList, "--day".toList, "x".toList, "--entry".toList] {} 1
          = some ["--calendar".toList] ∧
      modeOf "--calendar".toList = some s.m_type) ∧
    (dispatchLoop env0 ["--calendar".toList, "--day".toList, "x".toList, "--entry".toList]
        ["--calendar".toList, "--day".toList, "x".toList, "--entry".toList] {} 1).map
        (fun r => (r.1.m_type, r.1.m_dialog, r.1.posted, r.2))
      = some (DialogType.Calendar, none, [Slot.quitOnError], 0) :=
  ⟨rfl, by decide,
   (first_mode_flag_wins env0 {}
      ["--calendar".toList, "--day".toList, "x".toList, "--entry".toList]).2
      [] "--calendar".toList ["--day".toList, "x".toList, "--entry".toList] rfl
      (fun _ h => absurd h (List.not_mem_nil _)) (by decide),
   by decide⟩

/-! ## The progress protocol: values passed -/

theorem progressLines_eq_calls (input : QStringList) :
    ∀ dlg : QProgressDialog,
      progressLines dlg input
        = (progressCalls input).foldl (fun d v => d.setValue v) dlg := by
  induction input with
  | nil => intro dlg; rfl
  | cons line rest ih =>
    intro dlg
    have hstep : progressLines dlg (line :: rest)
        = progressLines (match toInt line with
            | some u => dlg.setValue (min 100 u)
            | none => dlg) rest := rfl
    rw [hstep, ih]
    unfold progressCalls
    simp only [List.filterMap_cons]
    cases toInt line <;> rfl

theorem mem_progressCalls (input : QStringList) (v : Int) (h : v ∈ progressCalls input) :
    ∃ line ∈ input, ∃ u, toInt line = some u ∧ v = min 100 u := by
  unfold progressCalls at h
  obtain ⟨line, hl, hv⟩ := List.mem_filterMap.mp h
  cases hu : toInt line with
  | none => rw [hu] at hv; cases hv
  | some u =>
    rw [hu] at hv
    exact ⟨line, hl, u, hu, (Option.some.inj hv).symm⟩

theorem lastNatural_nonneg (input : QStringList) (u : Int) (h : lastNatural input = some u) :
    0 ≤ u := by
  unfold lastNatural at h
  have hm := List.mem_of_getLast?_eq_some h
  simpa using (List.mem_filter.mp hm).2

/-- C25, as stated, fails for the line `-5`: the value passed to the dialog
is -5, below the range 0..100. The dialog ignores it. -/
theorem negative_value_is_passed :
    progressCalls (split "-5\n".toList '\n') = [-5] ∧
    (progressLines progress0 (split "-5\n".toList '\n')).value = progress0.value := by
  decide

/-- C25, amended: the lines of a chunk change the dialog through the values
passed to `setValue` alone; each of them is `min 100 u` for the integer `u`
of some line, hence at most 100, and may be negative. A dialog with the range
0..101 takes a value that is passed when it is not negative and ignores it
otherwise, so the value after the lines is the one before them or lies in
0..100. -/
theorem progress_values_passed (dlg : QProgressDialog) (input : QStringList)
    (h0 : dlg.minimum = 0) (h1 : dlg.maximum = 101) :
    progressLines dlg input = (progressCalls input).foldl (fun d v => d.setValue v) dlg ∧
    (∀ v ∈ progressCalls input, v ≤ 100 ∧
      (∃ line ∈ input, ∃ u, toInt line = some u ∧ v = min 100 u) ∧
      ∀ d : QProgressDialog, d.minimum = 0 → d.maximum = 101 →
        d.setValue v = if 0 ≤ v then { d with value := v } else d) ∧
    ((progressLines dlg input).value = dlg.value ∨
      (0 ≤ (progressLines dlg input).value ∧ (progressLines dlg input).value ≤ 100)) := by
  refine ⟨progressLines_eq_calls input dlg, ?_, ?_⟩
  · intro v hv
    obtain ⟨line, hl, u, hu, hvu⟩ := mem_progressCalls input v hv
    refine ⟨by omega, ⟨line, hl, u, hu, hvu⟩, ?_⟩
    intro d d0 d1
    rw [hvu, setValue_clamped d d0 d1 u]
    by_cases h : 0 ≤ u
    · have h2 : 0 ≤ min 100 u := by omega
      rw [if_pos h, if_pos h2]
    · have h2 : ¬ 0 ≤ min 100 u := by omega
      rw [if_neg h, if_neg h2]
  · rw [progressLines_spec input dlg h0 h1]
    cases hl : lastNatural input with
    | none => exact Or.inl rfl
    | some u =>
      have hu := lastNatural_nonneg input u hl
      right
      show 0 ≤ min 100 u ∧ min 100 u ≤ 100
      omega

/-- C25, amended, at the lines `7`, `x`, `-1`, `250`: the values passed are
7, -1 and 100. -/
theorem progress_values_passed_witness :
    progress0.minimum = 0 ∧ progress0.maximum = 101 ∧
    progressCalls ["7".toList, "x".toList, "-1".toList, "250".toList] = [7, -1, 100] ∧
    progressLines progress0 ["7".toList, "x".toList, "-1".toList, "250".toList]
      = (progressCalls ["7".toList, "x".toList, "-1".toList, "250".toList]).foldl
          (fun d v => d.setValue v) progress0 :=
  ⟨by decide, by decide, by decide,
   (progress_values_passed progress0 ["7".toList, "x".toList, "-1".toList, "250".toList]
     (by decide) (by decide)).1⟩

/-! ## The progress protocol: auto-close -/

theorem readStdInProgress_autoclose (dlg : QProgressDialog) (newText : QString)
    (h0 : dlg.minimum = 0) (h1 : dlg.maximum = 101) (hc : dlg.qarma_autoclose = true) :
    ∃ v : Int, readStdInProgress dlg newText =
      if v = 100 then ({ dlg with value := v }, [(250, Slot.quit)])
      else if dlg.value = 100 then
        ({ dlg with
            value := v
            canceled := dlg.canceled.filter (fun s => decide (s ≠ DialogSlot.accept))
              ++ [DialogSlot.reject]
            cancelButtonText := "Cancel".toList }, [])
      else ({ dlg with value := v }, []) := by
  obtain ⟨mn, mx, v0, ar, lt, cbt, cbh, ac, ak, cs⟩ := dlg
  simp only at h0 h1 hc
  subst h0 h1 hc
  have hp := progressLines_spec (split newText '\n')
    ⟨0, 101, v0, ar, lt, cbt, cbh, true, ak, cs⟩ rfl rfl
  simp only at hp
  generalize ((lastNatural (split newText '\n')).map (fun u => min 100 u)).getD v0 = v at hp
  refine ⟨v, ?_⟩
  unfold readStdInProgress
  simp only [hp]
  by_cases hv : v = 100
  · simp only [hv, if_true]
  · by_cases ho : v0 = 100
    · simp only [hv, ho, if_true, if_false, QProgressDialog.connect,
        QProgressDialog.disconnect]
    · simp only [hv, ho, if_false]

/-- C26: for a progress dialog with the range 0..101 and `--auto-close`, the
handler on a chunk (a read that is not empty) that leaves the value at 100
starts the one timer of 250 ms to `quit` and leaves the connections of
`canceled()` as they are; on a chunk that leaves another value it starts no
timer; and cancelling still rejects after either. A read of nothing changes
nothing and starts no timer. -/
theorem auto_close_at_100 (notifier : Bool) (dlg : QProgressDialog) (newText : QString)
    (h0 : dlg.minimum = 0) (h1 : dlg.maximum = 101) (hc : dlg.qarma_autoclose = true)
    (hne : newText ≠ []) :
    ((readStdInProgressMode notifier dlg newText).1.value = 100 →
      (readStdInProgressMode notifier dlg newText).2 = [(250, Slot.quit)] ∧
      (readStdInProgressMode notifier dlg newText).1.canceled = dlg.canceled) ∧
    ((readStdInProgressMode notifier dlg newText).1.value ≠ 100 →
      (readStdInProgressMode notifier dlg newText).2 = []) ∧
    (cancelRejects dlg → cancelRejects (readStdInProgressMode notifier dlg newText).1) ∧
    readStdInProgressMode notifier dlg [] = (dlg, []) := by
  have hmode : readStdInProgressMode notifier dlg newText = readStdInProgress dlg newText := by
    unfold readStdInProgressMode
    simp only [hne, false_and, if_false]
  have hnil : readStdInProgressMode notifier dlg [] = (dlg, []) := by
    unfold readStdInProgressMode
    cases notifier <;> simp
  obtain ⟨v, hr⟩ := readStdInProgress_autoclose dlg newText h0 h1 hc
  rw [hmode, hr]
  refine ⟨?_, ?_, ?_, hnil⟩
  · by_cases hv : v = 100
    · rw [if_pos hv]
      exact fun _ => ⟨rfl, rfl⟩
    · by_cases ho : dlg.value = 100
      · rw [if_neg hv, if_pos ho]
        exact fun h => absurd h hv
      · rw [if_neg hv, if_neg ho]
        exact fun h => absurd h hv
  · by_cases hv : v = 100
    · rw [if_pos hv]
      exact fun h => absurd hv h
    · by_cases ho : dlg.value = 100
      · rw [if_neg hv, if_pos ho]
        exact fun _ => rfl
      · rw [if_neg hv, if_neg ho]
        exact fun _ => rfl
  · intro hrej
    by_cases hv : v = 100
    · rw [if_pos hv]
      exact hrej
    · by_cases ho : dlg.value = 100
      · rw [if_neg hv, if_pos ho]
        refine ⟨by simp, fun s hs => ?_⟩
        exact mem_filter_ne_append dlg.canceled DialogSlot.accept DialogSlot.reject s
          (fun x => by cases x <;> simp) hs
      · rw [if_neg hv, if_neg ho]
        exact hrej

/-- C26 at the dialog of `--progress --auto-close` and the chunk `100`. -/
theorem auto_close_at_100_witness :
    ({ progress0 with qarma_autoclose := true } : QProgressDialog).minimum = 0 ∧
    ({ progress0 with qarma_autoclose := true } : QProgressDialog).maximum = 101 ∧
    "100\n".toList ≠ [] ∧
    ((readStdInProgressMode true { progress0 with qarma_autoclose := true }
        "100\n".toList).1.value = 100 →
      (readStdInProgressMode true { progress0 with qarma_autoclose := true }
        "100\n".toList).2 = [(250, Slot.quit)] ∧
      (readStdInProgressMode true { progress0 with qarma_autoclose := true }
        "100\n".toList).1.canceled = [DialogSlot.reject]) ∧
    readStdInProgressMode true { progress0 with qarma_autoclose := true } "100\n".toList
      = ({ progress0 with qarma_autoclose := true, value := 100 }, [(250, Slot.quit)]) :=
  ⟨by decide, by decide, by decide,
   (auto_close_at_100 true { progress0 with qarma_autoclose := true } "100\n".toList
     (by decide) (by decide) rfl (by decide)).1,
   by decide⟩

/-! ## `showText`: proofs -/

theorem showTextBody_step (readFile : QString → Option QString) (args : QStringList)
    (i : Nat) (st : TextDialog × Bool) :
    ∃ st1, showTextBody readFile args i st
        = some (if at_ args i ∈ textValueFlags then i + 1 else i, st1) ∧
      st1.1.readOnly
        = (if (at_ args i,
              if at_ args i ∈ textValueFlags then (args.drop (i + 1)).headD [] else []).1
              = "--editable".toList then false else st.1.readOnly) := by
  unfold showTextBody
  simp only [NEXT_ARG_eq]
  generalize at_ args i = a
  by_cases hm : a ∈ textValueFlags
  · simp only [hm, if_true]
    simp only [textValueFlags, List.mem_cons, List.mem_singleton, List.not_mem_nil,
      or_false] at hm
    rcases hm with h | h | h <;> subst h
    · rw [if_pos rfl]
      cases readFile ((List.drop (i + 1) args).headD []) <;> exact ⟨_, rfl, rfl⟩
    · exact ⟨_, rfl, rfl⟩
    · exact ⟨_, rfl, rfl⟩
  · simp only [hm, if_false]
    simp only [textValueFlags, List.mem_cons, List.mem_singleton, List.not_mem_nil, or_false,
      not_or] at hm
    simp only [hm, if_false]
    by_cases he : a = "--editable".toList
    · simp only [he, if_true]
      exact ⟨_, rfl, rfl⟩
    · by_cases hs : a = "--auto-scroll".toList
      · simp only [he, hs, if_true, if_false]
        exact ⟨_, rfl, by simp⟩
      · simp only [he, hs, if_false]
        exact ⟨_, rfl, rfl⟩

theorem foldl_readOnly (ds : List (QString × QString)) :
    ∀ r : Bool,
      ds.foldl (fun r d => if d.1 = "--editable".toList then false else r) r
        = (r && !ds.any (fun d => decide (d.1 = "--editable".toList))) := by
  induction ds with
  | nil => intro r; simp
  | cons d ds ih =>
    intro r
    rw [List.foldl_cons, ih, List.any_cons]
    by_cases h : d.1 = "--editable".toList
    · rw [if_pos h, decide_eq_true h]
      simp
    · rw [if_neg h, decide_eq_false h]
      simp

theorem mem_of_mem_directives (vf : List QString) :
    ∀ (n : Nat) (args : QStringList), args.length ≤ n →
      ∀ d ∈ directives vf args, d.1 ∈ args := by
  intro n
  induction n with
  | zero =>
    intro args hl d hd
    have : args = [] := List.length_eq_zero.mp (by omega)
    subst this
    simp [directives] at hd
  | succ n ih =>
    intro args hl d hd
    cases args with
    | nil => simp [directives] at hd
    | cons a rest =>
      cases rest with
      | nil =>
        simp only [directives, List.mem_singleton] at hd
        subst hd
        exact List.mem_cons_self _ _
      | cons b rest =>
        simp only [directives] at hd
        by_cases h : a ∈ vf
        · simp only [h, if_true, List.mem_cons] at hd
          rcases hd with e | hm
          · subst e; exact List.mem_cons_self _ _
          · have := ih rest (by simp at hl; omega) d hm
            exact List.mem_cons_of_mem _ (List.mem_cons_of_mem _ this)
        · simp only [h, if_false, List.mem_cons] at hd
          rcases hd with e | hm
          · subst e; exact List.mem_cons_self _ _
          · have := ih (b :: rest) (by simp at hl ⊢; omega) d hm
            exact List.mem_cons_of_mem _ this

/-- The argument loop of `showText` returns, and the text edit is read-only
unless `--editable` is among the directives. -/
theorem showText_readOnly (readFile : QString → Option QString) (self : App)
    (args : QStringList) :
    ∃ dlg : TextDialog,
      showText readFile self args = some (0, { self with m_dialog := some (Dialog.text dlg) }) ∧
      dlg.readOnly = !(directives textValueFlags args).any
        (fun d => decide (d.1 = "--editable".toList)) := by
  obtain ⟨st, hst, hr⟩ := forArgs_project args textValueFlags (showTextBody readFile args)
    (fun st => st.1.readOnly) (fun r d => if d.1 = "--editable".toList then false else r)
    (fun i st _ => showTextBody_step readFile args i st)
    args.length 0 ({ readOnly := true }, true) (by omega)
  rw [foldl_readOnly, List.drop_zero] at hr
  unfold showText
  simp only [hst]
  exact ⟨_, rfl, by simpa using hr⟩

/-! ## Claims on the text dialog -/

/-- C27: `showText` returns 0 with a text dialog that is read-only unless
`--editable` is among its directives, so always when no token is
`--editable`. Accepting it in mode TextInfo while read-only ends in the
`List` case of the switch, there being neither slider nor tree, which writes
the join of the empty list, one empty line, and exits with code 0, whatever
text the text edit holds; accepting it while editable writes the text of the
text edit and a newline and exits with code 0. -/
theorem read_only_text_prints_empty_line (readFile : QString → Option QString)
    (dateToString : QDate → Option QString → QString) (self app : App) (args : QStringList)
    (plainText : QString) :
    ∃ dlg : TextDialog,
      showText readFile self args = some (0, { self with m_dialog := some (Dialog.text dlg) }) ∧
      ("--editable".toList ∉ args → dlg.readOnly = true) ∧
      (dlg.readOnly = false ↔
        ∃ d ∈ directives textValueFlags args, d.1 = "--editable".toList) ∧
      (app.m_type = DialogType.TextInfo → dlg.readOnly = true →
        dialogFinished dateToString app (textSender dlg plainText) 1
            = some (finishList app (textSender dlg plainText)) ∧
        finishList app (textSender dlg plainText)
            = { app := { app with out := app.out ++ [Printed.text ['\n']] }, exitCode := 0 }) ∧
      (app.m_type = DialogType.TextInfo → dlg.readOnly = false →
        dialogFinished dateToString app (textSender dlg plainText) 1
            = some { app := { app with out := app.out ++ [Printed.text (plainText ++ ['\n'])] },
                     exitCode := 0 }) := by
  obtain ⟨dlg, hshow, hro⟩ := showText_readOnly readFile self args
  have hiff : dlg.readOnly = false ↔
      ∃ d ∈ directives textValueFlags args, d.1 = "--editable".toList := by
    rw [hro]
    simp [List.any_eq_true]
  refine ⟨dlg, hshow, ?_, hiff, ?_, ?_⟩
  · intro hno
    cases hr : dlg.readOnly with
    | true => rfl
    | false =>
      obtain ⟨d, hd, he⟩ := hiff.mp hr
      have hmem := mem_of_mem_directives textValueFlags args.length args (Nat.le_refl _) d hd
      rw [he] at hmem
      exact absurd hmem hno
  · intro ht hr
    constructor
    · unfold dialogFinished
      rw [if_neg (by decide), ht]
      simp only [textSender, hr]
      rfl
    · rfl
  · intro ht hr
    have h : dialogFinished dateToString app (textSender dlg plainText) 1
        = some (printLine app plainText) := by
      unfold dialogFinished
      rw [if_neg (by decide), ht]
      simp only [textSender, hr]
    exact h

/-- C27 at `--text-info --font mono` and at `--text-info --editable`, with
the text `abc` in the text edit. -/
theorem read_only_text_prints_empty_line_witness :
    "--editable".toList ∉ ["--text-info".toList, "--font".toList, "mono".toList] ∧
    (∃ dlg : TextDialog,
      showText (fun _ => none) {} ["--text-info".toList, "--font".toList, "mono".toList]
        = some (0, { m_dialog := some (Dialog.text dlg) }) ∧
      dlg.readOnly = true ∧
      dialogFinished (fun _ _ => []) { m_type := DialogType.TextInfo }
          (textSender dlg "abc".toList) 1
        = some { app := { m_type := DialogType.TextInfo, out := [Printed.text ['\n']] },
                 exitCode := 0 }) ∧
    (showText (fun _ => none) {} ["--text-info".toList, "--editable".toList]).map
        (fun r => r.2.m_dialog.map (fun d =>
          dialogFinished (fun _ _ => []) { m_type := DialogType.TextInfo }
            (match d with
             | Dialog.text dlg => textSender dlg "abc".toList
             | _ => {}) 1))
      = some (some (some { app := { m_type := DialogType.TextInfo,
                                    out := [Printed.text "abc\n".toList] },
                           exitCode := 0 })) :=
  ⟨by decide,
   match read_only_text_prints_empty_line (fun _ => none) (fun _ _ => []) {}
      { m_type := DialogType.TextInfo } ["--text-info".toList, "--font".toList, "mono".toList]
      "abc".toList with
   | ⟨dlg, h1, h2, _, h4, _⟩ =>
     ⟨dlg, h1, h2 (by decide), ((h4 rfl (h2 (by decide))).1).trans
       (congrArg some (h4 rfl (h2 (by decide))).2)⟩,
   by decide⟩

/-! ## The exclusive check list: proofs -/

theorem withItems_self (st : ListState) : st.withItems st.dlg.tree.topLevelItems = st := rfl

theorem setChecked_length (items : List QTreeWidgetItem) (i : Nat) (b : Bool) :
    (setChecked items i b).length = items.length := by
  unfold setChecked
  cases items[i]? <;> simp

theorem setChecked_getElem? (items : List QTreeWidgetItem) (i j : Nat) (b : Bool) :
    (setChecked items i b)[j]?
      = if i = j then items[j]?.map (fun twi => { twi with checked := b }) else items[j]? := by
  unfold setChecked
  cases h : items[i]? with
  | none =>
    by_cases e : i = j
    · subst e; simp [h]
    · simp [e]
  | some twi =>
    by_cases e : i = j
    · subst e
      simp only [List.getElem?_set, if_true, h, Option.map_some']
      have hlt : i < items.length := by
        by_contra hc
        rw [List.getElem?_eq_none (by omega)] at h
        cases h
      simp [hlt]
    · simp [List.getElem?_set, e]

theorem setChecked_self (items : List QTreeWidgetItem) (i : Nat) (b : Bool)
    (h : ∀ twi, items[i]? = some twi → twi.checked = b) : setChecked items i b = items := by
  apply List.ext_getElem?
  intro j
  rw [setChecked_getElem?]
  by_cases e : i = j
  · subst e
    rw [if_pos rfl]
    cases hi : items[i]? with
    | none => rfl
    | some twi =>
      have := h twi hi
      subst this
      rfl
  · rw [if_neg e]

theorem uncheckFrom_getElem? (i item : Nat) (items : List QTreeWidgetItem) (j : Nat) :
    (uncheckFrom i item items)[j]?
      = if i ≤ j ∧ j ≠ item then items[j]?.map (fun twi => { twi with checked := false })
        else items[j]? := by
  unfold uncheckFrom
  rw [List.getElem?_mapIdx]
  by_cases h : i ≤ j ∧ j ≠ item
  · simp only [h, and_self, ne_eq, not_false_eq_true, if_true]
  · rw [if_neg h]
    simp only [h, if_false, Option.map_id']

theorem uncheckFrom_length (i item : Nat) (items : List QTreeWidgetItem) :
    (uncheckFrom i item items).length = items.length := by
  unfold uncheckFrom
  simp

theorem uncheckFrom_beyond (i item : Nat) (items : List QTreeWidgetItem)
    (h : items.length ≤ i) : uncheckFrom i item items = items := by
  apply List.ext_getElem?
  intro j
  rw [uncheckFrom_getElem?]
  by_cases hj : i ≤ j ∧ j ≠ item
  · rw [if_pos hj, List.getElem?_eq_none (by omega)]
    rfl
  · rw [if_neg hj]

theorem uncheckFrom_skip (i : Nat) (items : List QTreeWidgetItem) :
    uncheckFrom (i + 1) i items = uncheckFrom i i items := by
  apply List.ext_getElem?
  intro j
  rw [uncheckFrom_getElem?, uncheckFrom_getElem?]
  by_cases hj : i + 1 ≤ j ∧ j ≠ i
  · have hj2 : i ≤ j ∧ j ≠ i := ⟨by omega, hj.2⟩
    rw [if_pos hj, if_pos hj2]
  · have hj2 : ¬ (i ≤ j ∧ j ≠ i) := by omega
    rw [if_neg hj, if_neg hj2]

theorem uncheckFrom_step (i item : Nat) (items : List QTreeWidgetItem) (h : i ≠ item) :
    uncheckFrom (i + 1) item (setChecked items i false) = uncheckFrom i item items := by
  apply List.ext_getElem?
  intro j
  rw [uncheckFrom_getElem?, uncheckFrom_getElem?, setChecked_getElem?]
  by_cases e : i = j
  · subst e
    have h1 : ¬ (i + 1 ≤ i ∧ i ≠ item) := by omega
    have h2 : i ≤ i ∧ i ≠ item := ⟨Nat.le_refl _, h⟩
    rw [if_neg h1, if_pos rfl, if_pos h2]
  · rw [if_neg e]
    by_cases hj : i + 1 ≤ j ∧ j ≠ item
    · have hj2 : i ≤ j ∧ j ≠ item := ⟨by omega, hj.2⟩
      rw [if_pos hj, if_pos hj2]
    · have hj2 : ¬ (i ≤ j ∧ j ≠ item) := by omega
      rw [if_neg hj, if_neg hj2]

/-- A call of `toggleItems` for another column, or while it is running, returns at once. -/
theorem toggleItems_guard (fuel : Nat) (st : ListState) (item : Nat) (column : Int)
    (h : column ≠ 0 ∨ st.recursion = true) :
    toggleItems (fuel + 1) st item column = some st := by
  rw [toggleItems]
  rcases h with h | h
  · rw [if_pos h]
  · by_cases hc : column ≠ 0
    · rw [if_pos hc]
    · rw [if_neg hc, if_pos h]

/-- While `toggleItems` is running, unchecking a row leaves the row
unchecked and nothing else changed: the signal it emits comes back to
`toggleItems`, which returns at once. -/
theorem setCheckState_nested (fuel : Nat) (st : ListState) (i : Nat)
    (hr : st.recursion = true) :
    setCheckState (fuel + 2) st i false
      = some (st.withItems (setChecked st.dlg.tree.topLevelItems i false)) := by
  rw [setCheckState]
  cases hi : st.dlg.tree.topLevelItems[i]? with
  | none =>
    have hs : setChecked st.dlg.tree.topLevelItems i false = st.dlg.tree.topLevelItems :=
      setChecked_self _ _ _ (fun twi h => by rw [hi] at h; cases h)
    rw [hs]
    rfl
  | some twi =>
    simp only
    by_cases hc : twi.checked = false
    · have hs : setChecked st.dlg.tree.topLevelItems i false = st.dlg.tree.topLevelItems :=
        setChecked_self _ _ _ (fun t h => by rw [hi] at h; cases h; exact hc)
      rw [if_pos hc, hs]
      rfl
    · rw [if_neg hc]
      by_cases hcon : st.dlg.toggleItemsConnected = true
      · have hcon2 :
            (st.withItems (setChecked st.dlg.tree.topLevelItems i false)).dlg.toggleItemsConnected
              = true := hcon
        rw [if_pos hcon2]
        exact toggleItems_guard fuel _ i 0 (Or.inr hr)
      · have hcon2 :
            ¬ (st.withItems (setChecked st.dlg.tree.topLevelItems i false)).dlg.toggleItemsConnected
              = true := hcon
        rw [if_neg hcon2]

/-- The loop of `toggleItems` returns and unchecks the rows it visits, other
than the row of the signal. -/
theorem toggleLoop_spec (item : Nat) (fuel : Nat) :
    ∀ (st : ListState) (i : Nat), st.recursion = true →
      st.dlg.tree.topLevelItems.length - i + 2 ≤ fuel →
      toggleLoop fuel st item i
        = some (st.withItems (uncheckFrom i item st.dlg.tree.topLevelItems)) := by
  induction fuel with
  | zero => intro st i _ hf; omega
  | succ fuel ih =>
    intro st i hr hf
    rw [toggleLoop]
    by_cases hi : i < st.dlg.tree.topLevelItems.length
    · rw [if_pos hi]
      by_cases he : i ≠ item
      · obtain ⟨f2, hf2⟩ : ∃ f2, fuel = f2 + 2 := ⟨fuel - 2, by omega⟩
        rw [if_pos he, hf2, setCheckState_nested f2 st i hr, ← hf2]
        simp only
        rw [ih (st.withItems (setChecked st.dlg.tree.topLevelItems i false)) (i + 1) hr (by
          show (setChecked st.dlg.tree.topLevelItems i false).length - (i + 1) + 2 ≤ fuel
          rw [setChecked_length]; omega)]
        show some (st.withItems (uncheckFrom (i + 1) item
          (setChecked st.dlg.tree.topLevelItems i false))) = _
        rw [uncheckFrom_step i item _ he]
      · have he2 : i = item := by
          by_contra hc; exact he hc
        rw [if_neg he, ih st (i + 1) hr (by omega), ← he2, uncheckFrom_skip]
    · rw [if_neg hi, uncheckFrom_beyond i item _ (by omega)]
      rfl

/-- A call of `toggleItems` for column 0 from outside returns, with every
row other than the row of the signal unchecked and that row as it was. -/
theorem toggleItems_spec (fuel : Nat) (st : ListState) (item : Nat)
    (hr : st.recursion = false) (hf : st.dlg.tree.topLevelItems.length + 3 ≤ fuel) :
    toggleItems fuel st item 0
      = some (st.withItems (uncheckFrom 0 item st.dlg.tree.topLevelItems)) := by
  obtain ⟨f1, hf1⟩ : ∃ f1, fuel = f1 + 1 := ⟨fuel - 1, by omega⟩
  rw [hf1, toggleItems, if_neg (by simp), hr]
  simp only [Bool.false_eq_true, if_false]
  rw [toggleLoop_spec item f1 { st with recursion := true } 0 rfl (by
    show st.dlg.tree.topLevelItems.length - 0 + 2 ≤ f1
    omega)]
  simp only [ListState.withItems]
  rw [← hr]

/-- A change of a check state by the user, in an exclusive list at rest: the
call returns; either the row had that state and nothing changes, or the row
takes the state and every other row is unchecked. -/
theorem setCheckState_user (fuel : Nat) (st : ListState) (k : Nat) (b : Bool)
    (hr : st.recursion = false) (hcon : st.dlg.toggleItemsConnected = true)
    (hf : st.dlg.tree.topLevelItems.length + 4 ≤ fuel) :
    setCheckState fuel st k b = some st ∨
    setCheckState fuel st k b
      = some (st.withItems (uncheckFrom 0 k (setChecked st.dlg.tree.topLevelItems k b))) := by
  obtain ⟨f1, hf1⟩ : ∃ f1, fuel = f1 + 1 := ⟨fuel - 1, by omega⟩
  rw [hf1, setCheckState]
  cases hi : st.dlg.tree.topLevelItems[k]? with
  | none => exact Or.inl rfl
  | some twi =>
    simp only
    by_cases hc : twi.checked = b
    · rw [if_pos hc]
      exact Or.inl rfl
    · right
      have hcon2 :
          (st.withItems (setChecked st.dlg.tree.topLevelItems k b)).dlg.toggleItemsConnected
            = true := hcon
      rw [if_neg hc, if_pos hcon2,
        toggleItems_spec f1 (st.withItems (setChecked st.dlg.tree.topLevelItems k b)) k hr (by
          show (setChecked st.dlg.tree.topLevelItems k b).length + 3 ≤ f1
          rw [setChecked_length]; omega)]
      rfl

theorem atMostOneChecked_uncheckFrom (k : Nat) (items : List QTreeWidgetItem) :
    atMostOneChecked (uncheckFrom 0 k items) := by
  have hk : ∀ i : Nat, ((uncheckFrom 0 k items)[i]?.map (fun twi => twi.checked)) = some true →
      i = k := by
    intro i hi
    by_contra hne
    rw [uncheckFrom_getElem?, if_pos ⟨Nat.zero_le _, hne⟩] at hi
    cases h : items[i]? with
    | none => rw [h] at hi; cases hi
    | some twi => rw [h] at hi; cases hi
  intro i j hi hj
  rw [hk i hi, hk j hj]

theorem userChanges_spec (fuel : Nat) (changes : List (Nat × Bool)) :
    ∀ st : ListState, st.recursion = false → st.dlg.toggleItemsConnected = true →
      st.dlg.tree.topLevelItems.length + 4 ≤ fuel →
      atMostOneChecked st.dlg.tree.topLevelItems →
      ∃ st1, userChanges fuel st changes = some st1 ∧ st1.recursion = false ∧
        st1.dlg.tree.topLevelItems.length = st.dlg.tree.topLevelItems.length ∧
        atMostOneChecked st1.dlg.tree.topLevelItems := by
  induction changes with
  | nil => intro st hr _ _ h1; exact ⟨st, rfl, hr, rfl, h1⟩
  | cons c rest ih =>
    intro st hr hcon hf h1
    obtain ⟨k, b⟩ := c
    rw [userChanges]
    rcases setCheckState_user fuel st k b hr hcon hf with h | h
    · rw [h]
      exact ih st hr hcon hf h1
    · rw [h]
      have hlen : (st.withItems (uncheckFrom 0 k
          (setChecked st.dlg.tree.topLevelItems k b))).dlg.tree.topLevelItems.length
          = st.dlg.tree.topLevelItems.length := by
        show (uncheckFrom 0 k (setChecked st.dlg.tree.topLevelItems k b)).length = _
        rw [uncheckFrom_length, setChecked_length]
      obtain ⟨st1, e1, e2, e3, e4⟩ := ih
        (st.withItems (uncheckFrom 0 k (setChecked st.dlg.tree.topLevelItems k b)))
        hr hcon (by rw [hlen]; exact hf) (atMostOneChecked_uncheckFrom k _)
      exact ⟨st1, e1, e2, e3.trans hlen, e4⟩

theorem showListItem_checked (editable checkable icons : Bool) (itemValues : QStringList) :
    (showListItem editable checkable icons itemValues).checked = false := by
  cases editable <;> cases checkable <;> cases icons <;> rfl

theorem showListApply_exclusive (v : ListVars) (d : QString × QString) :
    (showListApply v d).exclusive = (v.exclusive || decide (d.1 = "--radiolist".toList)) := by
  obtain ⟨a, b⟩ := d
  by_cases hm : a ∈ listFlags
  · simp only [listFlags, List.mem_cons, List.mem_singleton, List.not_mem_nil, or_false] at hm
    rcases hm with h | h | h | h | h | h | h | h | h | h | h <;> subst h
    all_goals first
      | (show _ = (v.exclusive || false); rw [Bool.or_false]; rfl)
      | (show _ = (v.exclusive || true); rw [Bool.or_true]; rfl)
      | (show (match toInt b with
            | some n => _
            | none => _ : ListVars).exclusive = (v.exclusive || false)
         rw [Bool.or_false]
         cases toInt b <;> rfl)
  · simp only [listFlags, List.mem_cons, List.mem_singleton, List.not_mem_nil, or_false,
      not_or] at hm
    simp only [showListApply, hm, if_false, decide_False, Bool.or_false]
    by_cases hl : a = "--list".toList
    · subst hl; simp
    · simp only [hl, ne_eq, not_false_eq_true, if_true]

theorem foldl_or (ds : List (QString × QString)) :
    ∀ e : Bool,
      ds.foldl (fun e d => e || decide (d.1 = "--radiolist".toList)) e
        = (e || ds.any (fun d => decide (d.1 = "--radiolist".toList))) := by
  induction ds with
  | nil => intro e; simp
  | cons d ds ih =>
    intro e
    rw [List.foldl_cons, ih, List.any_cons, Bool.or_assoc]

/-- The dialog of `showList`: `itemChanged` is connected to `toggleItems`
exactly when `--radiolist` is among the directives, and no row is checked. -/
theorem showList_exclusive (self : App) (args : QStringList) :
    ∃ dlg : ListDialog,
      showList self args = some (0, { self with m_dialog := some (Dialog.list dlg) }) ∧
      dlg.toggleItemsConnected
        = (directives listValueFlags args).any (fun d => decide (d.1 = "--radiolist".toList)) ∧
      ∀ twi ∈ dlg.tree.topLevelItems, twi.checked = false := by
  obtain ⟨v, hv, hex⟩ := forArgs_project args listValueFlags (showListBody args)
    (fun v => v.exclusive) (fun e d => e || decide (d.1 = "--radiolist".toList))
    (fun i st _ => ⟨_, showListBody_eq args i st, showListApply_exclusive st _⟩)
    args.length 0
    { dlg := { tree := { selectionMode := SelectionMode.SingleSelection,
                         allColumnsShowFocus := true } } } (by omega)
  obtain ⟨rows, hrows, _⟩ := rowsLoop_spec v.values (max v.columns.length 1) (by omega)
    v.values.length 0 [] (by omega)
  rw [foldl_or, List.drop_zero] at hex
  unfold showList
  simp only [hv, hrows, List.nil_append]
  refine ⟨_, rfl, by simpa using hex, ?_⟩
  intro twi htwi
  obtain ⟨row, _, hrow⟩ := List.mem_map.mp htwi
  rw [← hrow]
  exact showListItem_checked _ _ _ _

/-! ## Claims on the exclusive check list -/

/-- C24: with `--radiolist` among its directives `showList` builds a dialog
with `itemChanged` connected to `toggleItems` and no row checked. From there,
with fuel for the rows, every sequence of check-state changes by the user
returns, leaves at most one top-level row checked and `toggleItems` at rest.
A call of `toggleItems` for column 0 from outside returns with every row
other than the row of the signal unchecked and that row as it was; a call for
another column, or while `toggleItems` is running, returns with nothing
changed. -/
theorem exclusive_check_list (self : App) (args : QStringList) (changes : List (Nat × Bool))
    (fuel : Nat)
    (hradio : ∃ d ∈ directives listValueFlags args, d.1 = "--radiolist".toList) :
    ∃ dlg : ListDialog,
      showList self args = some (0, { self with m_dialog := some (Dialog.list dlg) }) ∧
      dlg.toggleItemsConnected = true ∧
      (∀ twi ∈ dlg.tree.topLevelItems, twi.checked = false) ∧
      (dlg.tree.topLevelItems.length + 4 ≤ fuel →
        ∃ st, userChanges fuel { dlg := dlg } changes = some st ∧
          atMostOneChecked st.dlg.tree.topLevelItems ∧ st.recursion = false) ∧
      (∀ (st : ListState) (item : Nat), st.recursion = false →
        st.dlg.tree.topLevelItems.length + 3 ≤ fuel →
        toggleItems fuel st item 0
          = some (st.withItems (uncheckFrom 0 item st.dlg.tree.topLevelItems))) ∧
      (∀ (st : ListState) (item : Nat) (column : Int), 0 < fuel →
        column ≠ 0 ∨ st.recursion = true → toggleItems fuel st item column = some st) := by
  obtain ⟨dlg, hshow, hcon, hunchecked⟩ := showList_exclusive self args
  have hcon1 : dlg.toggleItemsConnected = true := by
    rw [hcon, List.any_eq_true]
    obtain ⟨d, hd, he⟩ := hradio
    exact ⟨d, hd, by simpa using he⟩
  refine ⟨dlg, hshow, hcon1, hunchecked, ?_, ?_, ?_⟩
  · intro hf
    have h0 : atMostOneChecked dlg.tree.topLevelItems := by
      intro i j hi _
      cases h : dlg.tree.topLevelItems[i]? with
      | none => rw [h] at hi; cases hi
      | some twi =>
        rw [h, Option.map_some', hunchecked twi (List.mem_iff_getElem?.mpr ⟨i, h⟩)] at hi
        cases hi
    obtain ⟨st, e1, e2, _, e4⟩ := userChanges_spec fuel changes { dlg := dlg } rfl hcon1 hf h0
    exact ⟨st, e1, e4, e2⟩
  · intro st item hr hf
    exact toggleItems_spec fuel st item hr hf
  · intro st item column hf h
    obtain ⟨f1, hf1⟩ : ∃ f1, fuel = f1 + 1 := ⟨fuel - 1, by omega⟩
    rw [hf1]
    exact toggleItems_guard f1 st item column h

/-- C24 at `--list --radiolist a b`, where the user checks the first row
and then the second: the second row alone is checked. -/
theorem exclusive_check_list_witness :
    (∃ d ∈ directives listValueFlags
        ["--list".toList, "--radiolist".toList, "a".toList, "b".toList],
      d.1 = "--radiolist".toList) ∧
    (∃ dlg : ListDialog,
      showList {} ["--list".toList, "--radiolist".toList, "a".toList, "b".toList]
        = some (0, { m_dialog := some (Dialog.list dlg) }) ∧
      dlg.toggleItemsConnected = true ∧
      (∀ twi ∈ dlg.tree.topLevelItems, twi.checked = false)) ∧
    showList {} ["--list".toList, "--radiolist".toList, "a".toList, "b".toList]
      = some (0, { m_dialog := some (Dialog.list radioList0) }) ∧
    (userChanges 6 { dlg := radioList0 } [(0, true), (1, true)]).map
        (fun st => (st.dlg.tree.topLevelItems.map (fun twi => twi.checked), st.recursion))
      = some ([false, true], false) :=
  ⟨⟨("--radiolist".toList, []), by decide, rfl⟩,
   match exclusive_check_list {}
        ["--list".toList, "--radiolist".toList, "a".toList, "b".toList]
        [(0, true), (1, true)] 6 ⟨("--radiolist".toList, []), by decide, rfl⟩ with
   | ⟨dlg, h1, h2, h3, _⟩ => ⟨dlg, h1, h2, h3⟩,
   by decide, by decide⟩

/-! ## The text protocol: proofs -/

/-- What the handler does with the text and the buffer, given that the text
edit shows the new text as it is: while the animation is running the text
stays and the buffer takes the chunk; otherwise the text takes buffer and
chunk and the buffer is empty. -/
theorem readStdInText_spec (shown : QString → QString) (st : TextState) (notifier : Bool)
    (ba : QString) (diff : Int)
    (hinv : notifier = true → animating st = false → st.cachedText = [])
    (hshown : shown (st.plainText ++ st.cachedText ++ ba) = st.plainText ++ st.cachedText ++ ba) :
    (animating st = true →
      (readStdInText shown st notifier ba diff).plainText = st.plainText ∧
      (readStdInText shown st notifier ba diff).cachedText = st.cachedText ++ ba ∧
      animating (readStdInText shown st notifier ba diff) = true) ∧
    (animating st = false →
      (readStdInText shown st notifier ba diff).plainText = st.plainText ++ st.cachedText ++ ba ∧
      (readStdInText shown st notifier ba diff).cachedText = []) := by
  obtain ⟨text, scroll, cached, animator⟩ := st
  have han : ∀ c : QString, animating ⟨text, scroll, c, animator⟩
      = animating ⟨text, scroll, cached, animator⟩ := fun _ => rfl
  simp only [List.append_assoc] at hshown
  constructor
  · intro hrun
    unfold readStdInText
    simp only [han, hrun, Bool.not_true, Bool.false_eq_true, if_false]
    by_cases h1 : ba = [] ∧ notifier = true
    · rw [if_pos h1]
      exact ⟨rfl, by simp [h1.1], hrun⟩
    · rw [if_neg h1]
      by_cases h2 : ba = [] ∧ cached = []
      · rw [if_pos h2]
        exact ⟨rfl, by simp [h2.1], hrun⟩
      · rw [if_neg h2]
        exact ⟨rfl, rfl, hrun⟩
  · intro hrun
    unfold readStdInText
    simp only [han, hrun, Bool.not_false, if_true, hshown]
    by_cases h1 : ba = [] ∧ notifier = true
    · have hc : cached = [] := hinv h1.2 hrun
      rw [if_pos h1]
      exact ⟨by simp [h1.1, hc], hc⟩
    · rw [if_neg h1]
      by_cases h2 : ba = [] ∧ cached = []
      · rw [if_pos h2]
        exact ⟨by simp [h2.1, h2.2], h2.2⟩
      · rw [if_neg h2]
        split_ifs <;> exact ⟨(List.append_assoc _ _ _).symm, rfl⟩

theorem animating_stopped (st : TextState) :
    animating { st with animator := st.animator.map (fun a => { a with running := false }) }
      = false := by
  unfold animating
  cases st.animator <;> rfl

/-- One call: the text followed by the buffer grows by the chunk; a call
while the animation is running leaves the text and puts the chunk into the
buffer, any other call moves buffer and chunk into the text; and after the
call the buffer is empty unless the animation is running. -/
theorem textCall_spec (shown : QString → QString) (st : TextState) (c : StdInCall)
    (hinv : animating st = false → st.cachedText = [])
    (hshown : shown (st.plainText ++ st.cachedText ++ c.chunk)
      = st.plainText ++ st.cachedText ++ c.chunk) :
    (textCall shown st c).plainText ++ (textCall shown st c).cachedText
      = st.plainText ++ st.cachedText ++ c.chunk ∧
    (animating (textCall shown st c) = false → (textCall shown st c).cachedText = []) ∧
    (c.whileAnimating st = true →
      (textCall shown st c).plainText = st.plainText ∧
      (textCall shown st c).cachedText = st.cachedText ++ c.chunk) ∧
    (c.whileAnimating st = false →
      (textCall shown st c).cachedText = [] ∧
      (textCall shown st c).plainText = st.plainText ++ st.cachedText ++ c.chunk) := by
  cases c with
  | activated ba diff =>
    simp only [textCall, StdInCall.chunk, StdInCall.whileAnimating] at hshown ⊢
    obtain ⟨h1, h2⟩ := readStdInText_spec shown st true ba diff (fun _ => hinv) hshown
    cases hrun : animating st with
    | true =>
      obtain ⟨e1, e2, e3⟩ := h1 hrun
      rw [e1, e2, e3]
      simp
    | false =>
      obtain ⟨e1, e2⟩ := h2 hrun
      rw [e1, e2]
      simp
  | finished ba diff =>
    simp only [textCall, StdInCall.chunk, StdInCall.whileAnimating] at hshown ⊢
    obtain ⟨_, h2⟩ := readStdInText_spec shown
      { st with animator := st.animator.map (fun a => { a with running := false }) }
      false ba diff (fun h => by cases h) hshown
    obtain ⟨e1, e2⟩ := h2 (animating_stopped st)
    rw [e1, e2]
    simp

theorem received_snoc (calls : List StdInCall) (c : StdInCall) :
    received (calls ++ [c]) = received calls ++ c.chunk := by
  unfold received
  simp

/-- Over any calls, from statics at their initial values: the text followed
by the buffer is the first text followed by the chunks, and the buffer is
empty unless the animation is running. -/
theorem textCalls_invariant (shown : QString → QString) (st0 : TextState)
    (h0 : st0.cachedText = []) (calls : List StdInCall) :
    (∀ k, shown (st0.plainText ++ received (calls.take k))
      = st0.plainText ++ received (calls.take k)) →
    (calls.foldl (textCall shown) st0).plainText ++ (calls.foldl (textCall shown) st0).cachedText
      = st0.plainText ++ received calls ∧
    (animating (calls.foldl (textCall shown) st0) = false →
      (calls.foldl (textCall shown) st0).cachedText = []) := by
  induction calls using List.reverseRecOn with
  | nil =>
    intro _
    exact ⟨by rw [List.foldl_nil, h0]; rfl, fun _ => h0⟩
  | append_singleton l c ih =>
    intro hshown
    have hl : ∀ k, shown (st0.plainText ++ received (l.take k))
        = st0.plainText ++ received (l.take k) := by
      intro k
      have := hshown (min k l.length)
      rw [List.take_append_of_le_length (Nat.min_le_right _ _)] at this
      have ht : l.take (min k l.length) = l.take k := by
        by_cases hk : k ≤ l.length
        · rw [Nat.min_eq_left hk]
        · rw [Nat.min_eq_right (by omega), List.take_length,
            List.take_of_length_le (by omega)]
      rw [ht] at this
      exact this
    obtain ⟨i1, i2⟩ := ih hl
    have hfull := hshown (l.length + 1)
    rw [List.take_of_length_le (by simp), received_snoc, ← List.append_assoc, ← i1] at hfull
    obtain ⟨s1, s2, _, _⟩ := textCall_spec shown (l.foldl (textCall shown) st0) c i2 hfull
    rw [List.foldl_append, List.foldl_cons, List.foldl_nil, received_snoc, ← List.append_assoc,
      ← i1]
    exact ⟨s1, s2⟩

/-! ## Claims on the text protocol -/

/-- C23: let the static `cachedText` be empty at first and let the text edit
show the texts it is given as they are. Then after every call of the handler,
by the notifier or by the end of the animation, with or without the
animation running, the text followed by the buffer is the first text followed
by all chunks read so far, in their order. A call made while the animation
is running leaves the text as it is and appends the chunk to the buffer; any
other call leaves the buffer empty and the text grown by buffer and chunk. -/
theorem text_buffering (shown : QString → QString) (st0 : TextState)
    (calls : List StdInCall) (c : StdInCall) (h0 : st0.cachedText = [])
    (hshown : ∀ k, shown (st0.plainText ++ received ((calls ++ [c]).take k))
      = st0.plainText ++ received ((calls ++ [c]).take k)) :
    (textCall shown (calls.foldl (textCall shown) st0) c).plainText
        ++ (textCall shown (calls.foldl (textCall shown) st0) c).cachedText
      = st0.plainText ++ received (calls ++ [c]) ∧
    (c.whileAnimating (calls.foldl (textCall shown) st0) = true →
      (textCall shown (calls.foldl (textCall shown) st0) c).plainText
        = (calls.foldl (textCall shown) st0).plainText ∧
      (textCall shown (calls.foldl (textCall shown) st0) c).cachedText
        = (calls.foldl (textCall shown) st0).cachedText ++ c.chunk) ∧
    (c.whileAnimating (calls.foldl (textCall shown) st0) = false →
      (textCall shown (calls.foldl (textCall shown) st0) c).cachedText = [] ∧
      (textCall shown (calls.foldl (textCall shown) st0) c).plainText
        = (calls.foldl (textCall shown) st0).plainText
            ++ (calls.foldl (textCall shown) st0).cachedText ++ c.chunk) := by
  have hl : ∀ k, shown (st0.plainText ++ received (calls.take k))
      = st0.plainText ++ received (calls.take k) := by
    intro k
    have ht : (calls ++ [c]).take (min k calls.length) = calls.take k := by
      rw [List.take_append_of_le_length (Nat.min_le_right _ _)]
      by_cases hk : k ≤ calls.length
      · rw [Nat.min_eq_left hk]
      · rw [Nat.min_eq_right (by omega), List.take_length,
          List.take_of_length_le (by omega)]
    have := hshown (min k calls.length)
    rw [ht] at this
    exact this
  obtain ⟨i1, i2⟩ := textCalls_invariant shown st0 h0 calls hl
  have hfull := hshown (calls.length + 1)
  rw [List.take_of_length_le (by simp), received_snoc, ← List.append_assoc, ← i1] at hfull
  obtain ⟨s1, _, s3, s4⟩ := textCall_spec shown (calls.foldl (textCall shown) st0) c i2 hfull
  refine ⟨?_, s3, s4⟩
  rw [s1, i1, received_snoc, List.append_assoc]

/-- C23 at the text `a` with auto-scroll: the chunk `b` is shown and starts
the animation, the chunk `c` waits in the buffer, and the end of the
animation moves it into the text. -/
theorem text_buffering_witness :
    ({ plainText := "a".toList, qarma_autoscroll := true } : TextState).cachedText = [] ∧
    [StdInCall.activated "b".toList 10, StdInCall.activated "c".toList 0].foldl
        (textCall (fun s => s)) { plainText := "a".toList, qarma_autoscroll := true }
      = { plainText := "ab".toList, qarma_autoscroll := true, cachedText := "c".toList,
          animator := some { running := true, duration := 200 } } ∧
    (textCall (fun s => s)
        ([StdInCall.activated "b".toList 10, StdInCall.activated "c".toList 0].foldl
          (textCall (fun s => s)) { plainText := "a".toList, qarma_autoscroll := true })
        (StdInCall.finished [] 0)).plainText
      ++ (textCall (fun s => s)
        ([StdInCall.activated "b".toList 10, StdInCall.activated "c".toList 0].foldl
          (textCall (fun s => s)) { plainText := "a".toList, qarma_autoscroll := true })
        (StdInCall.finished [] 0)).cachedText
      = "a".toList ++ received [StdInCall.activated "b".toList 10,
          StdInCall.activated "c".toList 0, StdInCall.finished [] 0] ∧
    textCall (fun s => s)
        ([StdInCall.activated "b".toList 10, StdInCall.activated "c".toList 0].foldl
          (textCall (fun s => s)) { plainText := "a".toList, qarma_autoscroll := true })
        (StdInCall.finished [] 0)
      = { plainText := "abc".toList, qarma_autoscroll := true, cachedText := [],
          animator := some { running := false, duration := 200 } } :=
  ⟨rfl, by decide,
   (text_buffering (fun s => s) { plainText := "a".toList, qarma_autoscroll := true }
      [StdInCall.activated "b".toList 10, StdInCall.activated "c".toList 0]
      (StdInCall.finished [] 0) rfl (fun _ => rfl)).1,
   by decide⟩

end Qarma
